import Mathlib

/-!
# SmartRoute: clustering, centroid filter and waypoint sequencing

A shallow embedding of `public/js/venues.js`, `public/js/routing.js` and
`src/utils/clustering.js`, followed by theorems about it.

Modelling conventions

* JavaScript numbers are exact rationals (`ℚ`).  Rounding, overflow, `NaN` and
  infinite coordinates are outside the model; the only infinities that occur are
  the sentinels `Infinity` / `-Infinity` the code itself writes, and they are
  modelled by `none`.
* `Math.sqrt x` is kept symbolic as `Root.mk x`, the real number `√x`.  Square
  roots are only ever compared, and on non-negative radicands the comparison of
  two roots is the comparison of the radicands (`Root.lt_iff_sqrt_lt`).
* `Math.random()` is a stream `rnd : ℕ → Unit01` of numbers in `[0, 1)`; the
  number of draws consumed so far is threaded through the code as a cursor.
* A run either returns, throws, or exhausts the fuel given to a `while` loop
  (`Outcome`); that enough fuel exists is proved, not assumed.
* Arrays are lists; array length limits and memory are not modelled.
-/

namespace SmartRoute

/-! ## JavaScript runtime model -/

/-- Exceptions the modelled code can raise. -/
inductive JSError where
  | rangeError
  | typeError
deriving DecidableEq, Repr

/-- Outcome of running a piece of the program: a value, an exception, or fuel
exhausted inside an unbounded loop. -/
inductive Outcome (α : Type) where
  | returns (a : α)
  | throws (e : JSError)
  | outOfFuel
deriving DecidableEq, Repr

namespace Outcome

/-- Sequencing: an exception or fuel exhaustion of the first part aborts the rest. -/
def bind {α β : Type} (x : Outcome α) (f : α → Outcome β) : Outcome β :=
  match x with
  | returns a => f a
  | throws e => throws e
  | outOfFuel => outOfFuel

/-- Statement `try { body } catch (error) { handler }`: only exceptions are caught. -/
def tryCatch {α : Type} (body : Outcome α) (handler : JSError → Outcome α) : Outcome α :=
  match body with
  | returns a => returns a
  | throws e => handler e
  | outOfFuel => outOfFuel

end Outcome

instance : Monad Outcome where
  pure := Outcome.returns
  bind := Outcome.bind

/-- Loop `xs.forEach((x, i) => body)` over a state `σ`, starting at index `i`;
an exception raised by the body leaves the loop. -/
def forEachM {α σ : Type} (body : σ → α → Nat → Outcome σ) : List α → Nat → σ → Outcome σ
  | [], _, s => Outcome.returns s
  | x :: xs, i, s =>
    match body s x i with
    | Outcome.returns s1 => forEachM body xs (i + 1) s1
    | Outcome.throws e => Outcome.throws e
    | Outcome.outOfFuel => Outcome.outOfFuel

/-- Loop `xs.forEach((x, i) => body)` whose body cannot raise. -/
def forEach {α σ : Type} (body : σ → α → Nat → σ) : List α → Nat → σ → σ
  | [], _, s => s
  | x :: xs, i, s => forEach body xs (i + 1) (body s x i)

/-- Remainder `i % k` for an index `i ≥ 0`: `NaN` (here `none`) when `k` is `0`,
otherwise the remainder of `i` by `|k|`. -/
def jsMod (i : Nat) (k : Int) : Option Nat :=
  if k = 0 then none else some (i % k.natAbs)

/-- The real number `√radicand`, the value of `Math.sqrt(radicand)`. -/
structure Root where
  radicand : ℚ
deriving DecidableEq, Repr

/-- Function `Math.sqrt`. -/
def Math_sqrt (x : ℚ) : Root := Root.mk x

namespace Root

/-- Comparison `a < b` of two square roots of non-negative radicands. -/
def lt (a b : Root) : Bool := decide (a.radicand < b.radicand)

/-- Comparison `a ≤ b` of two square roots of non-negative radicands. -/
def le (a b : Root) : Bool := decide (a.radicand ≤ b.radicand)

/-- Comparison `d > x` of a square root of a non-negative radicand with a number. -/
def gtNum (d : Root) (x : ℚ) : Bool := decide (x < 0) || decide (x * x < d.radicand)

/-- Comparison `distance < minDistance`, where `minDistance` is `Infinity` (`none`)
or a distance found earlier. -/
def ltMin (distance : Root) (minDistance : Option Root) : Bool :=
  match minDistance with
  | none => true
  | some m => distance.lt m

end Root

/-- A value of `Math.random()`: a number in `[0, 1)`. -/
structure Unit01 where
  val : ℚ
  nonneg : 0 ≤ val
  lt_one : val < 1

/-- Expression `Math.floor(Math.random() * length)` for the drawn value `r`. -/
def randomIndex (r : Unit01) (length : Nat) : Nat :=
  Int.toNat ⌊r.val * (length : ℚ)⌋

/-! ## Data model -/

/-- A venue as delivered by the places provider: `geocodes.main.longitude`,
`geocodes.main.latitude` and its identity. -/
structure Venue where
  name : String
  longitude : ℚ
  latitude : ℚ
deriving DecidableEq, Repr

/-- Expression `Array(k).fill().map(() => [])`: `Array(k)` raises a `RangeError`
for a negative length. -/
def emptyClusters (k : Int) : Outcome (List (List Venue)) :=
  if k < 0 then Outcome.throws JSError.rangeError
  else Outcome.returns (List.replicate k.toNat [])

/-- Update `xs[j]` in place with `f`; `none` when `xs[j]` is `undefined`. -/
def modifyAt {α : Type} (f : α → α) : List α → Nat → Option (List α)
  | [], _ => none
  | a :: as, 0 => some (f a :: as)
  | a :: as, j + 1 => (modifyAt f as j).map (fun r => a :: r)

/-- Statement `venuesByCluster[clusterId].push(venue)`: a `TypeError` when
`venuesByCluster[clusterId]` is `undefined` (index out of range or `NaN`). -/
def pushVenue (venuesByCluster : List (List Venue)) (clusterId : Option Nat) (venue : Venue) :
    Outcome (List (List Venue)) :=
  match clusterId with
  | none => Outcome.throws JSError.typeError
  | some j =>
    match modifyAt (fun cluster => cluster ++ [venue]) venuesByCluster j with
    | some r => Outcome.returns r
    | none => Outcome.throws JSError.typeError

/-! ## Fallback clustering -/

namespace VenueHandler

/-- Method `fallbackClustering(venues, k)` of `public/js/venues.js`. -/
def fallbackClustering (venues : List Venue) (k : Int) : Outcome (List (List Venue)) :=
  (emptyClusters k).bind fun venuesByCluster =>
    forEachM (fun acc venue i => pushVenue acc (jsMod i k) venue) venues 0 venuesByCluster

end VenueHandler

namespace Clustering

/-- Function `fallbackClustering(venues, k)` of `src/utils/clustering.js`. -/
def fallbackClustering (venues : List Venue) (k : Int) : Outcome (List (List Venue)) :=
  (emptyClusters k).bind fun venuesByCluster =>
    forEachM (fun acc venue i => pushVenue acc (jsMod i k) venue) venues 0 venuesByCluster

end Clustering

/-! ## Custom k-means (`public/js/venues.js`) -/

/-- A point `[x, y]`; for a venue, `[longitude, latitude]`. -/
abbrev Point := ℚ × ℚ

/-- Body of the scan `centroids.forEach((centroid, j) => ...)`: the state is
`(minDistance, clusterId)`. -/
def closerStep (point : Point) (s : Option Root × Nat) (centroid : Point) (j : Nat) :
    Option Root × Nat :=
  let distance := Math_sqrt ((point.1 - centroid.1) ^ 2 + (point.2 - centroid.2) ^ 2)
  if distance.ltMin s.1 then (some distance, j) else s

/-- The nearest-centroid scan used by `customKmeans` and by the grouping step:
`minDistance = Infinity; clusterId = 0; centroids.forEach((centroid, j) => ...)`,
returning the final `clusterId`. -/
def closestCentroid (centroids : List Point) (point : Point) : Nat :=
  (forEach (closerStep point) centroids 0 (none, 0)).2

/-- Seeding loop `while (centroids.length < k && centroids.length < points.length)`:
draw an index, keep the point if the index is new.  The loop has no bound of its
own, so it runs on fuel.  Returns the centroids, the set `used` and the cursor of
the random stream. -/
def seedLoop (rnd : Nat → Unit01) (points : List Point) (k : Int) :
    Nat → List Point → List Nat → Nat → Outcome (List Point × List Nat × Nat)
  | 0, centroids, used, t =>
    if (centroids.length : Int) < k ∧ centroids.length < points.length then Outcome.outOfFuel
    else Outcome.returns (centroids, used, t)
  | fuel + 1, centroids, used, t =>
    if (centroids.length : Int) < k ∧ centroids.length < points.length then
      let idx := randomIndex (rnd t) points.length
      if idx ∈ used then seedLoop rnd points k fuel centroids used (t + 1)
      else
        match points[idx]? with
        | some p => seedLoop rnd points k fuel (centroids ++ [p]) (used ++ [idx]) (t + 1)
        | none => Outcome.throws JSError.typeError
    else Outcome.returns (centroids, used, t)

/-- Duplication loop `while (centroids.length < k)
centroids.push([...centroids[centroids.length % used.size]])`; every pass pushes
once, so the first argument is the number `k - centroids.length` of passes. -/
def fillLoop (usedSize : Nat) : Nat → List Point → Outcome (List Point)
  | 0, centroids => Outcome.returns centroids
  | m + 1, centroids =>
    match centroids[centroids.length % usedSize]? with
    | some c => fillLoop usedSize m (centroids ++ [c])
    | none => Outcome.throws JSError.typeError

/-- Local variables of the main loop of `customKmeans`, with the cursor of the
random stream. -/
structure KState where
  centroids : List Point
  assignments : List Nat
  iteration : Nat
  changed : Bool
  draws : Nat
deriving DecidableEq, Repr

/-- Body of the assignment loop: `newAssignments[i] = clusterId`, and `changed`
set when `i >= assignments.length || assignments[i] !== clusterId`.  The state is
`(newAssignments, changed)`. -/
def assignBody (centroids : List Point) (assignments : List Nat) (s : List Nat × Bool)
    (point : Point) (i : Nat) : List Nat × Bool :=
  let clusterId := closestCentroid centroids point
  (s.1 ++ [clusterId],
    s.2 || decide (assignments.length ≤ i) || decide (assignments[i]? ≠ some clusterId))

/-- Assignment step `points.forEach((point, i) => ...)` of the main loop. -/
def assignStep (centroids : List Point) (assignments : List Nat) (points : List Point) :
    List Nat × Bool :=
  forEach (assignBody centroids assignments) points 0 ([], false)

/-- Body of the accumulation loop: `counts[clusterId]++` and
`newCentroids[clusterId] += point`; a `TypeError` when `newCentroids[clusterId]`
is `undefined`.  The state is `(counts, newCentroids)`. -/
def accumulateBody (assignments : List Nat) (s : List Nat × List Point) (point : Point)
    (i : Nat) : Outcome (List Nat × List Point) :=
  match assignments[i]? with
  | none => Outcome.throws JSError.typeError
  | some clusterId =>
    match modifyAt (fun c => c + 1) s.1 clusterId,
      modifyAt (fun c => (c.1 + point.1, c.2 + point.2)) s.2 clusterId with
    | some counts, some sums => Outcome.returns (counts, sums)
    | _, _ => Outcome.throws JSError.typeError

/-- Accumulation step, from `counts = Array(k).fill(0)` and
`newCentroids = Array(k).fill().map(() => [0, 0])`. -/
def accumulate (assignments : List Nat) (k : Int) (points : List Point) :
    Outcome (List Nat × List Point) :=
  forEachM (accumulateBody assignments) points 0
    (List.replicate k.toNat 0, List.replicate k.toNat (0, 0))

/-- Averaging loop `for (let i = 0; i < k; i++)` over the pairs
`(counts[i], newCentroids[i])`: the mean for a non-empty cluster, otherwise a
random input point and `changed = true`. -/
def average (rnd : Nat → Unit01) (points : List Point) :
    List (Nat × Point) → Bool → Nat → Outcome (List Point × Bool × Nat)
  | [], changed, t => Outcome.returns ([], changed, t)
  | (count, sum) :: rest, changed, t =>
    if 0 < count then
      match average rnd points rest changed t with
      | Outcome.returns (cs, ch, t1) =>
        Outcome.returns ((sum.1 / (count : ℚ), sum.2 / (count : ℚ)) :: cs, ch, t1)
      | Outcome.throws e => Outcome.throws e
      | Outcome.outOfFuel => Outcome.outOfFuel
    else
      match points[randomIndex (rnd t) points.length]? with
      | none => Outcome.throws JSError.typeError
      | some p =>
        match average rnd points rest true (t + 1) with
        | Outcome.returns (cs, ch, t1) => Outcome.returns (p :: cs, ch, t1)
        | Outcome.throws e => Outcome.throws e
        | Outcome.outOfFuel => Outcome.outOfFuel

/-- One pass of the body of `while (changed && iteration < maxIterations)`. -/
def iterate (rnd : Nat → Unit01) (points : List Point) (k : Int) (s : KState) :
    Outcome KState :=
  let a := assignStep s.centroids s.assignments points
  (accumulate a.1 k points).bind fun acc =>
    (average rnd points (acc.1.zip acc.2) a.2 s.draws).bind fun r =>
      Outcome.returns
        { centroids := r.1, assignments := a.1, iteration := s.iteration + 1,
          changed := r.2.1, draws := r.2.2 }

/-- Loop `while (changed && iteration < maxIterations)`, run on fuel (first
argument): one unit per pass. -/
def mainLoop (rnd : Nat → Unit01) (points : List Point) (k : Int) (maxIterations : Nat) :
    Nat → KState → Outcome KState
  | 0, s =>
    if s.changed = true ∧ s.iteration < maxIterations then Outcome.outOfFuel
    else Outcome.returns s
  | fuel + 1, s =>
    if s.changed = true ∧ s.iteration < maxIterations then
      match iterate rnd points k s with
      | Outcome.returns s1 => mainLoop rnd points k maxIterations fuel s1
      | Outcome.throws e => Outcome.throws e
      | Outcome.outOfFuel => Outcome.outOfFuel
    else Outcome.returns s

/-- Function `customKmeans(points, k, maxIterations)`, returning all local
variables at the `return` statement.  Each of the two `while` loops without a
structural bound may make at most `fuel` passes. -/
def customKmeansRun (fuel : Nat) (rnd : Nat → Unit01) (points : List Point) (k : Int)
    (maxIterations : Nat) : Outcome KState :=
  if points.length = 0 ∨ k ≤ 0 then
    Outcome.returns
      { centroids := [], assignments := [], iteration := 0, changed := true, draws := 0 }
  else
    (seedLoop rnd points k fuel [] [] 0).bind fun seeded =>
      (fillLoop seeded.2.1.length (k.toNat - seeded.1.length) seeded.1).bind fun centroids =>
        mainLoop rnd points k maxIterations fuel
          { centroids := centroids, assignments := [], iteration := 0, changed := true,
            draws := seeded.2.2 }

/-- Function `customKmeans(points, k, maxIterations)`: the returned centroids. -/
def customKmeans (fuel : Nat) (rnd : Nat → Unit01) (points : List Point) (k : Int)
    (maxIterations : Nat) : Outcome (List Point) :=
  (customKmeansRun fuel rnd points k maxIterations).bind fun s => Outcome.returns s.centroids

namespace VenueHandler

/-- The grouping step of `processVenueClusters`: create `k` empty clusters and push
every venue to the cluster of its closest centroid (`points[i]` is the coordinate
pair of `venues[i]`). -/
def groupVenues (clusters : List Point) (venues : List Venue) (k : Int) :
    Outcome (List (List Venue)) :=
  (emptyClusters k).bind fun venuesByCluster =>
    forEachM (fun acc venue _ =>
        pushVenue acc (some (closestCentroid clusters (venue.longitude, venue.latitude))) venue)
      venues 0 venuesByCluster

/-- The body of the `try` block of `processVenueClusters`, with the callee
`customKmeans` as a parameter: the k-means call followed by the grouping step. -/
def primaryPath (kmeans : List Point → Int → Outcome (List Point))
    (venues : List Venue) (k : Int) : Outcome (List (List Venue)) :=
  let points := venues.map fun venue => (venue.longitude, venue.latitude)
  (kmeans points k).bind fun clusters => groupVenues clusters venues k

/-- Method `processVenueClusters(venues, k)` with the callee `customKmeans` as a
parameter. -/
def processVenueClustersWith (kmeans : List Point → Int → Outcome (List Point))
    (venues : List Venue) (k : Int) : Outcome (List (List Venue)) :=
  if venues.length = 0 then emptyClusters k
  else
    Outcome.tryCatch (primaryPath kmeans venues k) (fun _ => fallbackClustering venues k)

/-- Method `processVenueClusters(venues, k)` of `public/js/venues.js`; it calls
`customKmeans(points, k)` with the default `maxIterations = 100`. -/
def processVenueClusters (fuel : Nat) (rnd : Nat → Unit01) (venues : List Venue) (k : Int) :
    Outcome (List (List Venue)) :=
  processVenueClustersWith (fun points k => customKmeans fuel rnd points k 100) venues k

end VenueHandler

/-! ## Waypoints (`public/js/routing.js` and `src/utils/clustering.js`) -/

/-- A coordinate object `{lat, lng}`. -/
structure LatLng where
  lat : ℚ
  lng : ℚ
deriving DecidableEq, Repr

/-- Body of the scan `remaining.forEach((waypoint, i) => ...)` of `orderWaypoints`
for a distance function `dist`; the state is `(minDist, minIndex)`, with
`minIndex = -1` as `none`. -/
def nearestStep (dist : LatLng → LatLng → Root) (current : LatLng)
    (s : Option Root × Option Nat) (waypoint : LatLng) (i : Nat) : Option Root × Option Nat :=
  let d := dist current waypoint
  if d.ltMin s.1 then (some d, some i) else s

/-- The scan `minDist = Infinity; minIndex = -1; remaining.forEach(...)` of
`orderWaypoints`. -/
def nearestScan (dist : LatLng → LatLng → Root) (current : LatLng) (remaining : List LatLng) :
    Option Root × Option Nat :=
  forEach (nearestStep dist current) remaining 0 (none, none)

/-- Loop `while (remaining.length > 0)` of `orderWaypoints`.  Every pass that does
not `break` removes one element of `remaining`, so the first argument is the
length of `remaining`.  The branch `remaining[minIndex]` undefined cannot occur,
since `minIndex` is an index met by the scan. -/
def orderLoop (dist : LatLng → LatLng → Root) :
    Nat → List LatLng → LatLng → List LatLng → List LatLng
  | 0, ordered, _, _ => ordered
  | fuel + 1, ordered, current, remaining =>
    if 0 < remaining.length then
      match (nearestScan dist current remaining).2 with
      | none => ordered
      | some minIndex =>
        match remaining[minIndex]? with
        | none => ordered
        | some w => orderLoop dist fuel (ordered ++ [w]) w (remaining.eraseIdx minIndex)
    else ordered

/-- Centre of a cluster as computed in `determineWaypoints`: `null` (`none`) for an
empty cluster, otherwise `{lat: sumLat / cluster.length, lng: sumLng / cluster.length}`. -/
def clusterCenter (cluster : List Venue) : Option LatLng :=
  if cluster.length = 0 then none
  else
    let sumLat := cluster.foldl (fun sum venue => sum + venue.latitude) 0
    let sumLng := cluster.foldl (fun sum venue => sum + venue.longitude) 0
    some { lat := sumLat / (cluster.length : ℚ), lng := sumLng / (cluster.length : ℚ) }

namespace RouteHandler

/-- Method `calculateDistance(point1, point2)` of `public/js/routing.js`. -/
def calculateDistance (point1 point2 : LatLng) : Root :=
  Math_sqrt ((point1.lat - point2.lat) ^ 2 + (point1.lng - point2.lng) ^ 2)

/-- Method `orderWaypoints(waypoints, start, end)` of `public/js/routing.js`. -/
def orderWaypoints (waypoints : List LatLng) (start _endPoint : LatLng) : List LatLng :=
  if waypoints.length ≤ 1 then waypoints
  else orderLoop calculateDistance waypoints.length [] start waypoints

/-- The list `significantCenters` of `determineWaypoints`. -/
def significantCenters (clusters : List (List Venue)) (start endPoint : LatLng) : List LatLng :=
  let clusterCenters := clusters.filterMap clusterCenter
  clusterCenters.filter fun center =>
    let distToStart := calculateDistance center start
    let distToEnd := calculateDistance center endPoint
    distToStart.gtNum (1 / 100) && distToEnd.gtNum (1 / 100)

/-- Method `determineWaypoints(clusters, start, end)` of `public/js/routing.js`. -/
def determineWaypoints (clusters : List (List Venue)) (start endPoint : LatLng) : List LatLng :=
  orderWaypoints (significantCenters clusters start endPoint) start endPoint

end RouteHandler

namespace Clustering

/-- Function `exports.calculateDistance` of `src/utils/clustering.js`. -/
def calculateDistance (point1 point2 : LatLng) : Root :=
  Math_sqrt ((point1.lat - point2.lat) ^ 2 + (point1.lng - point2.lng) ^ 2)

/-- Function `exports.orderWaypoints` of `src/utils/clustering.js`. -/
def orderWaypoints (waypoints : List LatLng) (start _endPoint : LatLng) : List LatLng :=
  if waypoints.length ≤ 1 then waypoints
  else orderLoop calculateDistance waypoints.length [] start waypoints

/-- The list `significantCenters` of `exports.determineWaypoints`. -/
def significantCenters (clusters : List (List Venue)) (start endPoint : LatLng) : List LatLng :=
  let clusterCenters := clusters.filterMap clusterCenter
  clusterCenters.filter fun center =>
    let distToStart := calculateDistance center start
    let distToEnd := calculateDistance center endPoint
    distToStart.gtNum (1 / 100) && distToEnd.gtNum (1 / 100)

/-- Function `exports.determineWaypoints` of `src/utils/clustering.js`. -/
def determineWaypoints (clusters : List (List Venue)) (start endPoint : LatLng) : List LatLng :=
  orderWaypoints (significantCenters clusters start endPoint) start endPoint

/-! ## Server-side clusterer (`src/utils/clustering.js`) -/

/-- Expression `Math.min(m, x)`, where `m` is `Infinity` (`none`) or a number. -/
def minWith (m : Option ℚ) (x : ℚ) : Option ℚ :=
  match m with
  | none => some x
  | some y => some (min y x)

/-- Expression `Math.max(m, x)`, where `m` is `-Infinity` (`none`) or a number. -/
def maxWith (m : Option ℚ) (x : ℚ) : Option ℚ :=
  match m with
  | none => some x
  | some y => some (max y x)

/-- Expression `lo + r * (hi - lo)`; the result is `NaN` (`none`) when the bounds
are still the sentinels `Infinity` and `-Infinity`. -/
def between (lo hi : Option ℚ) (r : Unit01) : Option ℚ :=
  match lo, hi with
  | some a, some b => some (a + r.val * (b - a))
  | _, _ => none

/-- Loop `for (let i = 0; i < k; i++)` of `simulateKMeans`: two draws per centroid;
the first argument is the number of passes left. -/
def randomCentroids (rnd : Nat → Unit01) (minX minY maxX maxY : Option ℚ) :
    Nat → Nat → List (Option ℚ × Option ℚ)
  | 0, _ => []
  | m + 1, t =>
    (between minX maxX (rnd t), between minY maxY (rnd (t + 1))) ::
      randomCentroids rnd minX minY maxX maxY m (t + 2)

/-- Function `simulateKMeans(points, k)`: `k` random centroids within the bounding
box of the points. -/
def simulateKMeans (rnd : Nat → Unit01) (points : List Point) (k : Int) :
    List (Option ℚ × Option ℚ) :=
  let bounds := forEach (fun (b : Option ℚ × Option ℚ × Option ℚ × Option ℚ) point _ =>
      (minWith b.1 point.1, minWith b.2.1 point.2, maxWith b.2.2.1 point.1,
        maxWith b.2.2.2 point.2))
    points 0 (none, none, none, none)
  randomCentroids rnd bounds.1 bounds.2.1 bounds.2.2.1 bounds.2.2.2 k.toNat 0

/-- Body of the scan `clusters.forEach((centroid, j) => ...)` of
`kMeansClustering`; a centroid with a `NaN` coordinate has distance `NaN`, which is
never `< minDistance`. -/
def closerStep (point : Point) (s : Option Root × Nat) (centroid : Option ℚ × Option ℚ)
    (j : Nat) : Option Root × Nat :=
  match centroid with
  | (some cx, some cy) =>
    let distance := Math_sqrt ((point.1 - cx) ^ 2 + (point.2 - cy) ^ 2)
    if distance.ltMin s.1 then (some distance, j) else s
  | _ => s

/-- The nearest-centroid scan of `kMeansClustering`:
`minDistance = Infinity; clusterId = 0; clusters.forEach(...)`. -/
def closestCentroid (clusters : List (Option ℚ × Option ℚ)) (point : Point) : Nat :=
  (forEach (closerStep point) clusters 0 (none, 0)).2

/-- Function `exports.kMeansClustering(venues, k)` of `src/utils/clustering.js`. -/
def kMeansClustering (rnd : Nat → Unit01) (venues : List Venue) (k : Int) :
    Outcome (List (List Venue)) :=
  if venues.length = 0 then Outcome.returns []
  else
    let points := venues.map fun venue => (venue.longitude, venue.latitude)
    Outcome.tryCatch
      (let clusters := simulateKMeans rnd points k
       (emptyClusters k).bind fun venuesByCluster =>
        forEachM (fun acc venue _ =>
            pushVenue acc (some (closestCentroid clusters (venue.longitude, venue.latitude))) venue)
          venues 0 venuesByCluster)
      (fun _ => fallbackClustering venues k)

end Clustering

/-! ## Comfort score (`public/js/routing.js`) -/

/-- A route record as returned by the directions provider: `distance` in metres,
`duration` in seconds and the encoded `geometry`. -/
structure Route where
  distance : ℚ
  duration : ℚ
  geometry : String
deriving DecidableEq, Repr

namespace RouteHandler

/-- Method `calculateComfortScore(route)` of `public/js/routing.js`. -/
def calculateComfortScore (_route : Route) : ℚ := 8

end RouteHandler

/-! ## Vocabulary of the statements -/

/-- The venues whose index, counted from `s`, is congruent to `j` modulo `k`. -/
def everyKth (k j : Nat) (s : Nat) (venues : List Venue) : List Venue :=
  ((venues.enumFrom s).filter (fun p => p.1 % k = j)).map Prod.snd

/-- The indices `Math.floor(Math.random() * n)` produced by the draws number
`t`, `t + 1`, ..., `t + fuel - 1` of the random source. -/
def drawnIndices (rnd : Nat → Unit01) (n t fuel : Nat) : List Nat :=
  (List.range' t fuel).map fun i => randomIndex (rnd i) n

/-- Number of distinct indices among the first `fuel` draws of the random source. -/
def distinctDraws (rnd : Nat → Unit01) (n fuel : Nat) : Nat :=
  (drawnIndices rnd n 0 fuel).dedup.length

/-- The value `a / b` of `Math.random()`, for `a < b`. -/
def Unit01.ofFrac (a b : Nat) (h : a < b) : Unit01 where
  val := (a : ℚ) / (b : ℚ)
  nonneg := div_nonneg (Nat.cast_nonneg a) (Nat.cast_nonneg b)
  lt_one := by
    have hb : (0 : ℚ) < (b : ℚ) := by exact_mod_cast (Nat.zero_lt_of_lt h)
    rw [div_lt_one hb]
    exact_mod_cast h

/-- The value `0` of `Math.random()`. -/
def Unit01.zero : Unit01 := Unit01.ofFrac 0 1 Nat.zero_lt_one

/-- A random source that always returns `0`. -/
def constantSource : Nat → Unit01 := fun _ => Unit01.zero

/-- A random source whose draw `t` is `(t % 4) / 4`; on four points it yields
the indices `0, 1, 2, 3, 0, 1, ...`. -/
def cyclicSource : Nat → Unit01 := fun t => Unit01.ofFrac (t % 4) 4 (Nat.mod_lt t (by decide))

/-- Greedy nearest-first order from `prev`: the head is a nearest element of the
whole list to `prev`, and the tail is in greedy order from the head. -/
def GreedyFrom (dist : LatLng → LatLng → Root) : LatLng → List LatLng → Prop
  | _, [] => True
  | prev, w :: rest =>
    (∀ x, x ∈ w :: rest → (dist prev w).le (dist prev x) = true) ∧ GreedyFrom dist w rest

/-- Position `prev_i` of the sequencer: the start for `i = 0`, otherwise the
output element `i - 1`. -/
def prevOf (start : LatLng) (out : List LatLng) (i : Nat) : LatLng :=
  if i = 0 then start else out.getD (i - 1) start

/-- Centroid of a cluster in the words of the specification: the coordinate-wise
arithmetic mean of the member latitudes and longitudes. -/
def centroid (cluster : List Venue) : LatLng where
  lat := (cluster.map fun venue => venue.latitude).sum / (cluster.length : ℚ)
  lng := (cluster.map fun venue => venue.longitude).sum / (cluster.length : ℚ)

/-- One pass of the main loop of `customKmeans` when no cluster comes out empty,
so that no random point is drawn: the new centroids (the means), the new
assignments and the flag `changed`; `none` when some cluster is empty or the pass
raises. -/
def lloydStep (points : List Point) (k : Int) (centroids : List Point) (assignments : List Nat) :
    Option (List Point × List Nat × Bool) :=
  let a := assignStep centroids assignments points
  match accumulate a.1 k points with
  | Outcome.returns acc =>
    if (acc.1.zip acc.2).all (fun z => decide (0 < z.1)) then
      some ((acc.1.zip acc.2).map (fun z => (z.2.1 / (z.1 : ℚ), z.2.2 / (z.1 : ℚ))), a.1, a.2)
    else none
  | _ => none

/-- At most `n` passes of `lloydStep`, until `changed` is false: the centroids at
that moment, or `none` when a pass meets an empty cluster or `n` passes do not
reach `changed = false`. -/
def lloydLoop (points : List Point) (k : Int) :
    Nat → List Point → List Nat → Bool → Option (List Point)
  | _, centroids, _, false => some centroids
  | 0, _, _, true => none
  | n + 1, centroids, assignments, true =>
    match lloydStep points k centroids assignments with
    | some r => lloydLoop points k n r.1 r.2.1 r.2.2
    | none => none

/-- The four venues of the convergence scenario, `(lng, lat)` =
`(0,0), (0,0.001), (5,5), (5,5.001)`. -/
def scenarioVenues : List Venue :=
  [⟨"a", 0, 0⟩, ⟨"b", 0, 1 / 1000⟩, ⟨"c", 5, 5⟩, ⟨"d", 5, 5001 / 1000⟩]

/-- The coordinate pairs of the four venues of the convergence scenario. -/
def scenarioPoints : List Point :=
  [(0, 0), (0, 1 / 1000), (5, 5), (5, 5001 / 1000)]

/-- Distance `Math.sqrt(Math.pow(point[0] - centroid[0], 2) +
Math.pow(point[1] - centroid[1], 2))` from a point to a centroid. -/
def distTo (point centroid : Point) : Root :=
  Math_sqrt ((point.1 - centroid.1) ^ 2 + (point.2 - centroid.2) ^ 2)

/-- Index `j` is the smallest index of a centroid at minimal distance from
`point`: no centroid is nearer, and every centroid before `j` is farther. -/
def IsFirstNearest (centroids : List Point) (point : Point) (j : Nat) : Prop :=
  ∃ c, centroids[j]? = some c ∧
    (∀ (i : Nat) (c1 : Point), centroids[i]? = some c1 →
      (distTo point c).le (distTo point c1) = true) ∧
    (∀ (i : Nat) (c1 : Point), i < j → centroids[i]? = some c1 →
      (distTo point c).lt (distTo point c1) = true)

/-- Coordinate pair `[longitude, latitude]` of a venue. -/
def coords (venue : Venue) : Point := (venue.longitude, venue.latitude)

/-- The input points assigned to cluster `i` by the nearest-centroid scan over
`centroids`, in input order. -/
def members (centroids points : List Point) (i : Nat) : List Point :=
  points.filter fun p => decide (closestCentroid centroids p = i)

/-- Coordinate-wise arithmetic mean of a list of points. -/
def mean (ps : List Point) : Point :=
  ((ps.map Prod.fst).sum / (ps.length : ℚ), (ps.map Prod.snd).sum / (ps.length : ℚ))

/-- A random source whose draw `t` is `(t % 3) / 3`; on three points it yields
the indices `0, 1, 2, 0, 1, ...`. -/
def thirdsSource : Nat → Unit01 := fun t => Unit01.ofFrac (t % 3) 3 (Nat.mod_lt t (by decide))

/-! # Theorems -/

/-! ## Basic facts about the runtime model -/

theorem modifyAt_some {α : Type} (f : α → α) :
    ∀ (xs : List α) (j : Nat), j < xs.length →
      ∃ r, modifyAt f xs j = some r ∧ r.length = xs.length ∧
        ∀ i, r[i]? = if i = j then (xs[i]?).map f else xs[i]?
  | [], j, h => by simp at h
  | a :: as, 0, _ => by
    refine ⟨f a :: as, rfl, rfl, ?_⟩
    intro i
    cases i <;> simp
  | a :: as, j + 1, h => by
    obtain ⟨r, hr, hlen, hget⟩ := modifyAt_some f as j (by simpa using h)
    refine ⟨a :: r, by simp [modifyAt, hr], by simp [hlen], ?_⟩
    intro i
    cases i with
    | zero => simp
    | succ i => simp [hget i]

theorem modifyAt_none {α : Type} (f : α → α) :
    ∀ (xs : List α) (j : Nat), xs.length ≤ j → modifyAt f xs j = none
  | [], _, _ => rfl
  | a :: as, 0, h => by simp at h
  | a :: as, j + 1, h => by
    simp [modifyAt, modifyAt_none f as j (by simpa using h)]

theorem forEachM_roundRobin (k : Nat) (hk : 0 < k) :
    ∀ (rest : List Venue) (i : Nat) (acc : List (List Venue)), acc.length = k →
      ∃ out, forEachM (fun acc venue i => pushVenue acc (jsMod i (k : Int)) venue) rest i acc
          = Outcome.returns out ∧ out.length = k ∧
        ∀ j, out[j]? = (acc[j]?).map (fun b => b ++ everyKth k j i rest)
  | [], i, acc, hacc => by
    refine ⟨acc, rfl, hacc, ?_⟩
    intro j
    cases h : acc[j]? <;> simp [everyKth]
  | x :: rest, i, acc, hacc => by
    have hlt : i % k < acc.length := by rw [hacc]; exact Nat.mod_lt _ hk
    obtain ⟨r, hr, hlen, hget⟩ := modifyAt_some (fun cluster => cluster ++ [x]) acc (i % k) hlt
    obtain ⟨out, hout, hol, hog⟩ := forEachM_roundRobin k hk rest (i + 1) r (hlen.trans hacc)
    have hk0 : (k : Int) ≠ 0 := by exact_mod_cast hk.ne'
    refine ⟨out, ?_, hol, ?_⟩
    · have hb : pushVenue acc (jsMod i (k : Int)) x = Outcome.returns r := by
        simp [pushVenue, jsMod, hk0, hr]
      simp only [forEachM, hb]
      exact hout
    · intro j
      rw [hog j, hget j]
      by_cases hj : j = i % k
      · subst hj
        cases h : acc[i % k]? <;> simp [everyKth, List.enumFrom_cons, List.filter_cons]
      · have hj2 : ¬ i % k = j := fun h => hj h.symm
        cases h : acc[j]? <;> simp [everyKth, List.enumFrom_cons, List.filter_cons, hj, hj2]

theorem everyKth_getElem? (k j : Nat) (hj : j < k) :
    ∀ (venues : List Venue) (s m : Nat),
      (everyKth k j s venues)[m]? =
        venues[(if s % k ≤ j then j - s % k else j + k - s % k) + m * k]?
  | [], s, m => by simp [everyKth]
  | x :: xs, s, m => by
    have ha : s % k < k := Nat.mod_lt _ (by omega)
    have hb : (s % k + 1 < k ∧ (s + 1) % k = s % k + 1) ∨ (s % k + 1 = k ∧ (s + 1) % k = 0) := by
      rw [Nat.add_mod]
      by_cases h : s % k + 1 < k
      · left
        refine ⟨h, ?_⟩
        have : 1 % k = 1 := Nat.mod_eq_of_lt (by omega)
        rw [this, Nat.mod_eq_of_lt h]
      · right
        have h1 : s % k + 1 = k := by omega
        refine ⟨h1, ?_⟩
        by_cases hk1 : k = 1
        · subst hk1; simp [Nat.mod_one]
        · have : 1 % k = 1 := Nat.mod_eq_of_lt (by omega)
          rw [this, h1, Nat.mod_self]
    have ih := everyKth_getElem? k j hj xs (s + 1)
    by_cases hs : s % k = j
    · have e : everyKth k j s (x :: xs) = x :: everyKth k j (s + 1) xs := by
        simp [everyKth, List.enumFrom_cons, List.filter_cons, hs]
      rw [e]
      cases m with
      | zero => simp [hs]
      | succ m =>
        rw [List.getElem?_cons_succ, ih m]
        have : (if s % k ≤ j then j - s % k else j + k - s % k) + (m + 1) * k
            = ((if (s + 1) % k ≤ j then j - (s + 1) % k else j + k - (s + 1) % k) + m * k) + 1 := by
          rw [Nat.add_mul]
          rcases hb with ⟨h1, h2⟩ | ⟨h1, h2⟩ <;> rw [h2] <;> split_ifs <;> omega
        rw [this, List.getElem?_cons_succ]
    · have e : everyKth k j s (x :: xs) = everyKth k j (s + 1) xs := by
        simp [everyKth, List.enumFrom_cons, List.filter_cons, hs]
      rw [e, ih m]
      have : (if s % k ≤ j then j - s % k else j + k - s % k) + m * k
          = ((if (s + 1) % k ≤ j then j - (s + 1) % k else j + k - (s + 1) % k) + m * k) + 1 := by
        rcases hb with ⟨h1, h2⟩ | ⟨h1, h2⟩ <;> rw [h2] <;> split_ifs <;> omega
      rw [this, List.getElem?_cons_succ]

theorem modifyAt_append_perm (x : Venue) :
    ∀ (acc : List (List Venue)) (j : Nat) (r : List (List Venue)),
      modifyAt (fun cluster => cluster ++ [x]) acc j = some r →
        r.length = acc.length ∧ r.flatten.Perm (acc.flatten ++ [x])
  | [], _, _, h => by simp [modifyAt] at h
  | b :: bs, 0, r, h => by
    simp only [modifyAt, Option.some.injEq] at h
    subst h
    refine ⟨rfl, ?_⟩
    simp only [List.flatten_cons, List.append_assoc]
    exact List.Perm.append_left b List.perm_append_comm
  | b :: bs, j + 1, r, h => by
    simp only [modifyAt, Option.map_eq_some'] at h
    obtain ⟨r1, hr1, rfl⟩ := h
    obtain ⟨hl, hp⟩ := modifyAt_append_perm x bs j r1 hr1
    refine ⟨by simp [hl], ?_⟩
    simp only [List.flatten_cons, List.append_assoc]
    exact List.Perm.append_left b hp

/-- A `forEach` loop that pushes every venue into some cluster keeps the number of
clusters and adds exactly the venues it visited. -/
theorem forEachM_push_partition (c : Venue → Nat → Option Nat) :
    ∀ (rest : List Venue) (i : Nat) (acc out : List (List Venue)),
      forEachM (fun acc venue i => pushVenue acc (c venue i) venue) rest i acc
          = Outcome.returns out →
        out.length = acc.length ∧ out.flatten.Perm (acc.flatten ++ rest)
  | [], i, acc, out, h => by
    simp only [forEachM, Outcome.returns.injEq] at h
    subst h
    simp
  | x :: rest, i, acc, out, h => by
    simp only [forEachM] at h
    cases hb : pushVenue acc (c x i) x with
    | returns r =>
      rw [hb] at h
      obtain ⟨hl, hp⟩ := forEachM_push_partition c rest (i + 1) r out h
      have hr : ∃ j, modifyAt (fun cluster => cluster ++ [x]) acc j = some r := by
        unfold pushVenue at hb
        cases hc : c x i with
        | none => simp [hc] at hb
        | some j =>
          refine ⟨j, ?_⟩
          simp only [hc] at hb
          cases hm : modifyAt (fun cluster => cluster ++ [x]) acc j with
          | none => simp [hm] at hb
          | some r1 => simp only [hm, Outcome.returns.injEq] at hb; rw [hb]
      obtain ⟨j, hj⟩ := hr
      obtain ⟨hl1, hp1⟩ := modifyAt_append_perm x acc j r hj
      refine ⟨hl.trans hl1, ?_⟩
      refine hp.trans ?_
      have : (acc.flatten ++ x :: rest) = (acc.flatten ++ [x]) ++ rest := by simp
      rw [this]
      exact List.Perm.append_right rest hp1
    | throws e => rw [hb] at h; simp at h
    | outOfFuel => rw [hb] at h; simp at h

/-- A `forEach` loop that pushes every venue into a cluster that exists returns. -/
theorem forEachM_push_returns (c : Venue → Nat → Option Nat) (n : Nat)
    (hc : ∀ venue i, ∃ j, c venue i = some j ∧ j < n) :
    ∀ (rest : List Venue) (i : Nat) (acc : List (List Venue)), acc.length = n →
      ∃ out, forEachM (fun acc venue i => pushVenue acc (c venue i) venue) rest i acc
          = Outcome.returns out
  | [], i, acc, _ => ⟨acc, rfl⟩
  | x :: rest, i, acc, hacc => by
    obtain ⟨j, hj, hjn⟩ := hc x i
    obtain ⟨r, hr, hlen, -⟩ :=
      modifyAt_some (fun cluster => cluster ++ [x]) acc j (by rw [hacc]; exact hjn)
    obtain ⟨out, hout⟩ := forEachM_push_returns c n hc rest (i + 1) r (hlen.trans hacc)
    refine ⟨out, ?_⟩
    have hb : pushVenue acc (c x i) x = Outcome.returns r := by
      simp [pushVenue, hj, hr]
    simp only [forEachM, hb]
    exact hout

theorem emptyClusters_natCast (k : Nat) :
    emptyClusters (k : Int) = Outcome.returns (List.replicate k []) := by
  simp [emptyClusters]

theorem flatten_replicate_nil (k : Nat) :
    (List.replicate k ([] : List Venue)).flatten = [] := by
  induction k with
  | zero => rfl
  | succ k ih => simp [List.replicate_succ, ih]

theorem clientFallback_eq_serverFallback (venues : List Venue) (k : Int) :
    VenueHandler.fallbackClustering venues k = Clustering.fallbackClustering venues k := rfl

/-! ## Fallback clustering: round-robin -/

theorem fallbackClustering_buckets (venues : List Venue) (k : Nat) (hk : 1 ≤ k) :
    ∃ buckets,
      VenueHandler.fallbackClustering venues k = Outcome.returns buckets ∧
      Clustering.fallbackClustering venues k = Outcome.returns buckets ∧
      buckets.length = k ∧
      (∀ j, j < k → ∃ b, buckets[j]? = some b ∧
        b = ((venues.enum.filter (fun p => p.1 % k = j)).map Prod.snd) ∧
        ∀ m, b[m]? = venues[j + m * k]?) ∧
      (∀ i, i < venues.length → ∃ b, buckets[i % k]? = some b ∧ b[i / k]? = venues[i]?) ∧
      buckets.flatten.Perm venues := by
  obtain ⟨out, hout, hlen, hget⟩ :=
    forEachM_roundRobin k hk venues 0 (List.replicate k []) (by simp)
  have hrun : VenueHandler.fallbackClustering venues k = Outcome.returns out := by
    simp only [VenueHandler.fallbackClustering, emptyClusters_natCast, Outcome.bind]
    exact hout
  have hbucket : ∀ j, j < k → out[j]? = some (everyKth k j 0 venues) := by
    intro j hj
    rw [hget j]
    simp [List.getElem?_replicate, hj]
  have hidx : ∀ j m, j < k → (everyKth k j 0 venues)[m]? = venues[j + m * k]? := by
    intro j m hj
    rw [everyKth_getElem? k j hj venues 0 m]
    simp
  refine ⟨out, hrun, ?_, hlen, ?_, ?_, ?_⟩
  · rw [← clientFallback_eq_serverFallback]; exact hrun
  · intro j hj
    exact ⟨_, hbucket j hj, rfl, fun m => hidx j m hj⟩
  · intro i _
    refine ⟨_, hbucket (i % k) (Nat.mod_lt _ hk), ?_⟩
    rw [hidx (i % k) (i / k) (Nat.mod_lt _ hk), Nat.mod_add_div' i k]
  · have h := (forEachM_push_partition (fun _ i => jsMod i (k : Int)) venues 0
      (List.replicate k []) out hout).2
    simpa [flatten_replicate_nil] using h

/-- Claim C4, fallback determinism.  For `k ≥ 1` both copies of `fallbackClustering`
return the same `k` buckets; bucket `j` is exactly the venues with index congruent
to `j` modulo `k`, in input order, its `m`-th element being venue `j + m * k`; so
venue `i` sits at position `i / k` of bucket `i % k`, and the buckets together
hold every venue exactly once. -/
theorem fallbackClustering_round_robin (venues : List Venue) (k : Nat) (hk : 1 ≤ k) :
    ∃ buckets,
      VenueHandler.fallbackClustering venues k = Outcome.returns buckets ∧
      Clustering.fallbackClustering venues k = Outcome.returns buckets ∧
      buckets.length = k ∧
      (∀ j, j < k → ∃ b, buckets[j]? = some b ∧
        b = ((venues.enum.filter (fun p => p.1 % k = j)).map Prod.snd) ∧
        ∀ m, b[m]? = venues[j + m * k]?) ∧
      (∀ i, i < venues.length → ∃ b, buckets[i % k]? = some b ∧ b[i / k]? = venues[i]?) ∧
      buckets.flatten.Perm venues :=
  fallbackClustering_buckets venues k hk

theorem fallbackClustering_round_robin_witness :
    1 ≤ 2 ∧ ∃ buckets,
      VenueHandler.fallbackClustering
          [⟨"a", 0, 0⟩, ⟨"b", 1, 0⟩, ⟨"c", 2, 0⟩, ⟨"d", 3, 0⟩, ⟨"e", 4, 0⟩] (2 : Nat)
        = Outcome.returns buckets ∧
      buckets = [[⟨"a", 0, 0⟩, ⟨"c", 2, 0⟩, ⟨"e", 4, 0⟩], [⟨"b", 1, 0⟩, ⟨"d", 3, 0⟩]] := by
  obtain ⟨buckets, h, -⟩ := fallbackClustering_round_robin
    [⟨"a", 0, 0⟩, ⟨"b", 1, 0⟩, ⟨"c", 2, 0⟩, ⟨"d", 3, 0⟩, ⟨"e", 4, 0⟩] 2 (by decide)
  refine ⟨by decide, buckets, h, ?_⟩
  have e : VenueHandler.fallbackClustering
      [⟨"a", 0, 0⟩, ⟨"b", 1, 0⟩, ⟨"c", 2, 0⟩, ⟨"d", 3, 0⟩, ⟨"e", 4, 0⟩] (2 : Nat)
      = Outcome.returns
        [[⟨"a", 0, 0⟩, ⟨"c", 2, 0⟩, ⟨"e", 4, 0⟩], [⟨"b", 1, 0⟩, ⟨"d", 3, 0⟩]] := by decide
  rw [e] at h
  exact (Outcome.returns.inj h).symm

/-! ## Facts about `customKmeans` -/

theorem randomIndex_lt (r : Unit01) (n : Nat) (hn : 0 < n) : randomIndex r n < n := by
  unfold randomIndex
  rw [Int.toNat_lt' (by omega), Int.floor_lt]
  have h1 : (0 : ℚ) < (n : ℚ) := by exact_mod_cast hn
  have h2 : r.val * (n : ℚ) < 1 * (n : ℚ) := mul_lt_mul_of_pos_right r.lt_one h1
  simpa using h2

theorem forEach_closest_bound (point : Point) :
    ∀ (cs : List Point) (j : Nat) (s : Option Root × Nat),
      (forEach (closerStep point) cs j s).2 = s.2 ∨
        (j ≤ (forEach (closerStep point) cs j s).2 ∧
          (forEach (closerStep point) cs j s).2 < j + cs.length)
  | [], j, s => by simp [forEach]
  | c :: cs, j, s => by
    simp only [forEach, List.length_cons]
    rcases forEach_closest_bound point cs (j + 1) (closerStep point s c j) with h1 | h1
    · rw [h1]
      simp only [closerStep]
      split_ifs
      · right; simp
      · left; rfl
    · right; omega

theorem closestCentroid_lt (cs : List Point) (point : Point) (h : 0 < cs.length) :
    closestCentroid cs point < cs.length := by
  have := forEach_closest_bound point cs 0 (none, 0)
  unfold closestCentroid
  rcases this with h1 | h1
  · rw [h1]; exact h
  · omega

theorem forEach_assign (cs : List Point) (assignments : List Nat) :
    ∀ (points : List Point) (i : Nat) (s : List Nat × Bool),
      (forEach (assignBody cs assignments) points i s).1
        = s.1 ++ points.map (closestCentroid cs)
  | [], i, s => by simp [forEach]
  | p :: ps, i, s => by
    simp only [forEach]
    rw [forEach_assign cs assignments ps (i + 1)]
    simp [assignBody]

theorem assignStep_fst (cs : List Point) (assignments : List Nat) (points : List Point) :
    (assignStep cs assignments points).1 = points.map (closestCentroid cs) := by
  unfold assignStep
  rw [forEach_assign]
  simp

theorem forEachM_accumulate (assignments : List Nat) (k : Nat) :
    ∀ (rest : List Point) (i : Nat) (s : List Nat × List Point),
      s.1.length = k → s.2.length = k →
      (∀ p, p < rest.length → ∃ c, assignments[i + p]? = some c ∧ c < k) →
      ∃ out, forEachM (accumulateBody assignments) rest i s = Outcome.returns out ∧
        out.1.length = k ∧ out.2.length = k
  | [], i, s, h1, h2, _ => ⟨s, rfl, h1, h2⟩
  | p :: ps, i, s, h1, h2, h => by
    obtain ⟨c, hc, hck⟩ := h 0 (by simp)
    simp only [Nat.add_zero] at hc
    obtain ⟨r1, hr1, hl1, -⟩ := modifyAt_some (fun c => c + 1) s.1 c (by omega)
    obtain ⟨r2, hr2, hl2, -⟩ :=
      modifyAt_some (fun c : Point => (c.1 + p.1, c.2 + p.2)) s.2 c (by omega)
    obtain ⟨out, hout, ho1, ho2⟩ := forEachM_accumulate assignments k ps (i + 1) (r1, r2)
      (by simp [hl1, h1]) (by simp [hl2, h2])
      (fun q hq => by
        have := h (q + 1) (by simpa using hq)
        rwa [show i + (q + 1) = i + 1 + q by omega] at this)
    refine ⟨out, ?_, ho1, ho2⟩
    have hb : accumulateBody assignments s p i = Outcome.returns (r1, r2) := by
      simp only [accumulateBody, hc, hr1, hr2]
    simp only [forEachM, hb]
    exact hout

theorem accumulate_returns (points : List Point) (cs : List Point) (k : Nat)
    (hcs : cs.length = k) (hk : 0 < k) :
    ∃ out, accumulate (points.map (closestCentroid cs)) (k : Int) points = Outcome.returns out ∧
      out.1.length = k ∧ out.2.length = k := by
  unfold accumulate
  simp only [Int.toNat_ofNat]
  apply forEachM_accumulate
  · simp
  · simp
  · intro p hp
    refine ⟨closestCentroid cs points[p], ?_, ?_⟩
    · simp [List.getElem?_map, List.getElem?_eq_getElem hp]
    · rw [← hcs]; exact closestCentroid_lt cs _ (by omega)

theorem average_returns (rnd : Nat → Unit01) (points : List Point) (hp : 0 < points.length) :
    ∀ (zs : List (Nat × Point)) (changed : Bool) (t : Nat),
      ∃ out, average rnd points zs changed t = Outcome.returns out ∧ out.1.length = zs.length
  | [], changed, t => ⟨([], changed, t), rfl, rfl⟩
  | (count, sum) :: rest, changed, t => by
    by_cases hc : 0 < count
    · obtain ⟨out, hout, hl⟩ := average_returns rnd points hp rest changed t
      refine ⟨((sum.1 / (count : ℚ), sum.2 / (count : ℚ)) :: out.1, out.2.1, out.2.2), ?_, ?_⟩
      · simp only [average, hc, if_true, hout]
      · simp [hl]
    · have hi := randomIndex_lt (rnd t) points.length hp
      obtain ⟨out, hout, hl⟩ := average_returns rnd points hp rest true (t + 1)
      refine ⟨(points[randomIndex (rnd t) points.length] :: out.1, out.2.1, out.2.2), ?_, ?_⟩
      · simp only [average, hc, if_false, List.getElem?_eq_getElem hi, hout]
      · simp [hl]

theorem iterate_returns (rnd : Nat → Unit01) (points : List Point) (k : Nat) (s : KState)
    (hp : 0 < points.length) (hk : 0 < k) (hs : s.centroids.length = k) :
    ∃ s1, iterate rnd points (k : Int) s = Outcome.returns s1 ∧ s1.centroids.length = k ∧
      s1.iteration = s.iteration + 1 := by
  unfold iterate
  simp only [assignStep_fst]
  obtain ⟨acc, hacc, h1, h2⟩ := accumulate_returns points s.centroids k hs hk
  obtain ⟨out, hout, hl⟩ := average_returns rnd points hp (acc.1.zip acc.2)
    (assignStep s.centroids s.assignments points).2 s.draws
  refine ⟨KState.mk out.1 (points.map (closestCentroid s.centroids)) (s.iteration + 1)
    out.2.1 out.2.2, ?_, ?_, rfl⟩
  · rw [hacc]
    simp only [Outcome.bind]
    rw [hout]
  · simp [hl, h1, h2]

theorem mainLoop_returns (rnd : Nat → Unit01) (points : List Point) (k maxIterations : Nat)
    (hp : 0 < points.length) (hk : 0 < k) :
    ∀ (fuel : Nat) (s : KState), s.centroids.length = k → s.iteration ≤ maxIterations →
      maxIterations - s.iteration ≤ fuel →
      ∃ s1, mainLoop rnd points (k : Int) maxIterations fuel s = Outcome.returns s1 ∧
        s1.centroids.length = k ∧ s1.iteration ≤ maxIterations
  | 0, s, hs, hi, hf => by
    refine ⟨s, ?_, hs, hi⟩
    have : ¬ (s.changed = true ∧ s.iteration < maxIterations) := by omega
    simp only [mainLoop, this, if_false]
  | fuel + 1, s, hs, hi, hf => by
    by_cases hc : s.changed = true ∧ s.iteration < maxIterations
    · obtain ⟨s1, h1, hl, hit⟩ := iterate_returns rnd points k s hp hk hs
      obtain ⟨s2, h2, hl2, hit2⟩ := mainLoop_returns rnd points k maxIterations hp hk fuel s1 hl
        (by omega) (by omega)
      refine ⟨s2, ?_, hl2, hit2⟩
      simp only [mainLoop, hc, and_self, if_true, h1]
      exact h2
    · exact ⟨s, by simp only [mainLoop, hc, if_false], hs, hi⟩

theorem seedLoop_spec (rnd : Nat → Unit01) (points : List Point) (k : Nat) :
    ∀ (fuel : Nat) (cs : List Point) (used : List Nat) (t : Nat),
      used.Nodup → (∀ u ∈ used, u < points.length) →
      List.Forall₂ (fun c u => points[u]? = some c) cs used →
      (min k points.length ≤
          (used.toFinset ∪ (drawnIndices rnd points.length t fuel).toFinset).card →
        ∃ cs1 used1 t1, seedLoop rnd points (k : Int) fuel cs used t
            = Outcome.returns (cs1, used1, t1) ∧
          used1.Nodup ∧ (∀ u ∈ used1, u < points.length) ∧
          List.Forall₂ (fun c u => points[u]? = some c) cs1 used1 ∧
          (cs.length ≤ min k points.length → cs1.length = min k points.length)) ∧
      (¬ min k points.length ≤
          (used.toFinset ∪ (drawnIndices rnd points.length t fuel).toFinset).card →
        seedLoop rnd points (k : Int) fuel cs used t = Outcome.outOfFuel)
  | 0, cs, used, t, hnd, hlt, hf => by
    have hlen : cs.length = used.length := hf.length_eq
    have hcard : used.toFinset.card = used.length := List.toFinset_card_of_nodup hnd
    have hcond : ((cs.length : Int) < (k : Int) ∧ cs.length < points.length) ↔
        ¬ min k points.length ≤ cs.length := by
      rw [Nat.cast_lt]; omega
    simp only [drawnIndices, List.range'_zero, List.map_nil, List.toFinset_nil,
      Finset.union_empty, hcard, seedLoop, hcond, ← hlen]
    constructor
    · intro h
      refine ⟨cs, used, t, by simp [h], hnd, hlt, hf, fun h2 => by omega⟩
    · intro h
      simp [h]
  | fuel + 1, cs, used, t, hnd, hlt, hf => by
    have hlen : cs.length = used.length := hf.length_eq
    have hcard : used.toFinset.card = used.length := List.toFinset_card_of_nodup hnd
    have hcond : ((cs.length : Int) < (k : Int) ∧ cs.length < points.length) ↔
        ¬ min k points.length ≤ cs.length := by
      rw [Nat.cast_lt]; omega
    have hdraw : drawnIndices rnd points.length t (fuel + 1)
        = randomIndex (rnd t) points.length :: drawnIndices rnd points.length (t + 1) fuel := by
      simp [drawnIndices, List.range'_succ]
    by_cases hdone : min k points.length ≤ cs.length
    · have hge : min k points.length ≤
          (used.toFinset ∪ (drawnIndices rnd points.length t (fuel + 1)).toFinset).card := by
        calc min k points.length ≤ used.toFinset.card := by omega
          _ ≤ _ := Finset.card_le_card Finset.subset_union_left
      constructor
      · intro _
        refine ⟨cs, used, t, ?_, hnd, hlt, hf, fun h2 => by omega⟩
        simp only [seedLoop, hcond, hdone, not_true_eq_false, if_false]
      · intro h; exact absurd hge h
    · have hn : 0 < points.length := by omega
      have hidx := randomIndex_lt (rnd t) points.length hn
      simp only [seedLoop, hcond, hdone, not_false_eq_true, if_true]
      by_cases hmem : randomIndex (rnd t) points.length ∈ used
      · have hset : used.toFinset ∪ (drawnIndices rnd points.length t (fuel + 1)).toFinset
            = used.toFinset ∪ (drawnIndices rnd points.length (t + 1) fuel).toFinset := by
          rw [hdraw, List.toFinset_cons, Finset.union_insert]
          exact Finset.insert_eq_of_mem (Finset.mem_union_left _ (List.mem_toFinset.mpr hmem))
        rw [hset]
        simp only [hmem, if_true]
        exact seedLoop_spec rnd points k fuel cs used (t + 1) hnd hlt hf
      · have hset : used.toFinset ∪ (drawnIndices rnd points.length t (fuel + 1)).toFinset
            = (used ++ [randomIndex (rnd t) points.length]).toFinset ∪
              (drawnIndices rnd points.length (t + 1) fuel).toFinset := by
          rw [hdraw, List.toFinset_cons, List.toFinset_append]
          ext x
          simp only [Finset.mem_union, Finset.mem_insert, List.mem_toFinset, List.toFinset_cons,
            List.toFinset_nil, insert_emptyc_eq, Finset.mem_singleton]
          tauto
        rw [hset]
        simp only [hmem, if_false, List.getElem?_eq_getElem hidx]
        have ih := seedLoop_spec rnd points k fuel (cs ++ [points[randomIndex (rnd t) points.length]])
          (used ++ [randomIndex (rnd t) points.length]) (t + 1)
          (List.Nodup.append hnd (List.nodup_singleton _) (by simpa using hmem))
          (by
            intro u hu
            rcases List.mem_append.mp hu with h | h
            · exact hlt u h
            · rw [List.mem_singleton.mp h]; exact hidx)
          (List.rel_append hf (List.Forall₂.cons (List.getElem?_eq_getElem hidx) List.Forall₂.nil))
        refine ⟨fun h => ?_, ih.2⟩
        obtain ⟨cs1, used1, t1, h1, h2, h3, h4, h5⟩ := ih.1 h
        refine ⟨cs1, used1, t1, h1, h2, h3, h4, fun _ => h5 ?_⟩
        simp only [List.length_append, List.length_singleton]
        omega

theorem fillLoop_returns (u : Nat) (hu : 0 < u) :
    ∀ (m : Nat) (cs : List Point), u ≤ cs.length →
      ∃ out, fillLoop u m cs = Outcome.returns out ∧ out.length = cs.length + m ∧
        (∀ i, i < cs.length → out[i]? = cs[i]?) ∧
        (∀ i, cs.length ≤ i → i < out.length → out[i]? = out[i % u]?)
  | 0, cs, _ => ⟨cs, rfl, rfl, fun _ _ => rfl, fun i h1 h2 => by omega⟩
  | m + 1, cs, h => by
    have hlt : cs.length % u < cs.length := lt_of_lt_of_le (Nat.mod_lt _ hu) h
    obtain ⟨out, hout, hlen, hpre, hdup⟩ :=
      fillLoop_returns u hu m (cs ++ [cs[cs.length % u]]) (by simp; omega)
    have hpre2 : ∀ i, i < cs.length → out[i]? = cs[i]? := by
      intro i hi
      rw [hpre i (by simp; omega), List.getElem?_append_left hi]
    refine ⟨out, ?_, ?_, hpre2, ?_⟩
    · simp only [fillLoop, List.getElem?_eq_getElem hlt]
      exact hout
    · rw [hlen]; simp; omega
    · intro i hi1 hi2
      by_cases hi : i = cs.length
      · subst hi
        rw [hpre cs.length (by simp), hpre2 _ hlt]
        simp [List.getElem?_eq_getElem hlt]
      · exact hdup i (by simp; omega) hi2

theorem distinctDraws_eq (rnd : Nat → Unit01) (n fuel : Nat) :
    distinctDraws rnd n fuel
      = (([] : List Nat).toFinset ∪ (drawnIndices rnd n 0 fuel).toFinset).card := by
  simp [distinctDraws, List.card_toFinset]

/-- What `customKmeans` does for `k ≥ 1` and a non-empty point list: it returns,
with `k` centroids and at most `maxIterations` passes, when the first `fuel` draws
hold `min k n` distinct indices and `fuel` covers the cap; it is still inside the
seeding loop when the draws do not. -/
theorem customKmeansRun_spec (fuel : Nat) (rnd : Nat → Unit01) (points : List Point)
    (k maxIterations : Nat) (hp : 0 < points.length) (hk : 0 < k) :
    (min k points.length ≤ distinctDraws rnd points.length fuel → maxIterations ≤ fuel →
      ∃ s, customKmeansRun fuel rnd points (k : Int) maxIterations = Outcome.returns s ∧
        s.centroids.length = k ∧ s.iteration ≤ maxIterations) ∧
    (¬ min k points.length ≤ distinctDraws rnd points.length fuel →
      customKmeansRun fuel rnd points (k : Int) maxIterations = Outcome.outOfFuel) := by
  have hguard : ¬ (points.length = 0 ∨ (k : Int) ≤ 0) := by
    have : (0 : Int) < (k : Int) := by exact_mod_cast hk
    omega
  have hseed := seedLoop_spec rnd points k fuel [] [] 0 List.nodup_nil (by simp)
    List.Forall₂.nil
  rw [← distinctDraws_eq] at hseed
  constructor
  · intro hd hm
    obtain ⟨cs1, used1, t1, h1, -, -, h4, h5⟩ := hseed.1 hd
    have hlen1 : cs1.length = min k points.length := h5 (by simp)
    have hused : used1.length = cs1.length := h4.length_eq.symm
    obtain ⟨cs2, h2, hlen2, -, -⟩ := fillLoop_returns used1.length (by omega)
      (k - cs1.length) cs1 (by omega)
    obtain ⟨s, h3, hs1, hs2⟩ := mainLoop_returns rnd points k maxIterations hp hk fuel
      (KState.mk cs2 [] 0 true t1) (by simp [hlen2]; omega) (by simp) (by simpa using hm)
    refine ⟨s, ?_, hs1, hs2⟩
    simp only [customKmeansRun, hguard, if_false, h1, Outcome.bind, Int.toNat_ofNat, h2]
    exact h3
  · intro hd
    simp only [customKmeansRun, hguard, if_false, hseed.2 hd, Outcome.bind]

/-! ## `processVenueClusters` -/

theorem groupVenues_partition (clusters : List Point) (venues : List Venue) (k : Nat)
    (out : List (List Venue))
    (h : VenueHandler.groupVenues clusters venues (k : Int) = Outcome.returns out) :
    out.length = k ∧ out.flatten.Perm venues := by
  simp only [VenueHandler.groupVenues, emptyClusters_natCast, Outcome.bind] at h
  have := forEachM_push_partition
    (fun venue _ => some (closestCentroid clusters (venue.longitude, venue.latitude)))
    venues 0 (List.replicate k []) out h
  simpa [flatten_replicate_nil] using this

theorem groupVenues_returns (clusters : List Point) (venues : List Venue) (k : Nat)
    (hc : clusters.length = k) (hk : 0 < k) :
    ∃ out, VenueHandler.groupVenues clusters venues (k : Int) = Outcome.returns out := by
  simp only [VenueHandler.groupVenues, emptyClusters_natCast, Outcome.bind]
  exact forEachM_push_returns
    (fun venue _ => some (closestCentroid clusters (venue.longitude, venue.latitude))) k
    (fun venue _ => ⟨_, rfl, by rw [← hc]; exact closestCentroid_lt clusters _ (by omega)⟩)
    venues 0 (List.replicate k []) (by simp)

theorem fallbackClustering_partition (venues : List Venue) (k : Nat)
    (out : List (List Venue))
    (h : VenueHandler.fallbackClustering venues (k : Int) = Outcome.returns out) :
    out.length = k ∧ out.flatten.Perm venues := by
  simp only [VenueHandler.fallbackClustering, emptyClusters_natCast, Outcome.bind] at h
  have := forEachM_push_partition (fun _ i => jsMod i (k : Int)) venues 0
    (List.replicate k []) out h
  simpa [flatten_replicate_nil] using this

theorem processVenueClustersWith_partition (kmeans : List Point → Int → Outcome (List Point))
    (venues : List Venue) (k : Nat) (out : List (List Venue))
    (h : VenueHandler.processVenueClustersWith kmeans venues (k : Int) = Outcome.returns out) :
    out.length = k ∧ out.flatten.Perm venues := by
  unfold VenueHandler.processVenueClustersWith at h
  split_ifs at h with hv
  · rw [emptyClusters_natCast] at h
    have hv2 : venues = [] := List.length_eq_zero.mp hv
    cases h
    simp [flatten_replicate_nil, hv2]
  · cases hp : VenueHandler.primaryPath kmeans venues (k : Int) with
    | returns r =>
      rw [hp] at h
      simp only [Outcome.tryCatch] at h
      have hro : r = out := Outcome.returns.inj h
      subst hro
      unfold VenueHandler.primaryPath at hp
      cases hk : kmeans (venues.map fun venue => (venue.longitude, venue.latitude)) (k : Int) with
      | returns cs =>
        simp only [hk, Outcome.bind] at hp
        exact groupVenues_partition cs venues k r hp
      | throws e => simp [hk, Outcome.bind] at hp
      | outOfFuel => simp [hk, Outcome.bind] at hp
    | throws e =>
      rw [hp] at h
      simp only [Outcome.tryCatch] at h
      exact fallbackClustering_partition venues k out h
    | outOfFuel =>
      rw [hp] at h
      simp [Outcome.tryCatch] at h

theorem distinctDraws_constant (r : Unit01) (n fuel : Nat) :
    distinctDraws (fun _ => r) n fuel ≤ 1 := by
  unfold distinctDraws drawnIndices
  rw [← List.card_toFinset]
  have hsub : (List.map (fun _ => randomIndex r n) (List.range' 0 fuel)).toFinset
      ⊆ {randomIndex r n} := by
    intro x hx
    simp only [List.mem_toFinset, List.mem_map] at hx
    obtain ⟨_, _, rfl⟩ := hx
    simp
  exact (Finset.card_le_card hsub).trans (by simp)

theorem customKmeans_eq_of_run (fuel : Nat) (rnd : Nat → Unit01) (points : List Point)
    (k : Int) (maxIterations : Nat) (o : Outcome KState)
    (h : customKmeansRun fuel rnd points k maxIterations = o) :
    customKmeans fuel rnd points k maxIterations = o.bind fun s => Outcome.returns s.centroids := by
  rw [customKmeans, h]

theorem processVenueClusters_outcome (fuel : Nat) (rnd : Nat → Unit01) (venues : List Venue)
    (k : Nat) (hk : 1 ≤ k) :
    (min k venues.length ≤ distinctDraws rnd venues.length fuel → 100 ≤ fuel →
      ∃ clusters, VenueHandler.processVenueClusters fuel rnd venues k
          = Outcome.returns clusters ∧
        clusters.length = k ∧ clusters.flatten.Perm venues) ∧
    (¬ min k venues.length ≤ distinctDraws rnd venues.length fuel →
      VenueHandler.processVenueClusters fuel rnd venues k = Outcome.outOfFuel) ∧
    (∀ clusters, VenueHandler.processVenueClusters fuel rnd venues k
        = Outcome.returns clusters →
      clusters.length = k ∧ clusters.flatten.Perm venues) := by
  have hpart : ∀ clusters, VenueHandler.processVenueClusters fuel rnd venues k
      = Outcome.returns clusters → clusters.length = k ∧ clusters.flatten.Perm venues :=
    fun clusters h => processVenueClustersWith_partition _ venues k clusters h
  by_cases hv : venues.length = 0
  · have hrun : VenueHandler.processVenueClusters fuel rnd venues k
        = Outcome.returns (List.replicate k []) := by
      simp only [VenueHandler.processVenueClusters, VenueHandler.processVenueClustersWith, hv,
        if_true, emptyClusters_natCast]
    refine ⟨fun _ _ => ⟨_, hrun, hpart _ hrun⟩, fun h => ?_, hpart⟩
    rw [hv] at h
    simp at h
  · have hlen : (venues.map fun venue => (venue.longitude, venue.latitude)).length
        = venues.length := List.length_map _ _
    have hspec := customKmeansRun_spec fuel rnd
      (venues.map fun venue => (venue.longitude, venue.latitude)) k 100
      (by rw [hlen]; omega) hk
    rw [hlen] at hspec
    refine ⟨fun hd hf => ?_, fun hd => ?_, hpart⟩
    · obtain ⟨s, hs, hsl, -⟩ := hspec.1 hd hf
      obtain ⟨out, hout⟩ := groupVenues_returns s.centroids venues k hsl hk
      have hrun : VenueHandler.processVenueClusters fuel rnd venues k = Outcome.returns out := by
        simp only [VenueHandler.processVenueClusters, VenueHandler.processVenueClustersWith, hv,
          if_false, VenueHandler.primaryPath, customKmeans, hs, Outcome.bind, hout,
          Outcome.tryCatch]
      exact ⟨out, hrun, hpart out hrun⟩
    · simp only [VenueHandler.processVenueClusters, VenueHandler.processVenueClustersWith, hv,
        if_false, VenueHandler.primaryPath, customKmeans, hspec.2 hd, Outcome.bind,
        Outcome.tryCatch]

/-- Claim C1, partition property, for a random source that lets seeding finish.  For
`k ≥ 1`: whenever `processVenueClusters` returns, the result has exactly `k`
clusters whose concatenation is a permutation of the venues; it does return when
the first `fuel ≥ 100` draws hold `min k n` distinct indices, and it is still
drawing seeds when they do not. -/
theorem processVenueClusters_partition (fuel : Nat) (rnd : Nat → Unit01) (venues : List Venue)
    (k : Nat) (hk : 1 ≤ k) :
    (min k venues.length ≤ distinctDraws rnd venues.length fuel → 100 ≤ fuel →
      ∃ clusters, VenueHandler.processVenueClusters fuel rnd venues k
          = Outcome.returns clusters ∧
        clusters.length = k ∧ clusters.flatten.Perm venues) ∧
    (¬ min k venues.length ≤ distinctDraws rnd venues.length fuel →
      VenueHandler.processVenueClusters fuel rnd venues k = Outcome.outOfFuel) ∧
    (∀ clusters, VenueHandler.processVenueClusters fuel rnd venues k
        = Outcome.returns clusters →
      clusters.length = k ∧ clusters.flatten.Perm venues) :=
  processVenueClusters_outcome fuel rnd venues k hk

theorem processVenueClusters_partition_witness :
    1 ≤ 2 ∧ ∃ clusters,
      VenueHandler.processVenueClusters 100 cyclicSource
          [⟨"a", 0, 0⟩, ⟨"b", 0, 1 / 1000⟩, ⟨"c", 5, 5⟩, ⟨"d", 5, 5001 / 1000⟩] (2 : Nat)
        = Outcome.returns clusters ∧
      clusters.length = 2 ∧
      clusters.flatten.Perm
        [⟨"a", 0, 0⟩, ⟨"b", 0, 1 / 1000⟩, ⟨"c", 5, 5⟩, ⟨"d", 5, 5001 / 1000⟩] :=
  ⟨by decide, (processVenueClusters_partition 100 cyclicSource
      [⟨"a", 0, 0⟩, ⟨"b", 0, 1 / 1000⟩, ⟨"c", 5, 5⟩, ⟨"d", 5, 5001 / 1000⟩] 2 (by decide)).1
    (by decide!) (by decide)⟩

/-- Counterexample to C1 as stated: with a random source that always returns `0`,
two venues and `k = 2`, `processVenueClusters` never returns, whatever the fuel. -/
theorem processVenueClusters_constant_source_never_returns :
    ¬ ∃ fuel clusters, VenueHandler.processVenueClusters fuel constantSource
      [⟨"a", 0, 0⟩, ⟨"b", 1, 1⟩] 2 = Outcome.returns clusters := by
  rintro ⟨fuel, clusters, h⟩
  have hout : VenueHandler.processVenueClusters fuel constantSource
      [⟨"a", 0, 0⟩, ⟨"b", 1, 1⟩] 2 = Outcome.outOfFuel := by
    refine (processVenueClusters_outcome fuel constantSource _ 2 (by decide)).2.1 ?_
    have := distinctDraws_constant Unit01.zero 2 fuel
    show ¬ min 2 2 ≤ distinctDraws constantSource 2 fuel
    unfold constantSource
    omega
  rw [hout] at h
  cases h

theorem customKmeansRun_outcome (fuel : Nat) (rnd : Nat → Unit01) (points : List Point)
    (k : Int) (maxIterations : Nat) :
    (min k.toNat points.length ≤ distinctDraws rnd points.length fuel → maxIterations ≤ fuel →
      ∃ s, customKmeansRun fuel rnd points k maxIterations = Outcome.returns s ∧
        s.iteration ≤ maxIterations ∧
        customKmeans fuel rnd points k maxIterations = Outcome.returns s.centroids) ∧
    (¬ min k.toNat points.length ≤ distinctDraws rnd points.length fuel →
      customKmeansRun fuel rnd points k maxIterations = Outcome.outOfFuel ∧
      customKmeans fuel rnd points k maxIterations = Outcome.outOfFuel) := by
  by_cases hg : points.length = 0 ∨ k ≤ 0
  · have hrun : customKmeansRun fuel rnd points k maxIterations
        = Outcome.returns (KState.mk [] [] 0 true 0) := by
      simp only [customKmeansRun, hg, if_true]
    refine ⟨fun _ _ => ⟨_, hrun, Nat.zero_le _, ?_⟩, fun h => ?_⟩
    · rw [customKmeans_eq_of_run _ _ _ _ _ _ hrun]; rfl
    · exfalso
      apply h
      rcases hg with h0 | h0
      · rw [h0]; simp
      · rw [Int.toNat_eq_zero.mpr h0]; simp
  · have hp : 0 < points.length := by omega
    have hk : 0 < k.toNat := by omega
    have hkk : ((k.toNat : Nat) : Int) = k := Int.toNat_of_nonneg (by omega)
    have hspec := customKmeansRun_spec fuel rnd points k.toNat maxIterations hp hk
    rw [hkk] at hspec
    refine ⟨fun hd hf => ?_, fun hd => ?_⟩
    · obtain ⟨s, hs, -, hit⟩ := hspec.1 hd hf
      refine ⟨s, hs, hit, ?_⟩
      rw [customKmeans_eq_of_run _ _ _ _ _ _ hs]; rfl
    · refine ⟨hspec.2 hd, ?_⟩
      rw [customKmeans_eq_of_run _ _ _ _ _ _ (hspec.2 hd)]; rfl

/-- Claim C8, bounded runtime, as the code has it.  The assignment/update loop of
`customKmeans` makes at most `maxIterations` passes and never needs more fuel than
that; the call as a whole returns when the first `fuel` draws of the random source
hold `min k n` distinct indices, and is still inside the seeding loop, for any
amount of fuel, when they do not. -/
theorem customKmeans_bounded (fuel : Nat) (rnd : Nat → Unit01) (points : List Point)
    (k : Int) (maxIterations : Nat) :
    (min k.toNat points.length ≤ distinctDraws rnd points.length fuel → maxIterations ≤ fuel →
      ∃ s, customKmeansRun fuel rnd points k maxIterations = Outcome.returns s ∧
        s.iteration ≤ maxIterations ∧
        customKmeans fuel rnd points k maxIterations = Outcome.returns s.centroids) ∧
    (¬ min k.toNat points.length ≤ distinctDraws rnd points.length fuel →
      customKmeansRun fuel rnd points k maxIterations = Outcome.outOfFuel ∧
      customKmeans fuel rnd points k maxIterations = Outcome.outOfFuel) :=
  customKmeansRun_outcome fuel rnd points k maxIterations

/-- Counterexample to C8 as stated: with a random source that always returns `0`,
two points and `k = 2`, `customKmeans` does not terminate: the seeding loop uses up
any amount of fuel. -/
theorem customKmeans_constant_source_never_returns :
    ¬ ∃ fuel centroids,
      customKmeans fuel constantSource [(0, 0), (1, 1)] 2 100 = Outcome.returns centroids := by
  rintro ⟨fuel, centroids, h⟩
  have hout : customKmeans fuel constantSource [(0, 0), (1, 1)] 2 100 = Outcome.outOfFuel := by
    refine ((customKmeansRun_outcome fuel constantSource [(0, 0), (1, 1)] 2 100).2 ?_).2
    have := distinctDraws_constant Unit01.zero 2 fuel
    show ¬ min 2 2 ≤ distinctDraws constantSource 2 fuel
    unfold constantSource
    omega
  rw [hout] at h
  cases h

/-- Claim C2, degenerate `k`, at the inputs where the code fails.  With one venue and
`k = 0` the grouping step raises a `TypeError`, the fallback raises it again and it
escapes; with `k = -1` the `RangeError` of `Array(-1)` escapes, for an empty venue
list as well as for a non-empty one. -/
theorem processVenueClusters_degenerate_raises (fuel : Nat) (rnd : Nat → Unit01) :
    VenueHandler.processVenueClusters fuel rnd [⟨"a", 0, 0⟩] 0
      = Outcome.throws JSError.typeError ∧
    VenueHandler.processVenueClusters fuel rnd [] (-1)
      = Outcome.throws JSError.rangeError ∧
    VenueHandler.processVenueClusters fuel rnd [⟨"a", 0, 0⟩] (-1)
      = Outcome.throws JSError.rangeError :=
  ⟨rfl, rfl, rfl⟩

/-- Counterexample to C3 as stated: for two venues and `k = 0` the primary path
raises, and so does the fallback: `processVenueClusters` does not return. -/
theorem processVenueClusters_fallback_raises :
    VenueHandler.primaryPath (fun points k => customKmeans 100 constantSource points k 100)
        [⟨"a", 0, 0⟩, ⟨"b", 1, 1⟩] 0 = Outcome.throws JSError.typeError ∧
    VenueHandler.processVenueClusters 100 constantSource [⟨"a", 0, 0⟩, ⟨"b", 1, 1⟩] 0
      = Outcome.throws JSError.typeError :=
  ⟨rfl, rfl⟩

/-- Claim C3, the fallback absorbs every failure of the primary path, for `k ≥ 1`.
Whatever the callee `customKmeans` does, if the body of the `try` block raises,
`processVenueClusters` returns the value of `fallbackClustering(venues, k)`: `k`
buckets, bucket `j` holding the venues of index congruent to `j` modulo `k` in
input order, together a permutation of the venues. -/
theorem processVenueClusters_fallback_absorbs
    (kmeans : List Point → Int → Outcome (List Point)) (venues : List Venue) (k : Nat)
    (hk : 1 ≤ k) (e : JSError)
    (hraise : VenueHandler.primaryPath kmeans venues k = Outcome.throws e) :
    ∃ buckets,
      VenueHandler.processVenueClustersWith kmeans venues k = Outcome.returns buckets ∧
      VenueHandler.fallbackClustering venues k = Outcome.returns buckets ∧
      buckets.length = k ∧
      (∀ j, j < k → buckets[j]?
        = some ((venues.enum.filter (fun p => p.1 % k = j)).map Prod.snd)) ∧
      buckets.flatten.Perm venues := by
  obtain ⟨buckets, h1, -, h3, h4, -, h6⟩ := fallbackClustering_buckets venues k hk
  refine ⟨buckets, ?_, h1, h3, ?_, h6⟩
  · unfold VenueHandler.processVenueClustersWith
    split_ifs with hv
    · have hv2 : venues = [] := List.length_eq_zero.mp hv
      subst hv2
      rw [← h1]
      rfl
    · rw [hraise]
      exact h1
  · intro j hj
    obtain ⟨b, hb, hb2, -⟩ := h4 j hj
    rw [hb, hb2]

theorem processVenueClusters_fallback_absorbs_witness :
    1 ≤ 1 ∧
    VenueHandler.primaryPath (fun _ _ => Outcome.returns [(0, 0), (5, 5)]) [⟨"a", 5, 5⟩] (1 : Nat)
      = Outcome.throws JSError.typeError ∧
    ∃ buckets,
      VenueHandler.processVenueClustersWith (fun _ _ => Outcome.returns [(0, 0), (5, 5)])
          [⟨"a", 5, 5⟩] (1 : Nat) = Outcome.returns buckets ∧
      VenueHandler.fallbackClustering [⟨"a", 5, 5⟩] (1 : Nat) = Outcome.returns buckets ∧
      buckets.length = 1 ∧
      (∀ j, j < 1 → buckets[j]?
        = some ((([⟨"a", 5, 5⟩] : List Venue).enum.filter (fun p => p.1 % 1 = j)).map Prod.snd)) ∧
      buckets.flatten.Perm [⟨"a", 5, 5⟩] :=
  ⟨by decide, by decide!,
    processVenueClusters_fallback_absorbs (fun _ _ => Outcome.returns [(0, 0), (5, 5)])
      [⟨"a", 5, 5⟩] 1 (by decide) JSError.typeError (by decide!)⟩

/-! ## Server-side clusterer -/

theorem forEach_serverClosest_bound (point : Point) :
    ∀ (cs : List (Option ℚ × Option ℚ)) (j : Nat) (s : Option Root × Nat),
      (forEach (Clustering.closerStep point) cs j s).2 = s.2 ∨
        (j ≤ (forEach (Clustering.closerStep point) cs j s).2 ∧
          (forEach (Clustering.closerStep point) cs j s).2 < j + cs.length)
  | [], j, s => by simp [forEach]
  | c :: cs, j, s => by
    simp only [forEach, List.length_cons]
    rcases forEach_serverClosest_bound point cs (j + 1) (Clustering.closerStep point s c j)
      with h1 | h1
    · rw [h1]
      unfold Clustering.closerStep
      split
      · simp only
        split_ifs
        · right; simp
        · left; rfl
      · left; rfl
    · right; omega

theorem serverClosestCentroid_lt (cs : List (Option ℚ × Option ℚ)) (point : Point)
    (h : 0 < cs.length) : Clustering.closestCentroid cs point < cs.length := by
  have := forEach_serverClosest_bound point cs 0 (none, 0)
  unfold Clustering.closestCentroid
  rcases this with h1 | h1
  · rw [h1]; exact h
  · omega

theorem randomCentroids_length (rnd : Nat → Unit01) (minX minY maxX maxY : Option ℚ) :
    ∀ (m t : Nat), (Clustering.randomCentroids rnd minX minY maxX maxY m t).length = m
  | 0, _ => rfl
  | m + 1, t => by
    simp [Clustering.randomCentroids, randomCentroids_length rnd minX minY maxX maxY m (t + 2)]

theorem simulateKMeans_length (rnd : Nat → Unit01) (points : List Point) (k : Nat) :
    (Clustering.simulateKMeans rnd points (k : Int)).length = k := by
  simp [Clustering.simulateKMeans, randomCentroids_length]

theorem kMeansClustering_outcome (rnd : Nat → Unit01) (venues : List Venue) (k : Nat)
    (hk : 1 ≤ k) :
    (venues ≠ [] →
      ∃ clusters, Clustering.kMeansClustering rnd venues k = Outcome.returns clusters ∧
        clusters.length = k ∧ clusters.flatten.Perm venues) ∧
    (venues = [] → Clustering.kMeansClustering rnd venues k = Outcome.returns []) := by
  constructor
  · intro hv
    have hv0 : ¬ venues.length = 0 := fun h => hv (List.length_eq_zero.mp h)
    obtain ⟨out, hout⟩ := forEachM_push_returns
      (fun venue _ => some (Clustering.closestCentroid
        (Clustering.simulateKMeans rnd
          (venues.map fun venue => (venue.longitude, venue.latitude)) (k : Int))
        (venue.longitude, venue.latitude))) k
      (fun venue _ => ⟨_, rfl, by
        have := serverClosestCentroid_lt (Clustering.simulateKMeans rnd
          (venues.map fun venue => (venue.longitude, venue.latitude)) (k : Int))
          (venue.longitude, venue.latitude) (by rw [simulateKMeans_length]; omega)
        rwa [simulateKMeans_length] at this⟩)
      venues 0 (List.replicate k []) (by simp)
    have hpart := forEachM_push_partition _ venues 0 (List.replicate k []) out hout
    refine ⟨out, ?_, by simpa using hpart.1, by simpa [flatten_replicate_nil] using hpart.2⟩
    simp only [Clustering.kMeansClustering, hv0, if_false, emptyClusters_natCast, Outcome.bind,
      hout, Outcome.tryCatch]
  · intro hv
    subst hv
    rfl

/-- Claim C10, the server-side clusterer, as the code has it.  For `k ≥ 1` and a
non-empty venue list `kMeansClustering` returns exactly `k` clusters whose
concatenation is a permutation of the venues; for the empty venue list it returns
the empty list of clusters. -/
theorem kMeansClustering_exactly_k (rnd : Nat → Unit01) (venues : List Venue) (k : Nat)
    (hk : 1 ≤ k) :
    (venues ≠ [] →
      ∃ clusters, Clustering.kMeansClustering rnd venues k = Outcome.returns clusters ∧
        clusters.length = k ∧ clusters.flatten.Perm venues) ∧
    (venues = [] → Clustering.kMeansClustering rnd venues k = Outcome.returns []) :=
  kMeansClustering_outcome rnd venues k hk

theorem kMeansClustering_exactly_k_witness :
    1 ≤ 3 ∧ ∃ clusters,
      Clustering.kMeansClustering cyclicSource
          [⟨"a", 0, 0⟩, ⟨"b", 0, 1 / 1000⟩, ⟨"c", 5, 5⟩, ⟨"d", 5, 5001 / 1000⟩] (3 : Nat)
        = Outcome.returns clusters ∧
      clusters.length = 3 ∧
      clusters.flatten.Perm
        [⟨"a", 0, 0⟩, ⟨"b", 0, 1 / 1000⟩, ⟨"c", 5, 5⟩, ⟨"d", 5, 5001 / 1000⟩] :=
  ⟨by decide, (kMeansClustering_exactly_k cyclicSource
      [⟨"a", 0, 0⟩, ⟨"b", 0, 1 / 1000⟩, ⟨"c", 5, 5⟩, ⟨"d", 5, 5001 / 1000⟩] 3 (by decide)).1
    (by decide)⟩

/-- Counterexample to C10 as stated: for the empty venue list and `k = 3` the
server-side clusterer returns no cluster at all, not three. -/
theorem kMeansClustering_empty_input :
    ∃ clusters,
      Clustering.kMeansClustering constantSource [] 3 = Outcome.returns clusters ∧
        clusters.length ≠ 3 :=
  ⟨[], rfl, by decide⟩

/-! ## Waypoint sequencing -/

theorem Root.lt_iff_sqrt_lt (a b : Root) (ha : 0 ≤ a.radicand) :
    a.lt b = true ↔ Real.sqrt (a.radicand : ℝ) < Real.sqrt (b.radicand : ℝ) := by
  have h0 : (0 : ℝ) ≤ (a.radicand : ℝ) := by exact_mod_cast ha
  rw [Real.sqrt_lt_sqrt_iff h0]
  simp [Root.lt]

theorem Root.le_iff_sqrt_le (a b : Root) (hb : 0 ≤ b.radicand) :
    a.le b = true ↔ Real.sqrt (a.radicand : ℝ) ≤ Real.sqrt (b.radicand : ℝ) := by
  have h0 : (0 : ℝ) ≤ (b.radicand : ℝ) := by exact_mod_cast hb
  rw [Real.sqrt_le_sqrt_iff h0]
  simp [Root.le]

theorem Root.gtNum_iff_lt_sqrt (d : Root) (x : ℚ) :
    d.gtNum x = true ↔ (x : ℝ) < Real.sqrt (d.radicand : ℝ) := by
  unfold Root.gtNum
  by_cases hx : x < 0
  · have hx2 : (x : ℝ) < 0 := by exact_mod_cast hx
    simp only [hx, decide_True, Bool.true_or, true_iff]
    exact lt_of_lt_of_le hx2 (Real.sqrt_nonneg _)
  · have hx2 : (0 : ℝ) ≤ (x : ℝ) := by exact_mod_cast (not_lt.mp hx)
    simp only [hx, decide_False, Bool.false_or, decide_eq_true_eq]
    rw [Real.lt_sqrt hx2, pow_two]
    exact_mod_cast Iff.rfl

theorem forEach_nearest_some (dist : LatLng → LatLng → Root) (current : LatLng) :
    ∀ (ws : List LatLng) (j : Nat) (d : Root) (i0 : Nat),
      ∃ d1 i1, forEach (nearestStep dist current) ws j (some d, some i0) = (some d1, some i1) ∧
        d1.radicand ≤ d.radicand ∧
        (∀ w, w ∈ ws → d1.radicand ≤ (dist current w).radicand) ∧
        ((i1 = i0 ∧ d1 = d) ∨
          (j ≤ i1 ∧ ∃ w, ws[i1 - j]? = some w ∧ d1 = dist current w))
  | [], j, d, i0 => ⟨d, i0, rfl, le_refl _, by simp, Or.inl ⟨rfl, rfl⟩⟩
  | w :: ws, j, d, i0 => by
    simp only [forEach]
    by_cases hlt : (dist current w).radicand < d.radicand
    · have hstep : nearestStep dist current (some d, some i0) w j
          = (some (dist current w), some j) := by
        simp [nearestStep, Root.ltMin, Root.lt, hlt]
      obtain ⟨d1, i1, h1, h2, h3, h4⟩ :=
        forEach_nearest_some dist current ws (j + 1) (dist current w) j
      refine ⟨d1, i1, by rw [hstep]; exact h1, le_trans h2 (le_of_lt hlt), ?_, Or.inr ?_⟩
      · intro x hx
        rcases List.mem_cons.mp hx with rfl | hx
        · exact h2
        · exact h3 x hx
      · rcases h4 with ⟨rfl, rfl⟩ | ⟨hj, x, hx, hd⟩
        · exact ⟨le_refl _, w, by simp, rfl⟩
        · refine ⟨by omega, x, ?_, hd⟩
          rw [show i1 - j = (i1 - (j + 1)) + 1 by omega, List.getElem?_cons_succ]
          exact hx
    · have hstep : nearestStep dist current (some d, some i0) w j = (some d, some i0) := by
        simp [nearestStep, Root.ltMin, Root.lt, hlt]
      obtain ⟨d1, i1, h1, h2, h3, h4⟩ := forEach_nearest_some dist current ws (j + 1) d i0
      refine ⟨d1, i1, by rw [hstep]; exact h1, h2, ?_, ?_⟩
      · intro x hx
        rcases List.mem_cons.mp hx with rfl | hx
        · exact le_trans h2 (not_lt.mp hlt)
        · exact h3 x hx
      · rcases h4 with h | ⟨hj, x, hx, hd⟩
        · exact Or.inl h
        · refine Or.inr ⟨by omega, x, ?_, hd⟩
          rw [show i1 - j = (i1 - (j + 1)) + 1 by omega, List.getElem?_cons_succ]
          exact hx

/-- On a non-empty list the scan of `orderWaypoints` finds an index, and the
waypoint there is a nearest one. -/
theorem nearestScan_spec (dist : LatLng → LatLng → Root) (current : LatLng)
    (remaining : List LatLng) (h : 0 < remaining.length) :
    ∃ i w, (nearestScan dist current remaining).2 = some i ∧ remaining[i]? = some w ∧
      ∀ x, x ∈ remaining → (dist current w).le (dist current x) = true := by
  cases remaining with
  | nil => simp at h
  | cons w ws =>
    have hstep : nearestStep dist current (none, none) w 0 = (some (dist current w), some 0) := by
      simp [nearestStep, Root.ltMin]
    obtain ⟨d1, i1, h1, h2, h3, h4⟩ := forEach_nearest_some dist current ws 1 (dist current w) 0
    have hscan : nearestScan dist current (w :: ws) = (some d1, some i1) := by
      simp only [nearestScan, forEach, hstep]
      exact h1
    rcases h4 with ⟨rfl, rfl⟩ | ⟨hj, x, hx, hd⟩
    · refine ⟨0, w, by rw [hscan], by simp, ?_⟩
      intro x hx
      simp only [Root.le, decide_eq_true_eq]
      rcases List.mem_cons.mp hx with rfl | hx
      · exact le_refl _
      · exact h3 x hx
    · refine ⟨i1, x, by rw [hscan], ?_, ?_⟩
      · rw [show i1 = (i1 - 1) + 1 by omega, List.getElem?_cons_succ]
        exact hx
      · intro y hy
        simp only [Root.le, decide_eq_true_eq]
        rw [← hd]
        rcases List.mem_cons.mp hy with rfl | hy
        · exact h2
        · exact h3 y hy

theorem perm_cons_eraseIdx {α : Type} :
    ∀ (l : List α) (i : Nat) (w : α), l[i]? = some w → (w :: l.eraseIdx i).Perm l
  | [], i, w, h => by simp at h
  | a :: l, 0, w, h => by
    simp only [List.getElem?_cons_zero, Option.some.injEq] at h
    subst h
    simp
  | a :: l, i + 1, w, h => by
    simp only [List.getElem?_cons_succ] at h
    simp only [List.eraseIdx_cons_succ]
    exact (List.Perm.swap a w _).trans (List.Perm.cons a (perm_cons_eraseIdx l i w h))

theorem orderLoop_spec (dist : LatLng → LatLng → Root) :
    ∀ (fuel : Nat) (ordered : List LatLng) (current : LatLng) (remaining : List LatLng),
      remaining.length ≤ fuel →
      ∃ tail, orderLoop dist fuel ordered current remaining = ordered ++ tail ∧
        tail.Perm remaining ∧ GreedyFrom dist current tail
  | 0, ordered, current, remaining, h => by
    have : remaining = [] := List.length_eq_zero.mp (by omega)
    subst this
    exact ⟨[], by simp [orderLoop], List.Perm.refl _, trivial⟩
  | fuel + 1, ordered, current, remaining, h => by
    by_cases hr : 0 < remaining.length
    · obtain ⟨i, w, hi, hw, hmin⟩ := nearestScan_spec dist current remaining hr
      have hlen : (remaining.eraseIdx i).length ≤ fuel := by
        have hil : i < remaining.length := by
          by_contra hc
          rw [List.getElem?_eq_none (by omega)] at hw
          simp at hw
        rw [List.length_eraseIdx]
        simp only [hil, if_true]
        omega
      obtain ⟨tail, ht, hp, hg⟩ :=
        orderLoop_spec dist fuel (ordered ++ [w]) w (remaining.eraseIdx i) hlen
      have hperm : (w :: tail).Perm remaining :=
        (List.Perm.cons w hp).trans (perm_cons_eraseIdx remaining i w hw)
      refine ⟨w :: tail, ?_, hperm, ?_, hg⟩
      · simp only [orderLoop, hr, if_true, hi, hw, ht]
        simp
      · intro x hx
        exact hmin x (hperm.subset hx)
    · have : remaining = [] := List.length_eq_zero.mp (by omega)
      subst this
      exact ⟨[], by simp [orderLoop], List.Perm.refl _, trivial⟩

theorem greedyFrom_index (dist : LatLng → LatLng → Root) :
    ∀ (out : List LatLng) (start : LatLng), GreedyFrom dist start out →
      ∀ i j, i ≤ j → j < out.length →
        (dist (prevOf start out i) (out.getD i start)).le
          (dist (prevOf start out i) (out.getD j start)) = true
  | [], _, _, i, j, _, hj => by simp at hj
  | w :: rest, start, hg, 0, j, _, hj => by
    have hmem : (w :: rest).getD j start ∈ w :: rest := by
      rw [List.getD_eq_getElem _ _ hj]
      exact List.getElem_mem _
    simpa [prevOf] using hg.1 _ hmem
  | w :: rest, start, hg, i + 1, 0, hij, _ => by omega
  | w :: rest, start, hg, i + 1, j + 1, hij, hj => by
    have ih := greedyFrom_index dist rest w hg.2 i j (by omega) (by simpa using hj)
    have hi : i < rest.length := by simp at hj; omega
    have hj2 : j < rest.length := by simpa using hj
    have hprev : prevOf start (w :: rest) (i + 1) = prevOf w rest i := by
      unfold prevOf
      cases i with
      | zero => simp
      | succ i =>
        have : i < rest.length := by omega
        simp [List.getElem?_eq_getElem this]
    rw [hprev]
    simp only [List.getD_cons_succ]
    rw [List.getD_eq_getElem _ _ hi, List.getD_eq_getElem _ _ hj2]
    rw [List.getD_eq_getElem _ _ hi, List.getD_eq_getElem _ _ hj2] at ih
    exact ih

theorem orderWaypoints_spec (waypoints : List LatLng) (start endPoint : LatLng) :
    (RouteHandler.orderWaypoints waypoints start endPoint).Perm waypoints ∧
      GreedyFrom RouteHandler.calculateDistance start
        (RouteHandler.orderWaypoints waypoints start endPoint) := by
  unfold RouteHandler.orderWaypoints
  split_ifs with h
  · refine ⟨List.Perm.refl _, ?_⟩
    match waypoints, h with
    | [], _ => trivial
    | [w], _ =>
      refine ⟨?_, trivial⟩
      intro x hx
      rw [List.mem_singleton.mp hx]
      simp [Root.le]
    | _ :: _ :: _, h => simp at h
  · obtain ⟨tail, ht, hp, hg⟩ := orderLoop_spec RouteHandler.calculateDistance
      waypoints.length [] start waypoints (le_refl _)
    rw [ht]
    exact ⟨hp, hg⟩

theorem server_orderWaypoints_eq (waypoints : List LatLng) (start endPoint : LatLng) :
    Clustering.orderWaypoints waypoints start endPoint
      = RouteHandler.orderWaypoints waypoints start endPoint := rfl

theorem server_calculateDistance_eq (point1 point2 : LatLng) :
    Clustering.calculateDistance point1 point2 = RouteHandler.calculateDistance point1 point2 :=
  rfl

theorem server_significantCenters_eq (clusters : List (List Venue)) (start endPoint : LatLng) :
    Clustering.significantCenters clusters start endPoint
      = RouteHandler.significantCenters clusters start endPoint := rfl

theorem server_determineWaypoints_eq (clusters : List (List Venue)) (start endPoint : LatLng) :
    Clustering.determineWaypoints clusters start endPoint
      = RouteHandler.determineWaypoints clusters start endPoint := rfl

/-- Claim C5, sequencer permutation law.  For every start point and every list of
candidates, both copies of `orderWaypoints` return a permutation of the input
list, of the same length. -/
theorem orderWaypoints_perm (waypoints : List LatLng) (start endPoint : LatLng) :
    (RouteHandler.orderWaypoints waypoints start endPoint).Perm waypoints ∧
    (RouteHandler.orderWaypoints waypoints start endPoint).length = waypoints.length ∧
    (Clustering.orderWaypoints waypoints start endPoint).Perm waypoints ∧
    (Clustering.orderWaypoints waypoints start endPoint).length = waypoints.length := by
  have h := (orderWaypoints_spec waypoints start endPoint).1
  rw [server_orderWaypoints_eq]
  exact ⟨h, h.length_eq, h, h.length_eq⟩

/-- Claim C6, sequencer greedy nearest-first.  With `out` the output, `prev_0 = start`
and `prev_i = out[i-1]`, every position `i` and every `j ≥ i` satisfy
`dist(prev_i, out[i]) ≤ dist(prev_i, out[j])`, for both copies; and from the start
`(0,0)` the candidates `(10,10), (1,1), (5,5)` come out as `(1,1), (5,5), (10,10)`. -/
theorem orderWaypoints_greedy (waypoints : List LatLng) (start endPoint : LatLng) :
    (∀ i j, i ≤ j → j < (RouteHandler.orderWaypoints waypoints start endPoint).length →
      (RouteHandler.calculateDistance
          (prevOf start (RouteHandler.orderWaypoints waypoints start endPoint) i)
          ((RouteHandler.orderWaypoints waypoints start endPoint).getD i start)).le
        (RouteHandler.calculateDistance
          (prevOf start (RouteHandler.orderWaypoints waypoints start endPoint) i)
          ((RouteHandler.orderWaypoints waypoints start endPoint).getD j start)) = true) ∧
    (∀ i j, i ≤ j → j < (Clustering.orderWaypoints waypoints start endPoint).length →
      (Clustering.calculateDistance
          (prevOf start (Clustering.orderWaypoints waypoints start endPoint) i)
          ((Clustering.orderWaypoints waypoints start endPoint).getD i start)).le
        (Clustering.calculateDistance
          (prevOf start (Clustering.orderWaypoints waypoints start endPoint) i)
          ((Clustering.orderWaypoints waypoints start endPoint).getD j start)) = true) ∧
    RouteHandler.orderWaypoints [⟨10, 10⟩, ⟨1, 1⟩, ⟨5, 5⟩] ⟨0, 0⟩ endPoint
      = [⟨1, 1⟩, ⟨5, 5⟩, ⟨10, 10⟩] ∧
    Clustering.orderWaypoints [⟨10, 10⟩, ⟨1, 1⟩, ⟨5, 5⟩] ⟨0, 0⟩ endPoint
      = [⟨1, 1⟩, ⟨5, 5⟩, ⟨10, 10⟩] := by
  have h := greedyFrom_index RouteHandler.calculateDistance _ start
    (orderWaypoints_spec waypoints start endPoint).2
  have hex : RouteHandler.orderWaypoints [⟨10, 10⟩, ⟨1, 1⟩, ⟨5, 5⟩] ⟨0, 0⟩ endPoint
      = [⟨1, 1⟩, ⟨5, 5⟩, ⟨10, 10⟩] := by
    unfold RouteHandler.orderWaypoints
    decide!
  refine ⟨h, ?_, hex, ?_⟩
  · simp only [server_orderWaypoints_eq, server_calculateDistance_eq]
    exact h
  · rw [server_orderWaypoints_eq]; exact hex

/-! ## Centroid filter -/

theorem foldl_add_eq_sum (g : Venue → ℚ) :
    ∀ (cluster : List Venue) (a : ℚ),
      cluster.foldl (fun sum venue => sum + g venue) a = a + (cluster.map g).sum
  | [], a => by simp
  | v :: vs, a => by
    simp only [List.foldl_cons, List.map_cons, List.sum_cons]
    rw [foldl_add_eq_sum g vs (a + g v)]
    ring

theorem clusterCenter_eq (cluster : List Venue) :
    clusterCenter cluster = if cluster = [] then none else some (centroid cluster) := by
  unfold clusterCenter centroid
  by_cases h : cluster = []
  · simp [h]
  · have h2 : ¬ cluster.length = 0 := fun hl => h (List.length_eq_zero.mp hl)
    simp only [h, h2, if_false]
    rw [foldl_add_eq_sum (fun venue => venue.latitude),
      foldl_add_eq_sum (fun venue => venue.longitude)]
    simp

theorem filterMap_clusterCenter :
    ∀ (clusters : List (List Venue)),
      clusters.filterMap clusterCenter
        = (clusters.filter (fun cluster => decide (cluster ≠ []))).map centroid
  | [] => rfl
  | c :: cs => by
    rw [List.filterMap_cons, clusterCenter_eq, filterMap_clusterCenter cs]
    by_cases h : c = []
    · simp [h]
    · simp [h]

theorem determineWaypoints_spec (clusters : List (List Venue)) (start endPoint : LatLng) :
    (RouteHandler.determineWaypoints clusters start endPoint).Perm
      (((clusters.filter (fun cluster => decide (cluster ≠ []))).map centroid).filter
        (fun c => (RouteHandler.calculateDistance c start).gtNum (1 / 100) &&
          (RouteHandler.calculateDistance c endPoint).gtNum (1 / 100))) := by
  unfold RouteHandler.determineWaypoints
  refine (orderWaypoints_spec _ start endPoint).1.trans ?_
  unfold RouteHandler.significantCenters
  rw [filterMap_clusterCenter]

/-- Claim C7, filter threshold.  The waypoints returned by both copies of
`determineWaypoints` are, as a multiset, the centroids (coordinate-wise means) of
the non-empty clusters whose distance to the start and whose distance to the end
both exceed `0.01`, where the test used by the code is the comparison
`0.01 < √((Δlat)² + (Δlng)²)`.  With start `(0,0)` and end `(1,1)`, a cluster with
centroid `(0.001, 0.001)` yields no waypoint and one with centroid `(0.5, 0.5)`
yields that waypoint. -/
theorem determineWaypoints_threshold (clusters : List (List Venue)) (start endPoint : LatLng) :
    (RouteHandler.determineWaypoints clusters start endPoint).Perm
      (((clusters.filter (fun cluster => decide (cluster ≠ []))).map centroid).filter
        (fun c => (RouteHandler.calculateDistance c start).gtNum (1 / 100) &&
          (RouteHandler.calculateDistance c endPoint).gtNum (1 / 100))) ∧
    (Clustering.determineWaypoints clusters start endPoint).Perm
      (((clusters.filter (fun cluster => decide (cluster ≠ []))).map centroid).filter
        (fun c => (Clustering.calculateDistance c start).gtNum (1 / 100) &&
          (Clustering.calculateDistance c endPoint).gtNum (1 / 100))) ∧
    (∀ c p : LatLng, (RouteHandler.calculateDistance c p).gtNum (1 / 100) = true ↔
      (1 / 100 : ℝ) < Real.sqrt ((((c.lat - p.lat) ^ 2 + (c.lng - p.lng) ^ 2 : ℚ)) : ℝ)) ∧
    RouteHandler.determineWaypoints [[⟨"a", 1 / 1000, 1 / 1000⟩]] ⟨0, 0⟩ ⟨1, 1⟩ = [] ∧
    RouteHandler.determineWaypoints [[⟨"b", 1 / 2, 1 / 2⟩]] ⟨0, 0⟩ ⟨1, 1⟩ = [⟨1 / 2, 1 / 2⟩] ∧
    RouteHandler.determineWaypoints
        [[⟨"a", 1 / 1000, 1 / 1000⟩], [], [⟨"b", 1 / 4, 1 / 2⟩, ⟨"c", 3 / 4, 1 / 2⟩]]
        ⟨0, 0⟩ ⟨1, 1⟩ = [⟨1 / 2, 1 / 2⟩] := by
  refine ⟨determineWaypoints_spec clusters start endPoint, ?_, ?_, by decide!, by decide!,
    by decide!⟩
  · rw [server_determineWaypoints_eq]
    simp only [server_calculateDistance_eq]
    exact determineWaypoints_spec clusters start endPoint
  · intro c p
    have := Root.gtNum_iff_lt_sqrt (RouteHandler.calculateDistance c p) (1 / 100)
    simpa [RouteHandler.calculateDistance, Math_sqrt] using this

/-! ## The convergence scenario -/

theorem average_of_pos (rnd : Nat → Unit01) (points : List Point) :
    ∀ (zs : List (Nat × Point)) (changed : Bool) (t : Nat),
      zs.all (fun z => decide (0 < z.1)) = true →
      average rnd points zs changed t
        = Outcome.returns (zs.map (fun z => (z.2.1 / (z.1 : ℚ), z.2.2 / (z.1 : ℚ))), changed, t)
  | [], changed, t, _ => rfl
  | (count, sum) :: rest, changed, t, h => by
    simp only [List.all_cons, Bool.and_eq_true, decide_eq_true_eq] at h
    have ih := average_of_pos rnd points rest changed t h.2
    simp only [average, h.1, if_true, ih, List.map_cons]

theorem iterate_of_lloydStep (rnd : Nat → Unit01) (points : List Point) (k : Int) (s : KState)
    (r : List Point × List Nat × Bool)
    (h : lloydStep points k s.centroids s.assignments = some r) :
    iterate rnd points k s
      = Outcome.returns (KState.mk r.1 r.2.1 (s.iteration + 1) r.2.2 s.draws) := by
  unfold lloydStep at h
  unfold iterate
  cases hacc : accumulate (assignStep s.centroids s.assignments points).1 k points with
  | returns acc =>
    simp only [hacc] at h
    split_ifs at h with hpos
    simp only [Option.some.injEq] at h
    subst h
    simp only [hacc, Outcome.bind, average_of_pos rnd points _ _ _ hpos]
  | throws e => simp [hacc] at h
  | outOfFuel => simp [hacc] at h

theorem mainLoop_of_lloydLoop (rnd : Nat → Unit01) (points : List Point) (k : Int)
    (maxIterations : Nat) :
    ∀ (n : Nat) (s : KState) (r : List Point),
      lloydLoop points k n s.centroids s.assignments s.changed = some r →
      s.iteration + n ≤ maxIterations →
      ∀ fuel s1, mainLoop rnd points k maxIterations fuel s = Outcome.returns s1 →
        s1.centroids = r
  | n, ⟨cs, as, it, false, t⟩, r, h, _, fuel, s1, hm => by
    have hr : r = cs := by
      cases n <;> simpa [lloydLoop] using h.symm
    cases fuel <;> simp [mainLoop] at hm <;> rw [← hm, hr]
  | 0, ⟨cs, as, it, true, t⟩, r, h, _, fuel, s1, hm => by simp [lloydLoop] at h
  | n + 1, ⟨cs, as, it, true, t⟩, r, h, hit, fuel, s1, hm => by
    simp only [lloydLoop] at h
    cases hstep : lloydStep points k cs as with
    | none => simp [hstep] at h
    | some q =>
      simp only [hstep] at h
      have hiter := iterate_of_lloydStep rnd points k ⟨cs, as, it, true, t⟩ q hstep
      have hcond : it < maxIterations := by simp only at hit; omega
      cases fuel with
      | zero => simp [mainLoop, hcond] at hm
      | succ fuel =>
        simp only [mainLoop, hcond, and_self, if_true, hiter] at hm
        exact mainLoop_of_lloydLoop rnd points k maxIterations n _ r h
          (by simp only at hit ⊢; omega) fuel s1 hm

/-- What a returning call of `customKmeans` has gone through, for `k ≥ 1` and a
non-empty point list: seeding, duplication and the main loop. -/
theorem customKmeansRun_inv (fuel : Nat) (rnd : Nat → Unit01) (points : List Point)
    (k maxIterations : Nat) (hp : 0 < points.length) (hk : 0 < k) (s : KState)
    (h : customKmeansRun fuel rnd points (k : Int) maxIterations = Outcome.returns s) :
    ∃ cs1 used1 t1 cs2,
      seedLoop rnd points (k : Int) fuel [] [] 0 = Outcome.returns (cs1, used1, t1) ∧
      used1.Nodup ∧ (∀ u ∈ used1, u < points.length) ∧
      List.Forall₂ (fun c u => points[u]? = some c) cs1 used1 ∧
      cs1.length = min k points.length ∧
      fillLoop used1.length (k - cs1.length) cs1 = Outcome.returns cs2 ∧
      cs2.length = k ∧
      (∀ i, i < cs1.length → cs2[i]? = cs1[i]?) ∧
      (∀ i, cs1.length ≤ i → i < cs2.length → cs2[i]? = cs2[i % used1.length]?) ∧
      mainLoop rnd points (k : Int) maxIterations fuel (KState.mk cs2 [] 0 true t1)
        = Outcome.returns s := by
  have hguard : ¬ (points.length = 0 ∨ (k : Int) ≤ 0) := by
    have : (0 : Int) < (k : Int) := by exact_mod_cast hk
    omega
  have hseed := seedLoop_spec rnd points k fuel [] [] 0 List.nodup_nil (by simp)
    List.Forall₂.nil
  by_cases hd : min k points.length ≤
      (([] : List Nat).toFinset ∪ (drawnIndices rnd points.length 0 fuel).toFinset).card
  · obtain ⟨cs1, used1, t1, h1, h2, h3, h4, h5⟩ := hseed.1 hd
    have hlen1 : cs1.length = min k points.length := h5 (by simp)
    have hused : used1.length = cs1.length := h4.length_eq.symm
    obtain ⟨cs2, hf, hlen2, hpre, hdup⟩ := fillLoop_returns used1.length (by omega)
      (k - cs1.length) cs1 (by omega)
    refine ⟨cs1, used1, t1, cs2, h1, h2, h3, h4, hlen1, hf, by omega, hpre, hdup, ?_⟩
    simpa only [customKmeansRun, hguard, if_false, h1, Outcome.bind, Int.toNat_ofNat, hf] using h
  · rw [customKmeansRun, if_neg hguard, hseed.2 hd] at h
    simp [Outcome.bind] at h

theorem scenario_lloydLoop :
    ∀ a b : Fin 4, a ≠ b →
      (lloydLoop scenarioPoints 2 3
          [scenarioPoints.getD a.val (0, 0), scenarioPoints.getD b.val (0, 0)]
          [] true = some [(0, 1 / 2000), (5, 10001 / 2000)] ∨
      lloydLoop scenarioPoints 2 3
          [scenarioPoints.getD a.val (0, 0), scenarioPoints.getD b.val (0, 0)]
          [] true = some [(5, 10001 / 2000), (0, 1 / 2000)]) := by
  decide!

theorem scenario_groupVenues :
    VenueHandler.groupVenues [(0, 1 / 2000), (5, 10001 / 2000)] scenarioVenues 2
      = Outcome.returns [[⟨"a", 0, 0⟩, ⟨"b", 0, 1 / 1000⟩], [⟨"c", 5, 5⟩, ⟨"d", 5, 5001 / 1000⟩]] ∧
    VenueHandler.groupVenues [(5, 10001 / 2000), (0, 1 / 2000)] scenarioVenues 2
      = Outcome.returns [[⟨"c", 5, 5⟩, ⟨"d", 5, 5001 / 1000⟩], [⟨"a", 0, 0⟩, ⟨"b", 0, 1 / 1000⟩]] := by
  decide!

theorem mainLoop_no_throw (rnd : Nat → Unit01) (points : List Point) (k maxIterations : Nat)
    (hp : 0 < points.length) (hk : 0 < k) (e : JSError) :
    ∀ (fuel : Nat) (s : KState), s.centroids.length = k →
      mainLoop rnd points (k : Int) maxIterations fuel s ≠ Outcome.throws e
  | 0, s, _ => by
    simp only [mainLoop]
    split_ifs <;> simp
  | fuel + 1, s, hs => by
    simp only [mainLoop]
    split_ifs with hc
    · obtain ⟨s1, h1, hl, -⟩ := iterate_returns rnd points k s hp hk hs
      rw [h1]
      exact mainLoop_no_throw rnd points k maxIterations hp hk e fuel s1 hl
    · simp

theorem customKmeansRun_no_throw (fuel : Nat) (rnd : Nat → Unit01) (points : List Point)
    (k maxIterations : Nat) (hp : 0 < points.length) (hk : 0 < k) (e : JSError) :
    customKmeansRun fuel rnd points (k : Int) maxIterations ≠ Outcome.throws e := by
  have hguard : ¬ (points.length = 0 ∨ (k : Int) ≤ 0) := by
    have : (0 : Int) < (k : Int) := by exact_mod_cast hk
    omega
  have hseed := seedLoop_spec rnd points k fuel [] [] 0 List.nodup_nil (by simp)
    List.Forall₂.nil
  by_cases hd : min k points.length ≤
      (([] : List Nat).toFinset ∪ (drawnIndices rnd points.length 0 fuel).toFinset).card
  · obtain ⟨cs1, used1, t1, h1, h2, h3, h4, h5⟩ := hseed.1 hd
    have hlen1 : cs1.length = min k points.length := h5 (by simp)
    have hused : used1.length = cs1.length := h4.length_eq.symm
    obtain ⟨cs2, hf, hlen2, -, -⟩ := fillLoop_returns used1.length (by omega)
      (k - cs1.length) cs1 (by omega)
    simp only [customKmeansRun, hguard, if_false, h1, Outcome.bind, Int.toNat_ofNat, hf]
    exact mainLoop_no_throw rnd points k maxIterations hp hk e fuel _ (by simp [hlen2]; omega)
  · rw [customKmeansRun, if_neg hguard, hseed.2 hd]
    simp [Outcome.bind]

theorem scenario_customKmeansRun (fuel : Nat) (rnd : Nat → Unit01) (s : KState)
    (h : customKmeansRun fuel rnd scenarioPoints 2 100 = Outcome.returns s) :
    s.centroids = [(0, 1 / 2000), (5, 10001 / 2000)] ∨
      s.centroids = [(5, 10001 / 2000), (0, 1 / 2000)] := by
  obtain ⟨cs1, used1, t1, cs2, -, hnd, hlt, hf2, hlen, hfill, -, -, -, hmain⟩ :=
    customKmeansRun_inv fuel rnd scenarioPoints 2 100 (by decide) (by decide) s h
  have hl2 : cs1.length = 2 := by rw [hlen]; decide
  rw [hl2] at hfill
  simp only [Nat.sub_self, fillLoop, Outcome.returns.injEq] at hfill
  subst hfill
  match cs1, used1, hf2, hl2 with
  | [c1, c2], [a, b], hf2, _ =>
    simp only [List.forall₂_cons, List.forall₂_nil_left_iff, and_true] at hf2
    have ha : a < 4 := hlt a (by simp)
    have hb : b < 4 := hlt b (by simp)
    have hab : a ≠ b := by
      intro hc
      subst hc
      simp at hnd
    have hc1 : c1 = scenarioPoints.getD a (0, 0) := by
      rw [List.getD_eq_getElem?_getD, hf2.1]; rfl
    have hc2 : c2 = scenarioPoints.getD b (0, 0) := by
      rw [List.getD_eq_getElem?_getD, hf2.2]; rfl
    have hloop := scenario_lloydLoop ⟨a, ha⟩ ⟨b, hb⟩ (by simpa [Fin.ext_iff] using hab)
    simp only [← hc1, ← hc2] at hloop
    rcases hloop with hl | hl
    · left
      exact mainLoop_of_lloydLoop rnd scenarioPoints 2 100 3 (KState.mk [c1, c2] [] 0 true t1)
        _ hl (by simp) fuel s hmain
    · right
      exact mainLoop_of_lloydLoop rnd scenarioPoints 2 100 3 (KState.mk [c1, c2] [] 0 true t1)
        _ hl (by simp) fuel s hmain

theorem scenario_outcome (fuel : Nat) (rnd : Nat → Unit01) :
    (∀ centroids, customKmeans fuel rnd scenarioPoints 2 100 = Outcome.returns centroids →
      centroids = [(0, 1 / 2000), (5, 10001 / 2000)] ∨
        centroids = [(5, 10001 / 2000), (0, 1 / 2000)]) ∧
    (∀ clusters, VenueHandler.processVenueClusters fuel rnd scenarioVenues 2
        = Outcome.returns clusters →
      clusters = [[⟨"a", 0, 0⟩, ⟨"b", 0, 1 / 1000⟩], [⟨"c", 5, 5⟩, ⟨"d", 5, 5001 / 1000⟩]] ∨
        clusters = [[⟨"c", 5, 5⟩, ⟨"d", 5, 5001 / 1000⟩], [⟨"a", 0, 0⟩, ⟨"b", 0, 1 / 1000⟩]]) ∧
    (2 ≤ distinctDraws rnd 4 fuel → 100 ≤ fuel →
      (∃ centroids, customKmeans fuel rnd scenarioPoints 2 100 = Outcome.returns centroids) ∧
      ∃ clusters, VenueHandler.processVenueClusters fuel rnd scenarioVenues 2
        = Outcome.returns clusters) := by
  have hcent : ∀ centroids, customKmeans fuel rnd scenarioPoints 2 100
      = Outcome.returns centroids →
      centroids = [(0, 1 / 2000), (5, 10001 / 2000)] ∨
        centroids = [(5, 10001 / 2000), (0, 1 / 2000)] := by
    intro centroids h
    unfold customKmeans at h
    cases hrun : customKmeansRun fuel rnd scenarioPoints 2 100 with
    | returns s =>
      rw [hrun] at h
      simp only [Outcome.bind, Outcome.returns.injEq] at h
      rw [← h]
      exact scenario_customKmeansRun fuel rnd s hrun
    | throws e => rw [hrun] at h; simp [Outcome.bind] at h
    | outOfFuel => rw [hrun] at h; simp [Outcome.bind] at h
  refine ⟨hcent, ?_, ?_⟩
  · intro clusters h
    have hpts : (scenarioVenues.map fun venue => (venue.longitude, venue.latitude))
        = scenarioPoints := rfl
    have hne : ¬ scenarioVenues.length = 0 := by decide
    simp only [VenueHandler.processVenueClusters, VenueHandler.processVenueClustersWith, hne,
      if_false, VenueHandler.primaryPath, hpts] at h
    cases hk : customKmeans fuel rnd scenarioPoints 2 100 with
    | returns cs =>
      rw [hk] at h
      simp only [Outcome.bind] at h
      rcases hcent cs hk with hc | hc
      · rw [hc, scenario_groupVenues.1] at h
        left
        exact (Outcome.returns.inj h).symm
      · rw [hc, scenario_groupVenues.2] at h
        right
        exact (Outcome.returns.inj h).symm
    | throws e =>
      exfalso
      unfold customKmeans at hk
      cases hrun : customKmeansRun fuel rnd scenarioPoints 2 100 with
      | returns s => rw [hrun] at hk; simp [Outcome.bind] at hk
      | throws e1 =>
        exact customKmeansRun_no_throw fuel rnd scenarioPoints 2 100 (by decide) (by decide) e1
          hrun
      | outOfFuel => rw [hrun] at hk; simp [Outcome.bind] at hk
    | outOfFuel =>
      rw [hk] at h
      simp [Outcome.bind, Outcome.tryCatch] at h
  · intro hd hf
    constructor
    · obtain ⟨s, -, -, hs⟩ := (customKmeansRun_outcome fuel rnd scenarioPoints 2 100).1 hd hf
      exact ⟨_, hs⟩
    · obtain ⟨clusters, hc, -⟩ :=
        (processVenueClusters_outcome fuel rnd scenarioVenues 2 (by decide)).1 hd hf
      exact ⟨clusters, hc⟩

/-- Claim C9, the convergence scenario.  For the venues at `(0,0), (0,0.001), (5,5),
(5,5.001)` and `k = 2`, whatever the random source draws: every returning call of
`customKmeans` returns the centroids `(0, 0.0005)` and `(5, 5.0005)` in some
order, every returning call of `processVenueClusters` returns the two clusters
`{(0,0), (0,0.001)}` and `{(5,5), (5,5.001)}` in some order, and both calls return
as soon as the draws hold two distinct seed indices. -/
theorem convergence_scenario (fuel : Nat) (rnd : Nat → Unit01) :
    (∀ centroids, customKmeans fuel rnd scenarioPoints 2 100 = Outcome.returns centroids →
      centroids = [(0, 1 / 2000), (5, 10001 / 2000)] ∨
        centroids = [(5, 10001 / 2000), (0, 1 / 2000)]) ∧
    (∀ clusters, VenueHandler.processVenueClusters fuel rnd scenarioVenues 2
        = Outcome.returns clusters →
      clusters = [[⟨"a", 0, 0⟩, ⟨"b", 0, 1 / 1000⟩], [⟨"c", 5, 5⟩, ⟨"d", 5, 5001 / 1000⟩]] ∨
        clusters = [[⟨"c", 5, 5⟩, ⟨"d", 5, 5001 / 1000⟩], [⟨"a", 0, 0⟩, ⟨"b", 0, 1 / 1000⟩]]) ∧
    (2 ≤ distinctDraws rnd 4 fuel → 100 ≤ fuel →
      (∃ centroids, customKmeans fuel rnd scenarioPoints 2 100 = Outcome.returns centroids) ∧
      ∃ clusters, VenueHandler.processVenueClusters fuel rnd scenarioVenues 2
        = Outcome.returns clusters) :=
  scenario_outcome fuel rnd

/-! ## Short sequences, comfort score, empty clusters, order of the filter -/

/-- Claim C11, short sequences unchanged.  For a candidate list of length 0 or 1
both copies of `orderWaypoints` return the input list itself. -/
theorem orderWaypoints_short (waypoints : List LatLng) (start endPoint : LatLng)
    (h : waypoints.length ≤ 1) :
    RouteHandler.orderWaypoints waypoints start endPoint = waypoints ∧
    Clustering.orderWaypoints waypoints start endPoint = waypoints := by
  constructor
  · simp only [RouteHandler.orderWaypoints, h, if_true]
  · simp only [Clustering.orderWaypoints, h, if_true]

theorem orderWaypoints_short_witness :
    ([⟨3, 4⟩] : List LatLng).length ≤ 1 ∧
    RouteHandler.orderWaypoints [⟨3, 4⟩] ⟨0, 0⟩ ⟨9, 9⟩ = [⟨3, 4⟩] ∧
    Clustering.orderWaypoints [⟨3, 4⟩] ⟨0, 0⟩ ⟨9, 9⟩ = [⟨3, 4⟩] :=
  ⟨by decide, orderWaypoints_short [⟨3, 4⟩] ⟨0, 0⟩ ⟨9, 9⟩ (by decide)⟩

/-- Claim C12, comfort score contract.  For every route record
`calculateComfortScore` returns the same constant, `8`, which lies in `[0, 10]`;
so the score of two routes never differs. -/
theorem calculateComfortScore_constant (route other : Route) :
    RouteHandler.calculateComfortScore route = 8 ∧
    0 ≤ RouteHandler.calculateComfortScore route ∧
    RouteHandler.calculateComfortScore route ≤ 10 ∧
    RouteHandler.calculateComfortScore route = RouteHandler.calculateComfortScore other := by
  refine ⟨rfl, ?_, ?_, rfl⟩ <;> simp only [RouteHandler.calculateComfortScore] <;> norm_num

theorem clusterCenter_isSome (cluster : List Venue) :
    (clusterCenter cluster).isSome = true ↔ 0 < cluster.length := by
  unfold clusterCenter
  by_cases h : cluster.length = 0
  · simp [h]
  · simp only [h, if_false, Option.isSome_some, true_iff]
    omega

theorem significantCenters_sublist (clusters : List (List Venue)) (start endPoint : LatLng) :
    (RouteHandler.significantCenters clusters start endPoint).Sublist
      ((clusters.filter (fun cluster => decide (cluster ≠ []))).map centroid) := by
  unfold RouteHandler.significantCenters
  rw [filterMap_clusterCenter]
  exact List.filter_sublist _

/-- Claim C18, empty clusters are skipped by the waypoint stage.  In both copies of
`determineWaypoints` a centre is computed exactly for the clusters with at least
one member, where the divisor `cluster.length` is not zero; an empty cluster gives
`null` and is filtered out, so a list of empty clusters yields no waypoint; and the
number of waypoints is at most the number of non-empty clusters. -/
theorem determineWaypoints_skips_empty (clusters : List (List Venue)) (start endPoint : LatLng) :
    (∀ cluster, cluster ∈ clusters →
      ((clusterCenter cluster).isSome = true ↔ 0 < cluster.length) ∧
      (0 < cluster.length → (cluster.length : ℚ) ≠ 0 ∧
        clusterCenter cluster = some (centroid cluster))) ∧
    clusterCenter [] = none ∧
    ((∀ cluster, cluster ∈ clusters → cluster = []) →
      RouteHandler.determineWaypoints clusters start endPoint = [] ∧
      Clustering.determineWaypoints clusters start endPoint = []) ∧
    (RouteHandler.determineWaypoints ([] :: clusters) start endPoint
      = RouteHandler.determineWaypoints clusters start endPoint) ∧
    (RouteHandler.determineWaypoints clusters start endPoint).length
      ≤ (clusters.filter (fun cluster => decide (0 < cluster.length))).length ∧
    (Clustering.determineWaypoints clusters start endPoint).length
      ≤ (clusters.filter (fun cluster => decide (0 < cluster.length))).length := by
  have hcount : (RouteHandler.determineWaypoints clusters start endPoint).length
      ≤ (clusters.filter (fun cluster => decide (0 < cluster.length))).length := by
    have h1 := (orderWaypoints_spec (RouteHandler.significantCenters clusters start endPoint)
      start endPoint).1.length_eq
    have h2 := (significantCenters_sublist clusters start endPoint).length_le
    have h3 : (clusters.filter (fun cluster => decide (cluster ≠ [])))
        = clusters.filter (fun cluster => decide (0 < cluster.length)) := by
      congr 1
      funext cluster
      cases cluster <;> simp
    unfold RouteHandler.determineWaypoints
    rw [h1]
    rw [List.length_map, h3] at h2
    exact h2
  have hempty : (∀ cluster, cluster ∈ clusters → cluster = []) →
      RouteHandler.determineWaypoints clusters start endPoint = [] := by
    intro hall
    have h3 : clusters.filter (fun cluster => decide (0 < cluster.length)) = [] := by
      rw [List.filter_eq_nil_iff]
      intro cluster hc
      simp [hall cluster hc]
    rw [h3] at hcount
    exact List.length_eq_zero.mp (Nat.le_zero.mp hcount)
  refine ⟨?_, rfl, ?_, rfl, hcount, ?_⟩
  · intro cluster _
    refine ⟨clusterCenter_isSome cluster, fun hpos => ⟨?_, ?_⟩⟩
    · exact_mod_cast (Nat.pos_iff_ne_zero.mp hpos)
    · rw [clusterCenter_eq]
      have : cluster ≠ [] := fun hc => by simp [hc] at hpos
      simp [this]
  · intro hall
    rw [server_determineWaypoints_eq]
    exact ⟨hempty hall, hempty hall⟩
  · rw [server_determineWaypoints_eq]
    exact hcount

/-- Claim C19, the filter preserves order.  In both copies of `determineWaypoints`
the list `significantCenters` handed to `orderWaypoints` is a sub-list of the
centroids of the non-empty clusters taken in input cluster order, and it is that
list filtered by the two distance tests. -/
theorem significantCenters_order (clusters : List (List Venue)) (start endPoint : LatLng) :
    (RouteHandler.significantCenters clusters start endPoint).Sublist
      ((clusters.filter (fun cluster => decide (cluster ≠ []))).map centroid) ∧
    (Clustering.significantCenters clusters start endPoint).Sublist
      ((clusters.filter (fun cluster => decide (cluster ≠ []))).map centroid) ∧
    RouteHandler.significantCenters clusters start endPoint
      = (((clusters.filter (fun cluster => decide (cluster ≠ []))).map centroid).filter
        (fun c => (RouteHandler.calculateDistance c start).gtNum (1 / 100) &&
          (RouteHandler.calculateDistance c endPoint).gtNum (1 / 100))) ∧
    RouteHandler.determineWaypoints clusters start endPoint
      = RouteHandler.orderWaypoints (RouteHandler.significantCenters clusters start endPoint)
        start endPoint := by
  refine ⟨significantCenters_sublist clusters start endPoint, ?_, ?_, rfl⟩
  · rw [server_significantCenters_eq]
    exact significantCenters_sublist clusters start endPoint
  · unfold RouteHandler.significantCenters
    rw [filterMap_clusterCenter]

/-! ## Nearest centroid, smallest index first -/

theorem forEach_closest_some (point : Point) :
    ∀ (cs : List Point) (j : Nat) (d : Root) (i0 : Nat),
      ∃ d1 i1, forEach (closerStep point) cs j (some d, i0) = (some d1, i1) ∧
        d1.radicand ≤ d.radicand ∧
        (∀ c, c ∈ cs → d1.radicand ≤ (distTo point c).radicand) ∧
        ((i1 = i0 ∧ d1 = d) ∨
          (j ≤ i1 ∧ ∃ c, cs[i1 - j]? = some c ∧ d1 = distTo point c ∧
            d1.radicand < d.radicand ∧
            ∀ (m : Nat) (c1 : Point), m < i1 - j → cs[m]? = some c1 →
              d1.radicand < (distTo point c1).radicand))
  | [], j, d, i0 => ⟨d, i0, rfl, le_refl _, by simp, Or.inl ⟨rfl, rfl⟩⟩
  | c :: cs, j, d, i0 => by
    simp only [forEach]
    by_cases hlt : (distTo point c).radicand < d.radicand
    · have hstep : closerStep point (some d, i0) c j = (some (distTo point c), j) := by
        show (if (distTo point c).ltMin (some d) = true then (some (distTo point c), j)
          else (some d, i0)) = _
        simp [Root.ltMin, Root.lt, hlt]
      obtain ⟨d1, i1, h1, h2, h3, h4⟩ := forEach_closest_some point cs (j + 1) (distTo point c) j
      refine ⟨d1, i1, by rw [hstep]; exact h1, le_trans h2 (le_of_lt hlt), ?_, Or.inr ?_⟩
      · intro x hx
        rcases List.mem_cons.mp hx with rfl | hx
        · exact h2
        · exact h3 x hx
      · rcases h4 with ⟨rfl, rfl⟩ | ⟨hj, x, hx, hd, hlt2, hbefore⟩
        · refine ⟨le_refl _, c, by simp, rfl, hlt, ?_⟩
          intro m c1 hm
          omega
        · refine ⟨by omega, x, ?_, hd, lt_trans hlt2 hlt, ?_⟩
          · rw [show i1 - j = (i1 - (j + 1)) + 1 by omega, List.getElem?_cons_succ]
            exact hx
          · intro m c1 hm hc1
            cases m with
            | zero =>
              simp only [List.getElem?_cons_zero, Option.some.injEq] at hc1
              subst hc1
              exact hlt2
            | succ m =>
              rw [List.getElem?_cons_succ] at hc1
              exact hbefore m c1 (by omega) hc1
    · have hstep : closerStep point (some d, i0) c j = (some d, i0) := by
        show (if (distTo point c).ltMin (some d) = true then (some (distTo point c), j)
          else (some d, i0)) = _
        simp [Root.ltMin, Root.lt, hlt]
      obtain ⟨d1, i1, h1, h2, h3, h4⟩ := forEach_closest_some point cs (j + 1) d i0
      refine ⟨d1, i1, by rw [hstep]; exact h1, h2, ?_, ?_⟩
      · intro x hx
        rcases List.mem_cons.mp hx with rfl | hx
        · exact le_trans h2 (not_lt.mp hlt)
        · exact h3 x hx
      · rcases h4 with h | ⟨hj, x, hx, hd, hlt2, hbefore⟩
        · exact Or.inl h
        · refine Or.inr ⟨by omega, x, ?_, hd, hlt2, ?_⟩
          · rw [show i1 - j = (i1 - (j + 1)) + 1 by omega, List.getElem?_cons_succ]
            exact hx
          · intro m c1 hm hc1
            cases m with
            | zero =>
              simp only [List.getElem?_cons_zero, Option.some.injEq] at hc1
              subst hc1
              exact lt_of_lt_of_le hlt2 (not_lt.mp hlt)
            | succ m =>
              rw [List.getElem?_cons_succ] at hc1
              exact hbefore m c1 (by omega) hc1

theorem closestCentroid_isFirstNearest (centroids : List Point) (point : Point)
    (h : 0 < centroids.length) :
    IsFirstNearest centroids point (closestCentroid centroids point) := by
  cases centroids with
  | nil => simp at h
  | cons c0 cs =>
    have hstep : closerStep point (none, 0) c0 0 = (some (distTo point c0), 0) := by
      simp [closerStep, distTo, Root.ltMin]
    obtain ⟨d1, i1, h1, h2, h3, h4⟩ := forEach_closest_some point cs 1 (distTo point c0) 0
    have hres : closestCentroid (c0 :: cs) point = i1 := by
      simp only [closestCentroid, forEach, hstep, h1]
    rw [hres]
    have hall : ∀ (i : Nat) (c1 : Point), (c0 :: cs)[i]? = some c1 →
        d1.radicand ≤ (distTo point c1).radicand := by
      intro i c1 hc1
      cases i with
      | zero =>
        simp only [List.getElem?_cons_zero, Option.some.injEq] at hc1
        subst hc1
        exact h2
      | succ i =>
        rw [List.getElem?_cons_succ] at hc1
        exact h3 c1 (List.getElem?_mem hc1)
    rcases h4 with ⟨rfl, rfl⟩ | ⟨hj, x, hx, hd, hlt2, hbefore⟩
    · refine ⟨c0, by simp, ?_, ?_⟩
      · intro i c1 hc1
        simpa [Root.le] using hall i c1 hc1
      · intro i c1 hi
        omega
    · refine ⟨x, ?_, ?_, ?_⟩
      · rw [show i1 = (i1 - 1) + 1 by omega, List.getElem?_cons_succ]
        exact hx
      · intro i c1 hc1
        rw [← hd]
        simpa [Root.le] using hall i c1 hc1
      · intro i c1 hi hc1
        rw [← hd]
        simp only [Root.lt, decide_eq_true_eq]
        cases i with
        | zero =>
          simp only [List.getElem?_cons_zero, Option.some.injEq] at hc1
          subst hc1
          exact hlt2
        | succ i =>
          rw [List.getElem?_cons_succ] at hc1
          exact hbefore i c1 (by omega) hc1

theorem isFirstNearest_unique (centroids : List Point) (point : Point) (i j : Nat)
    (hi : IsFirstNearest centroids point i) (hj : IsFirstNearest centroids point j) : i = j := by
  obtain ⟨ci, hci, hmin_i, hfirst_i⟩ := hi
  obtain ⟨cj, hcj, hmin_j, hfirst_j⟩ := hj
  rcases Nat.lt_trichotomy i j with hlt | heq | hgt
  · have h1 := hfirst_j i ci hlt hci
    have h2 := hmin_i j cj hcj
    simp only [Root.lt, Root.le, decide_eq_true_eq] at h1 h2
    exact absurd h1 (not_lt.mpr h2)
  · exact heq
  · have h1 := hfirst_i j cj hgt hcj
    have h2 := hmin_j i ci hci
    simp only [Root.lt, Root.le, decide_eq_true_eq] at h1 h2
    exact absurd h1 (not_lt.mpr h2)

theorem closestCentroid_eq_iff (centroids : List Point) (point : Point)
    (h : 0 < centroids.length) (j : Nat) :
    closestCentroid centroids point = j ↔ IsFirstNearest centroids point j := by
  constructor
  · intro hj
    rw [← hj]
    exact closestCentroid_isFirstNearest centroids point h
  · intro hj
    exact isFirstNearest_unique centroids point _ _
      (closestCentroid_isFirstNearest centroids point h) hj

theorem forEachM_push_filter (c : Venue → Nat) :
    ∀ (rest : List Venue) (i : Nat) (acc out : List (List Venue)),
      forEachM (fun acc venue _ => pushVenue acc (some (c venue)) venue) rest i acc
          = Outcome.returns out →
        ∀ j, out[j]? = (acc[j]?).map
          (fun b => b ++ rest.filter (fun venue => decide (c venue = j)))
  | [], i, acc, out, h => by
    simp only [forEachM, Outcome.returns.injEq] at h
    subst h
    intro j
    cases acc[j]? <;> simp
  | x :: rest, i, acc, out, h => by
    simp only [forEachM] at h
    cases hm : modifyAt (fun cluster => cluster ++ [x]) acc (c x) with
    | none => simp [pushVenue, hm] at h
    | some r =>
      have hb : pushVenue acc (some (c x)) x = Outcome.returns r := by simp [pushVenue, hm]
      rw [hb] at h
      have hlt : c x < acc.length := by
        by_contra hc
        rw [modifyAt_none _ _ _ (by omega)] at hm
        cases hm
      obtain ⟨r1, hr1, -, hget⟩ := modifyAt_some (fun cluster => cluster ++ [x]) acc (c x) hlt
      rw [hm] at hr1
      cases hr1
      intro j
      rw [forEachM_push_filter c rest (i + 1) r out h j, hget j]
      by_cases hj : j = c x
      · subst hj
        cases acc[c x]? <;> simp [List.filter_cons]
      · have hj2 : ¬ c x = j := fun hc => hj hc.symm
        cases acc[j]? <;> simp [List.filter_cons, hj, hj2]

/-! ## The update step -/

theorem forEachM_accumulate_spec (assignments : List Nat) (g : Point → Nat) (k : Nat) :
    ∀ (rest : List Point) (i : Nat) (s : List Nat × List Point),
      s.1.length = k → s.2.length = k →
      (∀ (p : Nat) (q : Point), rest[p]? = some q → assignments[i + p]? = some (g q)) →
      (∀ q, q ∈ rest → g q < k) →
      ∃ out, forEachM (accumulateBody assignments) rest i s = Outcome.returns out ∧
        out.1.length = k ∧ out.2.length = k ∧
        ∀ j, out.1[j]? = (s.1[j]?).map
              (fun c => c + (rest.filter (fun q => decide (g q = j))).length) ∧
          out.2[j]? = (s.2[j]?).map (fun c =>
            (c.1 + ((rest.filter (fun q => decide (g q = j))).map Prod.fst).sum,
              c.2 + ((rest.filter (fun q => decide (g q = j))).map Prod.snd).sum))
  | [], i, s, h1, h2, _, _ => by
    refine ⟨s, rfl, h1, h2, fun j => ⟨?_, ?_⟩⟩
    · cases s.1[j]? <;> simp
    · cases s.2[j]? <;> simp
  | p :: ps, i, s, h1, h2, ha, hg => by
    have hc : assignments[i]? = some (g p) := by simpa using ha 0 p (by simp)
    have hck : g p < k := hg p (by simp)
    obtain ⟨r1, hr1, hl1, hget1⟩ := modifyAt_some (fun c => c + 1) s.1 (g p) (by omega)
    obtain ⟨r2, hr2, hl2, hget2⟩ :=
      modifyAt_some (fun c : Point => (c.1 + p.1, c.2 + p.2)) s.2 (g p) (by omega)
    obtain ⟨out, hout, ho1, ho2, hoget⟩ := forEachM_accumulate_spec assignments g k ps (i + 1)
      (r1, r2) (by simp [hl1, h1]) (by simp [hl2, h2])
      (fun m q hq => by
        have := ha (m + 1) q (by simpa using hq)
        rwa [show i + (m + 1) = i + 1 + m by omega] at this)
      (fun q hq => hg q (List.mem_cons_of_mem _ hq))
    have hb : accumulateBody assignments s p i = Outcome.returns (r1, r2) := by
      simp only [accumulateBody, hc, hr1, hr2]
    refine ⟨out, by simp only [forEachM, hb]; exact hout, ho1, ho2, fun j => ?_⟩
    obtain ⟨hj1, hj2⟩ := hoget j
    simp only at hj1 hj2
    rw [hj1, hj2, hget1 j, hget2 j]
    by_cases hj : j = g p
    · subst hj
      constructor
      · cases s.1[g p]? <;> simp [List.filter_cons]; omega
      · cases s.2[g p]? <;> simp [List.filter_cons]
        constructor <;> ring
    · have hj2 : ¬ g p = j := fun hc => hj hc.symm
      constructor
      · cases s.1[j]? <;> simp [List.filter_cons, hj, hj2]
      · cases s.2[j]? <;> simp [List.filter_cons, hj, hj2]

theorem accumulate_spec (points centroids : List Point) (k : Nat)
    (hcs : centroids.length = k) (hk : 0 < k) :
    ∃ out, accumulate (points.map (closestCentroid centroids)) (k : Int) points
        = Outcome.returns out ∧
      out.1.length = k ∧ out.2.length = k ∧
      ∀ j, j < k →
        (out.1.zip out.2)[j]? = some ((members centroids points j).length,
          (((members centroids points j).map Prod.fst).sum,
            ((members centroids points j).map Prod.snd).sum)) := by
  obtain ⟨out, hout, h1, h2, hget⟩ := forEachM_accumulate_spec
    (points.map (closestCentroid centroids)) (closestCentroid centroids) k points 0
    (List.replicate k 0, List.replicate k (0, 0)) (by simp) (by simp)
    (fun p q hq => by simp [List.getElem?_map, hq])
    (fun q _ => by rw [← hcs]; exact closestCentroid_lt centroids q (by omega))
  refine ⟨out, ?_, h1, h2, fun j hj => ?_⟩
  · simp only [accumulate, Int.toNat_ofNat]
    exact hout
  · obtain ⟨hj1, hj2⟩ := hget j
    rw [List.getElem?_zip_eq_some]
    simp only [List.getElem?_replicate, hj, if_true, Option.map_some', zero_add] at hj1 hj2
    exact ⟨hj1, hj2⟩

theorem average_spec (rnd : Nat → Unit01) (points : List Point) (hp : 0 < points.length) :
    ∀ (zs : List (Nat × Point)) (changed : Bool) (t : Nat),
      ∃ out, average rnd points zs changed t = Outcome.returns out ∧
        out.1.length = zs.length ∧
        out.2.1 = (changed || zs.any (fun z => decide (z.1 = 0))) ∧
        ∀ (i : Nat) (z : Nat × Point), zs[i]? = some z →
          (0 < z.1 → out.1[i]? = some (z.2.1 / (z.1 : ℚ), z.2.2 / (z.1 : ℚ))) ∧
          (z.1 = 0 → ∃ p, p ∈ points ∧ out.1[i]? = some p)
  | [], changed, t => ⟨([], changed, t), rfl, rfl, by simp, by simp⟩
  | (count, sum) :: rest, changed, t => by
    by_cases hc : 0 < count
    · obtain ⟨out, hout, hl, hch, hget⟩ := average_spec rnd points hp rest changed t
      refine ⟨((sum.1 / (count : ℚ), sum.2 / (count : ℚ)) :: out.1, out.2.1, out.2.2),
        ?_, ?_, ?_, ?_⟩
      · simp only [average, hc, if_true, hout]
      · simp [hl]
      · have : ¬ count = 0 := by omega
        simp [hch, this]
      · intro i z hz
        cases i with
        | zero =>
          simp only [List.getElem?_cons_zero, Option.some.injEq] at hz
          subst hz
          exact ⟨fun _ => by simp, fun h0 => by simp only at h0; omega⟩
        | succ i =>
          rw [List.getElem?_cons_succ] at hz
          simpa using hget i z hz
    · have hi := randomIndex_lt (rnd t) points.length hp
      obtain ⟨out, hout, hl, hch, hget⟩ := average_spec rnd points hp rest true (t + 1)
      refine ⟨(points[randomIndex (rnd t) points.length] :: out.1, out.2.1, out.2.2),
        ?_, ?_, ?_, ?_⟩
      · simp only [average, hc, if_false, List.getElem?_eq_getElem hi, hout]
      · simp [hl]
      · have : count = 0 := by omega
        simp [hch, this]
      · intro i z hz
        cases i with
        | zero =>
          simp only [List.getElem?_cons_zero, Option.some.injEq] at hz
          subst hz
          refine ⟨fun h0 => absurd h0 hc, fun _ => ⟨_, List.getElem_mem hi, by simp⟩⟩
        | succ i =>
          rw [List.getElem?_cons_succ] at hz
          simpa using hget i z hz

theorem members_length_ne_zero (centroids points : List Point) (i : Nat)
    (h : members centroids points i ≠ []) :
    ((members centroids points i).length : ℚ) ≠ 0 := by
  have : (members centroids points i).length ≠ 0 := fun h0 => h (List.length_eq_zero.mp h0)
  exact_mod_cast this

/-- One pass of the main loop from a state with `k` centroids: it returns, the new
assignments are the nearest centroids, every non-empty cluster gets the mean of
its members, every empty cluster gets an input point and sets `changed`. -/
theorem iterate_spec (rnd : Nat → Unit01) (points : List Point) (k : Nat) (s : KState)
    (hp : 0 < points.length) (hk : 0 < k) (hs : s.centroids.length = k) :
    ∃ s1, iterate rnd points (k : Int) s = Outcome.returns s1 ∧
      s1.centroids.length = k ∧ s1.iteration = s.iteration + 1 ∧
      s1.assignments = points.map (closestCentroid s.centroids) ∧
      s1.changed = ((assignStep s.centroids s.assignments points).2 ||
        (List.range k).any (fun i => decide (members s.centroids points i = []))) ∧
      ∀ i, i < k →
        (members s.centroids points i ≠ [] →
          s1.centroids[i]? = some (mean (members s.centroids points i))) ∧
        (members s.centroids points i = [] →
          (∃ p, p ∈ points ∧ s1.centroids[i]? = some p) ∧ s1.changed = true) := by
  obtain ⟨acc, hacc, h1, h2, hzip⟩ := accumulate_spec points s.centroids k hs hk
  obtain ⟨out, hout, hl, hch, hget⟩ := average_spec rnd points hp (acc.1.zip acc.2)
    (assignStep s.centroids s.assignments points).2 s.draws
  have hany : (acc.1.zip acc.2).any (fun z => decide (z.1 = 0))
      = (List.range k).any (fun i => decide (members s.centroids points i = [])) := by
    rw [Bool.eq_iff_iff]
    simp only [List.any_eq_true, decide_eq_true_eq, List.mem_range]
    constructor
    · rintro ⟨z, hz, hz0⟩
      obtain ⟨j, hj⟩ := List.mem_iff_getElem?.mp hz
      have hjk : j < k := by
        have := (List.getElem?_eq_some.mp hj).1
        simp only [List.length_zip, h1, h2, min_self] at this
        exact this
      rw [hzip j hjk] at hj
      cases hj
      exact ⟨j, hjk, List.length_eq_zero.mp hz0⟩
    · rintro ⟨j, hjk, hj⟩
      exact ⟨_, List.getElem?_mem (hzip j hjk), by simp [hj]⟩
  refine ⟨KState.mk out.1 (points.map (closestCentroid s.centroids)) (s.iteration + 1)
    out.2.1 out.2.2, ?_, ?_, rfl, rfl, ?_, ?_⟩
  · unfold iterate
    simp only [assignStep_fst, hacc, Outcome.bind, hout]
  · simp [hl, h1, h2]
  · simp only [hch, hany]
  · intro i hi
    obtain ⟨hpos, hzero⟩ := hget i _ (hzip i hi)
    simp only at hpos hzero
    constructor
    · intro hne
      have hlen : 0 < (members s.centroids points i).length :=
        List.length_pos.mpr hne
      rw [hpos hlen]
      rfl
    · intro he
      refine ⟨hzero (by simp [he]), ?_⟩
      simp only [hch, hany, Bool.or_eq_true, List.any_eq_true, decide_eq_true_eq, List.mem_range]
      exact Or.inr ⟨i, hi, he⟩

theorem mainLoop_invariant (rnd : Nat → Unit01) (points : List Point) (k : Int)
    (maxIterations : Nat) (I : KState → Prop)
    (hstep : ∀ s s1, I s → s.changed = true → s.iteration < maxIterations →
      iterate rnd points k s = Outcome.returns s1 → I s1) :
    ∀ (fuel : Nat) (s s2 : KState), I s →
      mainLoop rnd points k maxIterations fuel s = Outcome.returns s2 →
      I s2 ∧ ¬ (s2.changed = true ∧ s2.iteration < maxIterations)
  | 0, s, s2, hI, h => by
    simp only [mainLoop] at h
    split_ifs at h with hc
    cases h
    exact ⟨hI, hc⟩
  | fuel + 1, s, s2, hI, h => by
    simp only [mainLoop] at h
    split_ifs at h with hc
    · cases hit : iterate rnd points k s with
      | returns s1 =>
        rw [hit] at h
        exact mainLoop_invariant rnd points k maxIterations I hstep fuel s1 s2
          (hstep s s1 hI hc.1 hc.2 hit) h
      | throws e => rw [hit] at h; cases h
      | outOfFuel => rw [hit] at h; cases h
    · cases h
      exact ⟨hI, hc⟩

/-! ## No exception for well-typed input; nearest-centroid grouping -/

theorem customKmeansRun_final (fuel : Nat) (rnd : Nat → Unit01) (points : List Point)
    (k maxIterations : Nat) (hp : 0 < points.length) (hk : 0 < k) (s : KState)
    (h : customKmeansRun fuel rnd points (k : Int) maxIterations = Outcome.returns s) :
    s.centroids.length = k ∧ (∀ a, a ∈ s.assignments → a < k) ∧
      s.iteration ≤ maxIterations ∧
      ¬ (s.changed = true ∧ s.iteration < maxIterations) := by
  obtain ⟨cs1, used1, t1, cs2, -, -, -, -, -, -, hlen2, -, -, hmain⟩ :=
    customKmeansRun_inv fuel rnd points k maxIterations hp hk s h
  have hinv := mainLoop_invariant rnd points (k : Int) maxIterations
    (fun s => s.centroids.length = k ∧ (∀ a, a ∈ s.assignments → a < k) ∧
      s.iteration ≤ maxIterations)
    (fun s s1 hI _ hit hiter => by
      obtain ⟨s1', h1, h2, h3, h4, -⟩ := iterate_spec rnd points k s hp hk hI.1
      rw [h1] at hiter
      cases hiter
      refine ⟨h2, ?_, by omega⟩
      intro a ha
      rw [h4] at ha
      obtain ⟨p, -, rfl⟩ := List.mem_map.mp ha
      rw [← hI.1]
      exact closestCentroid_lt s.centroids p (by omega))
    fuel (KState.mk cs2 [] 0 true t1) s ⟨hlen2, by simp, Nat.zero_le _⟩ hmain
  exact ⟨hinv.1.1, hinv.1.2.1, hinv.1.2.2, hinv.2⟩

theorem customKmeans_no_throw (fuel : Nat) (rnd : Nat → Unit01) (points : List Point)
    (k maxIterations : Nat) (hp : 0 < points.length) (hk : 0 < k) (e : JSError) :
    customKmeans fuel rnd points (k : Int) maxIterations ≠ Outcome.throws e := by
  unfold customKmeans
  cases hrun : customKmeansRun fuel rnd points (k : Int) maxIterations with
  | returns s => simp [Outcome.bind]
  | throws e1 =>
    exact absurd hrun (customKmeansRun_no_throw fuel rnd points k maxIterations hp hk e1)
  | outOfFuel => simp [Outcome.bind]

theorem customKmeans_returns_length (fuel : Nat) (rnd : Nat → Unit01) (points : List Point)
    (k maxIterations : Nat) (hp : 0 < points.length) (hk : 0 < k) (centroids : List Point)
    (h : customKmeans fuel rnd points (k : Int) maxIterations = Outcome.returns centroids) :
    centroids.length = k := by
  unfold customKmeans at h
  cases hrun : customKmeansRun fuel rnd points (k : Int) maxIterations with
  | returns s =>
    rw [hrun] at h
    simp only [Outcome.bind, Outcome.returns.injEq] at h
    rw [← h]
    exact (customKmeansRun_final fuel rnd points k maxIterations hp hk s hrun).1
  | throws e => rw [hrun] at h; cases h
  | outOfFuel => rw [hrun] at h; cases h

theorem primaryPath_outcome (fuel : Nat) (rnd : Nat → Unit01) (venues : List Venue) (k : Nat)
    (hk : 1 ≤ k) (hv : venues ≠ []) :
    (∀ e, VenueHandler.primaryPath (fun points k => customKmeans fuel rnd points k 100)
        venues k ≠ Outcome.throws e) ∧
    VenueHandler.processVenueClusters fuel rnd venues k
      = VenueHandler.primaryPath (fun points k => customKmeans fuel rnd points k 100) venues k ∧
    (∀ clusters, VenueHandler.processVenueClusters fuel rnd venues k
        = Outcome.returns clusters →
      ∃ centroids, customKmeans fuel rnd (venues.map coords) k 100 = Outcome.returns centroids ∧
        centroids.length = k ∧
        VenueHandler.groupVenues centroids venues k = Outcome.returns clusters) := by
  have hv0 : ¬ venues.length = 0 := fun h => hv (List.length_eq_zero.mp h)
  have hpts : (venues.map fun venue => (venue.longitude, venue.latitude))
      = venues.map coords := rfl
  have hp : 0 < (venues.map coords).length := by
    rw [List.length_map]; omega
  have hprim : ∀ e, VenueHandler.primaryPath
      (fun points k => customKmeans fuel rnd points k 100) venues k ≠ Outcome.throws e := by
    intro e
    simp only [VenueHandler.primaryPath, hpts]
    cases hc : customKmeans fuel rnd (venues.map coords) (k : Int) 100 with
    | returns cs =>
      have hlen := customKmeans_returns_length fuel rnd _ k 100 hp hk cs hc
      obtain ⟨out, hout⟩ := groupVenues_returns cs venues k hlen hk
      simp [Outcome.bind, hout]
    | throws e1 => exact absurd hc (customKmeans_no_throw fuel rnd _ k 100 hp hk e1)
    | outOfFuel => simp [Outcome.bind]
  have heq : VenueHandler.processVenueClusters fuel rnd venues k
      = VenueHandler.primaryPath (fun points k => customKmeans fuel rnd points k 100)
        venues k := by
    simp only [VenueHandler.processVenueClusters, VenueHandler.processVenueClustersWith, hv0,
      if_false]
    cases hpp : VenueHandler.primaryPath (fun points k => customKmeans fuel rnd points k 100)
      venues k with
    | returns r => rfl
    | throws e => exact absurd hpp (hprim e)
    | outOfFuel => rfl
  refine ⟨hprim, heq, ?_⟩
  intro clusters h
  rw [heq] at h
  simp only [VenueHandler.primaryPath, hpts] at h
  cases hc : customKmeans fuel rnd (venues.map coords) (k : Int) 100 with
  | returns cs =>
    rw [hc] at h
    exact ⟨cs, rfl, customKmeans_returns_length fuel rnd _ k 100 hp hk cs hc, h⟩
  | throws e1 => rw [hc] at h; cases h
  | outOfFuel => rw [hc] at h; cases h

/-- Claim C13, no fatal error under well-typed input.  For `k ≥ 1`, a non-empty
venue list, every `maxIterations` and every random source: `customKmeans` does not
raise, the body of the `try` block does not raise, so `processVenueClusters` is
that body and the `catch` branch is not taken; every random index is below `n`,
every `clusterId` found over `k` centroids is below `k`, and so is every entry of
`assignments` when `customKmeans` returns. -/
theorem no_fatal_error (fuel : Nat) (rnd : Nat → Unit01) (venues : List Venue)
    (k maxIterations : Nat) (hk : 1 ≤ k) (hv : venues ≠ []) :
    (∀ e, customKmeans fuel rnd (venues.map coords) k maxIterations ≠ Outcome.throws e) ∧
    (∀ e, VenueHandler.primaryPath (fun points k => customKmeans fuel rnd points k 100)
        venues k ≠ Outcome.throws e) ∧
    (∀ e, VenueHandler.processVenueClusters fuel rnd venues k ≠ Outcome.throws e) ∧
    VenueHandler.processVenueClusters fuel rnd venues k
      = VenueHandler.primaryPath (fun points k => customKmeans fuel rnd points k 100) venues k ∧
    (∀ t, randomIndex (rnd t) (venues.map coords).length < (venues.map coords).length) ∧
    (∀ centroids point, centroids.length = k → closestCentroid centroids point < k) ∧
    (∀ s, customKmeansRun fuel rnd (venues.map coords) k maxIterations = Outcome.returns s →
      s.centroids.length = k ∧ ∀ a, a ∈ s.assignments → a < k) := by
  have hp : 0 < (venues.map coords).length := by
    rw [List.length_map]
    exact List.length_pos.mpr hv
  obtain ⟨h1, h2, -⟩ := primaryPath_outcome fuel rnd venues k hk hv
  refine ⟨fun e => customKmeans_no_throw fuel rnd _ k maxIterations hp hk e, h1, ?_, h2,
    fun t => randomIndex_lt _ _ hp, ?_, ?_⟩
  · intro e
    rw [h2]
    exact h1 e
  · intro centroids point hc
    rw [← hc]
    exact closestCentroid_lt centroids point (by omega)
  · intro s hs
    have := customKmeansRun_final fuel rnd _ k maxIterations hp hk s hs
    exact ⟨this.1, this.2.1⟩

theorem no_fatal_error_witness :
    1 ≤ 2 ∧ scenarioVenues ≠ [] ∧
    (∀ e, VenueHandler.processVenueClusters 100 cyclicSource scenarioVenues (2 : Nat)
      ≠ Outcome.throws e) ∧
    VenueHandler.processVenueClusters 100 cyclicSource scenarioVenues (2 : Nat)
      = VenueHandler.primaryPath (fun points k => customKmeans 100 cyclicSource points k 100)
        scenarioVenues (2 : Nat) :=
  ⟨by decide, by decide,
    (no_fatal_error 100 cyclicSource scenarioVenues 2 100 (by decide) (by decide)).2.2.1,
    (no_fatal_error 100 cyclicSource scenarioVenues 2 100 (by decide) (by decide)).2.2.2.1⟩

/-- Claim C14, nearest-centroid assignment with stable ties.  For `k ≥ 1` and a
non-empty venue list, in every result of `processVenueClusters` cluster `j` is the
list of venues whose `clusterId` over the centroids returned by `customKmeans` is
`j`, and a venue is in cluster `j` exactly when `j` is the smallest index of a
centroid at minimal distance from it; every assignment step of `customKmeans`
assigns each point by the same rule. -/
theorem nearest_centroid_assignment (fuel : Nat) (rnd : Nat → Unit01) (venues : List Venue)
    (k : Nat) (hk : 1 ≤ k) (hv : venues ≠ []) :
    (∀ clusters, VenueHandler.processVenueClusters fuel rnd venues k
        = Outcome.returns clusters →
      ∃ centroids, customKmeans fuel rnd (venues.map coords) k 100 = Outcome.returns centroids ∧
        centroids.length = k ∧
        ∀ j, j < k → ∃ cluster, clusters[j]? = some cluster ∧
          cluster = venues.filter
            (fun venue => decide (closestCentroid centroids (coords venue) = j)) ∧
          ∀ venue, venue ∈ venues →
            (venue ∈ cluster ↔ IsFirstNearest centroids (coords venue) j)) ∧
    (∀ s : KState, s.centroids.length = k →
      ∃ s1, iterate rnd (venues.map coords) k s = Outcome.returns s1 ∧
        s1.assignments = (venues.map coords).map (closestCentroid s.centroids) ∧
        ∀ (i : Nat) (p : Point), (venues.map coords)[i]? = some p →
          ∃ a, s1.assignments[i]? = some a ∧ IsFirstNearest s.centroids p a) ∧
    (∀ (centroids : List Point) (point : Point) (j : Nat), 0 < centroids.length →
      (closestCentroid centroids point = j ↔ IsFirstNearest centroids point j)) := by
  have hp : 0 < (venues.map coords).length := by
    rw [List.length_map]
    exact List.length_pos.mpr hv
  refine ⟨?_, ?_, fun centroids point j h => closestCentroid_eq_iff centroids point h j⟩
  · intro clusters h
    obtain ⟨centroids, hc, hlen, hgroup⟩ := (primaryPath_outcome fuel rnd venues k hk hv).2.2
      clusters h
    refine ⟨centroids, hc, hlen, fun j hj => ?_⟩
    simp only [VenueHandler.groupVenues, emptyClusters_natCast, Outcome.bind] at hgroup
    have hf := forEachM_push_filter
      (fun venue => closestCentroid centroids (venue.longitude, venue.latitude))
      venues 0 (List.replicate k []) clusters hgroup j
    simp only [List.getElem?_replicate, hj, if_true, Option.map_some', List.nil_append] at hf
    refine ⟨_, hf, rfl, fun venue hmem => ?_⟩
    rw [List.mem_filter, decide_eq_true_eq]
    rw [← closestCentroid_eq_iff centroids (coords venue) (by omega) j]
    exact ⟨fun h => h.2, fun h => ⟨hmem, h⟩⟩
  · intro s hs
    obtain ⟨s1, h1, -, -, h4, -⟩ := iterate_spec rnd (venues.map coords) k s hp hk hs
    refine ⟨s1, h1, h4, fun i p hip => ?_⟩
    refine ⟨closestCentroid s.centroids p, ?_, ?_⟩
    · rw [h4, List.getElem?_map, hip]
      rfl
    · exact closestCentroid_isFirstNearest s.centroids p (by omega)

theorem nearest_centroid_assignment_witness :
    1 ≤ 2 ∧ scenarioVenues ≠ [] ∧
    ∃ clusters centroids,
      VenueHandler.processVenueClusters 100 cyclicSource scenarioVenues (2 : Nat)
        = Outcome.returns clusters ∧
      customKmeans 100 cyclicSource (scenarioVenues.map coords) (2 : Nat) 100
        = Outcome.returns centroids ∧
      ∀ j, j < 2 → ∃ cluster, clusters[j]? = some cluster ∧
        cluster = scenarioVenues.filter
          (fun venue => decide (closestCentroid centroids (coords venue) = j)) := by
  have h : VenueHandler.processVenueClusters 100 cyclicSource scenarioVenues (2 : Nat)
      = Outcome.returns
        [[⟨"a", 0, 0⟩, ⟨"b", 0, 1 / 1000⟩], [⟨"c", 5, 5⟩, ⟨"d", 5, 5001 / 1000⟩]] := by
    decide!
  obtain ⟨centroids, hc, -, hj⟩ :=
    (nearest_centroid_assignment 100 cyclicSource scenarioVenues 2 (by decide) (by decide)).1
      _ h
  refine ⟨by decide, by decide, _, centroids, h, hc, fun j hj2 => ?_⟩
  obtain ⟨cluster, h1, h2, -⟩ := hj j hj2
  exact ⟨cluster, h1, h2⟩

/-! ## Seeding -/

theorem seedLoop_returns_inv (rnd : Nat → Unit01) (points : List Point) (k fuel : Nat)
    (cs : List Point) (used : List Nat) (t : Nat)
    (h : seedLoop rnd points (k : Int) fuel [] [] 0 = Outcome.returns (cs, used, t)) :
    used.Nodup ∧ (∀ u, u ∈ used → u < points.length) ∧
      List.Forall₂ (fun c u => points[u]? = some c) cs used ∧
      cs.length = min k points.length ∧ used.length = min k points.length := by
  have hseed := seedLoop_spec rnd points k fuel [] [] 0 List.nodup_nil (by simp)
    List.Forall₂.nil
  by_cases hd : min k points.length ≤
      (([] : List Nat).toFinset ∪ (drawnIndices rnd points.length 0 fuel).toFinset).card
  · obtain ⟨cs1, used1, t1, h1, h2, h3, h4, h5⟩ := hseed.1 hd
    rw [h1] at h
    cases h
    have hlen := h5 (by simp)
    exact ⟨h2, h3, h4, hlen, by rw [← h4.length_eq]; exact hlen⟩
  · rw [hseed.2 hd] at h
    cases h

theorem seedLoop_outcome (rnd : Nat → Unit01) (points : List Point) (k fuel : Nat) :
    (min k points.length ≤ distinctDraws rnd points.length fuel →
      ∃ r, seedLoop rnd points (k : Int) fuel [] [] 0 = Outcome.returns r) ∧
    (¬ min k points.length ≤ distinctDraws rnd points.length fuel →
      seedLoop rnd points (k : Int) fuel [] [] 0 = Outcome.outOfFuel) := by
  have hseed := seedLoop_spec rnd points k fuel [] [] 0 List.nodup_nil (by simp)
    List.Forall₂.nil
  rw [← distinctDraws_eq] at hseed
  refine ⟨fun hd => ?_, hseed.2⟩
  obtain ⟨cs1, used1, t1, h1, -⟩ := hseed.1 hd
  exact ⟨_, h1⟩

theorem forall₂_lookup_mem (points : List Point) :
    ∀ (cs : List Point) (used : List Nat),
      List.Forall₂ (fun c u => points[u]? = some c) cs used →
      ∀ c, c ∈ cs → ∃ u, u ∈ used ∧ points[u]? = some c
  | _, _, List.Forall₂.nil, c, hc => by simp at hc
  | _, _, List.Forall₂.cons (a := a) (b := b) hab htl, c, hc => by
    rcases List.mem_cons.mp hc with rfl | hc
    · exact ⟨b, by simp, hab⟩
    · obtain ⟨u, hu, hpu⟩ := forall₂_lookup_mem points _ _ htl c hc
      exact ⟨u, List.mem_cons_of_mem _ hu, hpu⟩

theorem forall₂_lookup_nodup (points : List Point) (hpts : points.Nodup) :
    ∀ (cs : List Point) (used : List Nat),
      List.Forall₂ (fun c u => points[u]? = some c) cs used → used.Nodup → cs.Nodup
  | _, _, List.Forall₂.nil, _ => List.nodup_nil
  | _, _, List.Forall₂.cons (a := a) (b := b) hab htl, hnd => by
    rw [List.nodup_cons] at hnd ⊢
    refine ⟨?_, forall₂_lookup_nodup points hpts _ _ htl hnd.2⟩
    intro hmem
    obtain ⟨u, hu, hpu⟩ := forall₂_lookup_mem points _ _ htl a hmem
    have hb1 := (List.getElem?_eq_some.mp hab)
    have hu1 := (List.getElem?_eq_some.mp hpu)
    obtain ⟨hbl, hbv⟩ := hb1
    obtain ⟨hul, huv⟩ := hu1
    have : b = u := (List.Nodup.getElem_inj_iff hpts).mp (hbv.trans huv.symm)
    subst this
    exact hnd.1 hu

theorem fillLoop_mem (u : Nat) :
    ∀ (m : Nat) (cs out : List Point), fillLoop u m cs = Outcome.returns out →
      ∀ c, c ∈ out → c ∈ cs
  | 0, cs, out, h, c, hc => by
    simp only [fillLoop, Outcome.returns.injEq] at h
    subst h
    exact hc
  | m + 1, cs, out, h, c, hc => by
    simp only [fillLoop] at h
    cases hg : cs[cs.length % u]? with
    | none => rw [hg] at h; cases h
    | some x =>
      rw [hg] at h
      have := fillLoop_mem u m (cs ++ [x]) out h c hc
      rcases List.mem_append.mp this with h1 | h1
      · exact h1
      · rw [List.mem_singleton.mp h1]
        exact List.getElem?_mem hg

theorem seeding_spec (fuel : Nat) (rnd : Nat → Unit01) (points : List Point) (k : Nat)
    (hk : 1 ≤ k) (hp : 0 < points.length) (cs : List Point) (used : List Nat) (t : Nat)
    (h : seedLoop rnd points (k : Int) fuel [] [] 0 = Outcome.returns (cs, used, t)) :
    used.Nodup ∧ (∀ u, u ∈ used → u < points.length) ∧
      List.Forall₂ (fun c u => points[u]? = some c) cs used ∧
      cs.length = min k points.length ∧
      ∃ centroids, fillLoop used.length (k - cs.length) cs = Outcome.returns centroids ∧
        centroids.length = k ∧ (∀ c, c ∈ centroids → c ∈ points) ∧
        (∀ i, i < min k points.length → centroids[i]? = cs[i]?) ∧
        (points.length < k → ∀ i, points.length ≤ i → i < k →
          centroids[i]? = centroids[i % points.length]?) := by
  obtain ⟨h1, h2, h3, h4, h5⟩ := seedLoop_returns_inv rnd points k fuel cs used t h
  obtain ⟨centroids, hf, hlen, hpre, hdup⟩ := fillLoop_returns used.length (by omega)
    (k - cs.length) cs (by omega)
  refine ⟨h1, h2, h3, h4, centroids, hf, by omega, ?_, ?_, ?_⟩
  · intro c hc
    obtain ⟨u, -, hu⟩ := forall₂_lookup_mem points cs used h3 c (fillLoop_mem _ _ _ _ hf c hc)
    exact List.getElem?_mem hu
  · intro i hi
    exact hpre i (by omega)
  · intro hnk i hi1 hi2
    have hu : used.length = points.length := by omega
    rw [← hu]
    exact hdup i (by omega) (by omega)

/-- Claim C15, seeding picks distinct input indices.  For a point list with at
least `k` points, whenever the seeding loop finishes it has chosen `k`
pairwise distinct indices of the input, the `k` initial centroids are the points
at these indices, and they are pairwise distinct points when the input points are
pairwise distinct; the loop finishes exactly when the draws hold `k` distinct
indices. -/
theorem seeding_distinct_indices (fuel : Nat) (rnd : Nat → Unit01) (points : List Point)
    (k : Nat) (hkn : k ≤ points.length) :
    (∀ cs used t, seedLoop rnd points k fuel [] [] 0 = Outcome.returns (cs, used, t) →
      cs.length = k ∧ used.length = k ∧ used.Nodup ∧ (∀ u, u ∈ used → u < points.length) ∧
      List.Forall₂ (fun c u => points[u]? = some c) cs used ∧
      (points.Nodup → cs.Nodup)) ∧
    (k ≤ distinctDraws rnd points.length fuel →
      ∃ r, seedLoop rnd points k fuel [] [] 0 = Outcome.returns r) ∧
    (¬ k ≤ distinctDraws rnd points.length fuel →
      seedLoop rnd points k fuel [] [] 0 = Outcome.outOfFuel) := by
  have hmin : min k points.length = k := Nat.min_eq_left hkn
  have hout := seedLoop_outcome rnd points k fuel
  rw [hmin] at hout
  refine ⟨?_, hout.1, hout.2⟩
  intro cs used t h
  obtain ⟨h1, h2, h3, h4, h5⟩ := seedLoop_returns_inv rnd points k fuel cs used t h
  exact ⟨by omega, by omega, h1, h2, h3,
    fun hpts => forall₂_lookup_nodup points hpts cs used h3 h1⟩

theorem seeding_distinct_indices_witness :
    2 ≤ scenarioPoints.length ∧
    ∃ r, seedLoop cyclicSource scenarioPoints (2 : Nat) 2 [] [] 0 = Outcome.returns r :=
  ⟨by decide,
    (seeding_distinct_indices 2 cyclicSource scenarioPoints 2 (by decide)).2.1 (by decide!)⟩

/-- Counterexample to C15 as stated: the list `(0,0), (0,0), (1,1)` contains two
distinct points, and with the draws `0, 1/3` seeding for `k = 2` chooses the
indices `0` and `1`, that is the point `(0,0)` twice. -/
theorem seeding_equal_points :
    2 ≤ ([(0, 0), (0, 0), (1, 1)] : List Point).dedup.length ∧
    seedLoop thirdsSource [(0, 0), (0, 0), (1, 1)] 2 2 [] [] 0
      = Outcome.returns ([(0, 0), (0, 0)], [0, 1], 2) ∧
    ¬ ([(0, 0), (0, 0)] : List Point).Nodup := by
  decide!

/-- Claim C16, seeding fills `k` slots whenever it completes.  For `k ≥ 1` and a
non-empty point list of length `n`: when the seeding loop has finished, with
`min k n` centroids taken from pairwise distinct input indices, the duplication
loop returns exactly `k` initial centroids, each an input point, the first
`min k n` unchanged and, when `n < k`, every slot `i ≥ n` equal to slot `i % n`;
every list `customKmeans` returns has exactly `k` centroids, and it returns one
when the draws hold `min k n` distinct indices. -/
theorem seeding_fills_k_slots (fuel : Nat) (rnd : Nat → Unit01) (points : List Point)
    (k maxIterations : Nat) (hk : 1 ≤ k) (hp : 0 < points.length) :
    (∀ cs used t, seedLoop rnd points k fuel [] [] 0 = Outcome.returns (cs, used, t) →
      used.Nodup ∧ (∀ u, u ∈ used → u < points.length) ∧
      List.Forall₂ (fun c u => points[u]? = some c) cs used ∧
      cs.length = min k points.length ∧
      ∃ centroids, fillLoop used.length (k - cs.length) cs = Outcome.returns centroids ∧
        centroids.length = k ∧ (∀ c, c ∈ centroids → c ∈ points) ∧
        (∀ i, i < min k points.length → centroids[i]? = cs[i]?) ∧
        (points.length < k → ∀ i, points.length ≤ i → i < k →
          centroids[i]? = centroids[i % points.length]?)) ∧
    (∀ centroids, customKmeans fuel rnd points k maxIterations = Outcome.returns centroids →
      centroids.length = k) ∧
    (min k points.length ≤ distinctDraws rnd points.length fuel → maxIterations ≤ fuel →
      ∃ centroids, customKmeans fuel rnd points k maxIterations = Outcome.returns centroids ∧
        centroids.length = k) := by
  refine ⟨fun cs used t h => seeding_spec fuel rnd points k hk hp cs used t h,
    fun centroids h => customKmeans_returns_length fuel rnd points k maxIterations hp hk _ h,
    fun hd hf => ?_⟩
  obtain ⟨s, -, -, hs⟩ := (customKmeansRun_outcome fuel rnd points k maxIterations).1
    (by simpa using hd) hf
  exact ⟨_, hs, customKmeans_returns_length fuel rnd points k maxIterations hp hk _ hs⟩

theorem seeding_fills_k_slots_witness :
    1 ≤ 3 ∧ 0 < ([(0, 0), (1, 1)] : List Point).length ∧
    ∃ centroids, customKmeans 5 cyclicSource [(0, 0), (1, 1)] (3 : Nat) 5
      = Outcome.returns centroids ∧ centroids.length = 3 :=
  ⟨by decide, by decide,
    (seeding_fills_k_slots 5 cyclicSource [(0, 0), (1, 1)] 3 5 (by decide) (by decide)).2.2
      (by decide!) (by decide)⟩

/-- Counterexample to C16 as stated: for the two points `(0,0), (1,1)`, `k = 2` and
a random source that always returns `0`, the seeding loop holds one centroid and
never a second: it does not finish for any amount of fuel, and no call of
`customKmeans` returns a list of centroids. -/
theorem seeding_constant_source_never_completes :
    (¬ ∃ fuel r, seedLoop constantSource [(0, 0), (1, 1)] 2 fuel [] [] 0 = Outcome.returns r) ∧
    (¬ ∃ fuel maxIterations centroids,
      customKmeans fuel constantSource [(0, 0), (1, 1)] 2 maxIterations
        = Outcome.returns centroids) := by
  have hd : ∀ fuel, ¬ min 2 ([(0, 0), (1, 1)] : List Point).length
      ≤ distinctDraws constantSource ([(0, 0), (1, 1)] : List Point).length fuel := by
    intro fuel
    have := distinctDraws_constant Unit01.zero 2 fuel
    show ¬ min 2 2 ≤ distinctDraws constantSource 2 fuel
    unfold constantSource
    omega
  constructor
  · rintro ⟨fuel, r, h⟩
    have hout := (seedLoop_outcome constantSource [(0, 0), (1, 1)] 2 fuel).2 (hd fuel)
    rw [show ((2 : Nat) : Int) = 2 from rfl] at hout
    rw [hout] at h
    cases h
  · rintro ⟨fuel, maxIterations, centroids, h⟩
    have hout := ((customKmeansRun_outcome fuel constantSource [(0, 0), (1, 1)] 2
      maxIterations).2 (hd fuel)).2
    rw [hout] at h
    cases h

/-! ## Update step and the iteration cap -/

theorem customKmeansRun_last_update (fuel : Nat) (rnd : Nat → Unit01) (points : List Point)
    (k maxIterations : Nat) (hp : 0 < points.length) (hk : 0 < k) (s : KState)
    (h : customKmeansRun fuel rnd points (k : Int) maxIterations = Outcome.returns s) :
    s.centroids.length = k ∧
    (0 < s.iteration → ∃ prev : List Point, prev.length = k ∧
      s.assignments = points.map (closestCentroid prev) ∧
      ∀ i, i < k →
        (members prev points i ≠ [] → s.centroids[i]? = some (mean (members prev points i))) ∧
        (members prev points i = [] → ∃ p, p ∈ points ∧ s.centroids[i]? = some p)) := by
  obtain ⟨cs1, used1, t1, cs2, -, -, -, -, -, -, hlen2, -, -, hmain⟩ :=
    customKmeansRun_inv fuel rnd points k maxIterations hp hk s h
  have hinv := mainLoop_invariant rnd points (k : Int) maxIterations
    (fun s => s.centroids.length = k ∧
      (0 < s.iteration → ∃ prev : List Point, prev.length = k ∧
        s.assignments = points.map (closestCentroid prev) ∧
        ∀ i, i < k →
          (members prev points i ≠ [] →
            s.centroids[i]? = some (mean (members prev points i))) ∧
          (members prev points i = [] → ∃ p, p ∈ points ∧ s.centroids[i]? = some p)))
    (fun s s1 hI _ _ hiter => by
      obtain ⟨s1', h1, h2, -, h4, -, h6⟩ := iterate_spec rnd points k s hp hk hI.1
      rw [h1] at hiter
      cases hiter
      exact ⟨h2, fun _ => ⟨s.centroids, hI.1, h4,
        fun i hi => ⟨(h6 i hi).1, fun he => ((h6 i hi).2 he).1⟩⟩⟩)
    fuel (KState.mk cs2 [] 0 true t1) s ⟨hlen2, fun h0 => by simp at h0⟩ hmain
  exact hinv.1

/-- Claim C17, centroids are never a division by zero.  For `k ≥ 1` and a
non-empty point list, every update step from a state with `k` centroids returns
`k` centroids: centroid `i` is the coordinate-wise mean of the points assigned to
cluster `i`, a quotient by their non-zero number, when the cluster is non-empty,
and a copy of an input point, with `changed` set, when it is empty; the centroids
`customKmeans` holds after its last update step are of this form. -/
theorem centroid_update (fuel : Nat) (rnd : Nat → Unit01) (points : List Point)
    (k maxIterations : Nat) (hk : 1 ≤ k) (hp : 0 < points.length) :
    (∀ s : KState, s.centroids.length = k →
      ∃ s1, iterate rnd points k s = Outcome.returns s1 ∧ s1.centroids.length = k ∧
        s1.assignments = points.map (closestCentroid s.centroids) ∧
        ∀ i, i < k →
          (members s.centroids points i ≠ [] →
            s1.centroids[i]? = some (mean (members s.centroids points i)) ∧
            ((members s.centroids points i).length : ℚ) ≠ 0) ∧
          (members s.centroids points i = [] →
            (∃ p, p ∈ points ∧ s1.centroids[i]? = some p) ∧ s1.changed = true)) ∧
    (∀ s, customKmeansRun fuel rnd points k maxIterations = Outcome.returns s →
      s.centroids.length = k ∧
      (0 < s.iteration → ∃ prev : List Point, prev.length = k ∧
        s.assignments = points.map (closestCentroid prev) ∧
        ∀ i, i < k →
          (members prev points i ≠ [] →
            s.centroids[i]? = some (mean (members prev points i))) ∧
          (members prev points i = [] → ∃ p, p ∈ points ∧ s.centroids[i]? = some p))) := by
  refine ⟨fun s hs => ?_,
    fun s h => customKmeansRun_last_update fuel rnd points k maxIterations hp hk s h⟩
  obtain ⟨s1, h1, h2, -, h4, -, h6⟩ := iterate_spec rnd points k s hp hk hs
  refine ⟨s1, h1, h2, h4, fun i hi => ⟨fun hne => ⟨(h6 i hi).1 hne, ?_⟩, (h6 i hi).2⟩⟩
  exact members_length_ne_zero s.centroids points i hne

theorem centroid_update_witness :
    1 ≤ 2 ∧ 0 < scenarioPoints.length ∧
    ∃ s1, iterate cyclicSource scenarioPoints (2 : Nat)
        (KState.mk [(0, 0), (0, 1 / 1000)] [] 0 true 2) = Outcome.returns s1 ∧
      s1.centroids.length = 2 ∧
      s1.assignments = scenarioPoints.map (closestCentroid [(0, 0), (0, 1 / 1000)]) := by
  obtain ⟨s1, h1, h2, h3, -⟩ :=
    (centroid_update 100 cyclicSource scenarioPoints 2 100 (by decide) (by decide)).1
      (KState.mk [(0, 0), (0, 1 / 1000)] [] 0 true 2) rfl
  exact ⟨by decide, by decide, s1, h1, h2, h3⟩

theorem exists_empty_cluster (centroids points : List Point) (k : Nat)
    (hnk : points.length < k) : ∃ i, i < k ∧ members centroids points i = [] := by
  have hcard : ((points.map (closestCentroid centroids)).toFinset).card < (Finset.range k).card := by
    rw [Finset.card_range]
    calc ((points.map (closestCentroid centroids)).toFinset).card
        ≤ (points.map (closestCentroid centroids)).length := List.toFinset_card_le _
      _ = points.length := List.length_map _ _
      _ < k := hnk
  have hex : ∃ i, i ∈ Finset.range k ∧
      i ∉ (points.map (closestCentroid centroids)).toFinset := by
    by_contra hall
    push_neg at hall
    exact absurd (Finset.card_le_card (fun i hi => hall i hi)) (not_le.mpr hcard)
  obtain ⟨i, hi, hni⟩ := hex
  refine ⟨i, Finset.mem_range.mp hi, ?_⟩
  unfold members
  rw [List.filter_eq_nil_iff]
  intro p hp hpi
  apply hni
  rw [List.mem_toFinset, List.mem_map]
  exact ⟨p, hp, by simpa using hpi⟩

theorem fewer_points_outcome (fuel : Nat) (rnd : Nat → Unit01) (points : List Point)
    (k maxIterations : Nat) (hp : 0 < points.length) (hnk : points.length < k) :
    (∀ s : KState, s.centroids.length = k →
      ∃ s1, iterate rnd points k s = Outcome.returns s1 ∧ s1.changed = true ∧
        ∃ i, i < k ∧ members s.centroids points i = [] ∧
          ∃ p, p ∈ points ∧ s1.centroids[i]? = some p) ∧
    (∀ s, customKmeansRun fuel rnd points k maxIterations = Outcome.returns s →
      s.iteration = maxIterations) ∧
    (points.length ≤ distinctDraws rnd points.length fuel → maxIterations ≤ fuel →
      ∃ s, customKmeansRun fuel rnd points k maxIterations = Outcome.returns s ∧
        s.iteration = maxIterations) ∧
    (¬ points.length ≤ distinctDraws rnd points.length fuel →
      customKmeansRun fuel rnd points k maxIterations = Outcome.outOfFuel) := by
  have hk : 0 < k := by omega
  have hstep : ∀ s : KState, s.centroids.length = k →
      ∃ s1, iterate rnd points k s = Outcome.returns s1 ∧ s1.changed = true ∧
        ∃ i, i < k ∧ members s.centroids points i = [] ∧
          ∃ p, p ∈ points ∧ s1.centroids[i]? = some p := by
    intro s hs
    obtain ⟨s1, h1, -, -, -, -, h6⟩ := iterate_spec rnd points k s hp hk hs
    obtain ⟨i, hi, he⟩ := exists_empty_cluster s.centroids points k hnk
    exact ⟨s1, h1, ((h6 i hi).2 he).2, i, hi, he, ((h6 i hi).2 he).1⟩
  have hfinal : ∀ s, customKmeansRun fuel rnd points k maxIterations = Outcome.returns s →
      s.iteration = maxIterations := by
    intro s h
    obtain ⟨cs1, used1, t1, cs2, -, -, -, -, -, -, hlen2, -, -, hmain⟩ :=
      customKmeansRun_inv fuel rnd points k maxIterations hp hk s h
    have hinv := mainLoop_invariant rnd points (k : Int) maxIterations
      (fun s => s.centroids.length = k ∧ s.changed = true ∧ s.iteration ≤ maxIterations)
      (fun s s1 hI _ hit hiter => by
        obtain ⟨s1a, h1, h2⟩ := hstep s hI.1
        obtain ⟨s1b, h3, h4, h5, -⟩ := iterate_spec rnd points k s hp hk hI.1
        rw [h1] at hiter h3
        cases hiter
        cases h3
        exact ⟨h4, h2.1, by omega⟩)
      fuel (KState.mk cs2 [] 0 true t1) s ⟨hlen2, rfl, Nat.zero_le _⟩ hmain
    have h1 := hinv.1.2.1
    have h2 := hinv.1.2.2
    have h3 := hinv.2
    simp only [h1, true_and, not_lt] at h3
    omega
  have hmin : min k points.length = points.length := Nat.min_eq_right (by omega)
  have hout := customKmeansRun_outcome fuel rnd points (k : Int) maxIterations
  simp only [Int.toNat_ofNat, hmin] at hout
  refine ⟨hstep, hfinal, fun hd hf => ?_, fun hd => (hout.2 hd).1⟩
  obtain ⟨s, hs, -, -⟩ := hout.1 hd hf
  exact ⟨s, hs, hfinal s hs⟩

theorem mainLoop_fewer_points_inv (rnd : Nat → Unit01) (points : List Point)
    (k maxIterations : Nat) (hp : 0 < points.length) (hnk : points.length < k)
    (fuel : Nat) (s s1 : KState) (hs : s.centroids.length = k) (hc : s.changed = true)
    (hi : s.iteration ≤ maxIterations)
    (h : mainLoop rnd points (k : Int) maxIterations fuel s = Outcome.returns s1) :
    s1.iteration = maxIterations ∧ s1.changed = true ∧ s1.centroids.length = k := by
  have hk : 0 < k := by omega
  have hinv := mainLoop_invariant rnd points (k : Int) maxIterations
    (fun s => s.centroids.length = k ∧ s.changed = true ∧ s.iteration ≤ maxIterations)
    (fun s s1 hI _ hit hiter => by
      obtain ⟨s1a, h1, h2, -⟩ :=
        (fewer_points_outcome 0 rnd points k maxIterations hp hnk).1 s hI.1
      obtain ⟨s1b, h3, h4, h5, -⟩ := iterate_spec rnd points k s hp hk hI.1
      rw [h1] at hiter h3
      cases hiter
      cases h3
      exact ⟨h4, h2, by omega⟩)
    fuel s s1 ⟨hs, hc, hi⟩ h
  have h1 := hinv.1.2.1
  have h2 := hinv.1.2.2
  have h3 := hinv.2
  simp only [h1, true_and, not_lt] at h3
  exact ⟨by omega, h1, hinv.1.1⟩

theorem mainLoop_fewer_points (rnd : Nat → Unit01) (points : List Point)
    (k maxIterations : Nat) (hp : 0 < points.length) (hnk : points.length < k)
    (fuel : Nat) (s : KState) (hs : s.centroids.length = k) (hc : s.changed = true)
    (hi : s.iteration ≤ maxIterations) (hf : maxIterations - s.iteration ≤ fuel) :
    ∃ s1, mainLoop rnd points (k : Int) maxIterations fuel s = Outcome.returns s1 ∧
      s1.iteration = maxIterations ∧ s1.changed = true := by
  obtain ⟨s1, h1, -, -⟩ :=
    mainLoop_returns rnd points k maxIterations hp (by omega) fuel s hs hi hf
  obtain ⟨h2, h3, -⟩ :=
    mainLoop_fewer_points_inv rnd points k maxIterations hp hnk fuel s s1 hs hc hi h1
  exact ⟨s1, h1, h2, h3⟩

theorem customKmeansRun_fewer_points (fuel : Nat) (rnd : Nat → Unit01) (points : List Point)
    (k maxIterations : Nat) (hp : 0 < points.length) (hnk : points.length < k) (s : KState)
    (h : customKmeansRun fuel rnd points (k : Int) maxIterations = Outcome.returns s) :
    s.iteration = maxIterations ∧ s.changed = true := by
  obtain ⟨cs1, used1, t1, cs2, -, -, -, -, -, -, hlen2, -, -, hmain⟩ :=
    customKmeansRun_inv fuel rnd points k maxIterations hp (by omega) s h
  obtain ⟨h1, h2, -⟩ := mainLoop_fewer_points_inv rnd points k maxIterations hp hnk fuel
    (KState.mk cs2 [] 0 true t1) s hlen2 rfl (Nat.zero_le _) hmain
  exact ⟨h1, h2⟩

/-- Claim C20, reinitialisation blocks convergence.  For a non-empty point list
with fewer than `k` points and every random source: every pass of the main loop of
`customKmeans` leaves some cluster empty, reinitialises it to an input point and
sets `changed`; so the loop, entered with `k` centroids and `changed = true`,
terminates after exactly `maxIterations` passes in all, with `changed` still set:
it ends at the iteration cap and never by convergence, and so does every call of
`customKmeans` that returns. -/
theorem reinitialisation_blocks_convergence (rnd : Nat → Unit01)
    (points : List Point) (k maxIterations : Nat) (hp : 0 < points.length)
    (hnk : points.length < k) :
    (∀ s : KState, s.centroids.length = k →
      ∃ s1, iterate rnd points k s = Outcome.returns s1 ∧ s1.changed = true ∧
        ∃ i, i < k ∧ members s.centroids points i = [] ∧
          ∃ p, p ∈ points ∧ s1.centroids[i]? = some p) ∧
    (∀ (fuel : Nat) (s : KState), s.centroids.length = k → s.changed = true →
      s.iteration ≤ maxIterations → maxIterations - s.iteration ≤ fuel →
      ∃ s1, mainLoop rnd points k maxIterations fuel s = Outcome.returns s1 ∧
        s1.iteration = maxIterations ∧ s1.changed = true) ∧
    (∀ (fuel : Nat) (centroids : List Point) (t : Nat), centroids.length = k →
      maxIterations ≤ fuel →
      ∃ s1, mainLoop rnd points k maxIterations fuel (KState.mk centroids [] 0 true t)
          = Outcome.returns s1 ∧
        s1.iteration = maxIterations ∧ s1.changed = true) ∧
    (∀ (fuel : Nat) (s : KState),
      customKmeansRun fuel rnd points k maxIterations = Outcome.returns s →
      s.iteration = maxIterations ∧ s.changed = true) := by
  refine ⟨(fewer_points_outcome 0 rnd points k maxIterations hp hnk).1,
    fun fuel s hs hc hi hf =>
      mainLoop_fewer_points rnd points k maxIterations hp hnk fuel s hs hc hi hf,
    fun fuel centroids t hc hf =>
      mainLoop_fewer_points rnd points k maxIterations hp hnk fuel _ hc rfl (Nat.zero_le _)
        (by simpa using hf),
    fun fuel s h => customKmeansRun_fewer_points fuel rnd points k maxIterations hp hnk s h⟩

theorem reinitialisation_blocks_convergence_witness :
    0 < ([(0, 0), (1, 1)] : List Point).length ∧ ([(0, 0), (1, 1)] : List Point).length < 3 ∧
    ∃ s1, mainLoop constantSource [(0, 0), (1, 1)] (3 : Nat) 7 7
        (KState.mk [(0, 0), (1, 1), (0, 0)] [] 0 true 2) = Outcome.returns s1 ∧
      s1.iteration = 7 ∧ s1.changed = true :=
  ⟨by decide, by decide,
    (reinitialisation_blocks_convergence constantSource [(0, 0), (1, 1)] 3 7 (by decide)
      (by decide)).2.2.1 7 [(0, 0), (1, 1), (0, 0)] 2 rfl (by decide)⟩

/-! ## Convergence is a fixed point -/

theorem forEach_assign_flag (cs : List Point) (assignments : List Nat) :
    ∀ (points : List Point) (i : Nat) (s : List Nat × Bool),
      (forEach (assignBody cs assignments) points i s).2 = false →
      s.2 = false ∧
        ∀ (j : Nat) (p : Point), points[j]? = some p →
          assignments[i + j]? = some (closestCentroid cs p)
  | [], i, s, h => ⟨by simpa [forEach] using h, by simp⟩
  | q :: qs, i, s, h => by
    simp only [forEach] at h
    obtain ⟨h1, h2⟩ := forEach_assign_flag cs assignments qs (i + 1) _ h
    simp only [assignBody, Bool.or_eq_false_iff, decide_eq_false_iff_not, not_le, ne_eq,
      not_not] at h1
    refine ⟨h1.1.1, fun j p hj => ?_⟩
    cases j with
    | zero =>
      simp only [List.getElem?_cons_zero, Option.some.injEq] at hj
      subst hj
      exact h1.2
    | succ j =>
      rw [List.getElem?_cons_succ] at hj
      have := h2 j p hj
      rwa [show i + 1 + j = i + (j + 1) by omega] at this

theorem assignStep_unchanged (cs : List Point) (assignments : List Nat) (points : List Point)
    (h : (assignStep cs assignments points).2 = false) :
    ∀ (j : Nat) (p : Point), points[j]? = some p →
      assignments[j]? = some (closestCentroid cs p) := by
  intro j p hj
  have := (forEach_assign_flag cs assignments points 0 ([], false) h).2 j p hj
  simpa using this

theorem members_congr (cs1 cs2 points : List Point) (i : Nat)
    (h : ∀ p, p ∈ points → closestCentroid cs1 p = closestCentroid cs2 p) :
    members cs1 points i = members cs2 points i := by
  unfold members
  apply List.filter_congr
  intro p hp
  rw [h p hp]

/-- The last pass of a converged run: `changed = false` after a pass from `s0`
means that `s0` came out of an earlier pass, that no cluster was empty, and that
the new centroids are the centroids of `s0`. -/
theorem iterate_converged (rnd : Nat → Unit01) (points : List Point) (k : Nat)
    (hp : 0 < points.length) (hk : 0 < k) (s0 s : KState)
    (hlen : s0.centroids.length = k)
    (hinit : s0.iteration = 0 → s0.assignments = [])
    (hprev : 0 < s0.iteration → ∃ prev : List Point, prev.length = k ∧
      s0.assignments = points.map (closestCentroid prev) ∧
      ∀ i, i < k → members prev points i ≠ [] →
        s0.centroids[i]? = some (mean (members prev points i)))
    (hiter : iterate rnd points (k : Int) s0 = Outcome.returns s)
    (hconv : s.changed = false) :
    0 < s0.iteration ∧ (∀ i, i < k → members s0.centroids points i ≠ []) ∧
      s.centroids = s0.centroids ∧
      s.assignments = points.map (closestCentroid s0.centroids) ∧
      ∀ i, i < k → s.centroids[i]? = some (mean (members s0.centroids points i)) := by
  obtain ⟨s1, h1, h2, -, h4, h5, h6⟩ := iterate_spec rnd points k s0 hp hk hlen
  rw [h1] at hiter
  cases hiter
  rw [hconv] at h5
  have hflag : (assignStep s0.centroids s0.assignments points).2 = false := by
    cases hf : (assignStep s0.centroids s0.assignments points).2
    · rfl
    · rw [hf] at h5; simp at h5
  have hne : ∀ i, i < k → members s0.centroids points i ≠ [] := by
    intro i hi he
    have := ((h6 i hi).2 he).2
    rw [hconv] at this
    cases this
  have hsame := assignStep_unchanged s0.centroids s0.assignments points hflag
  have hpos : 0 < s0.iteration := by
    by_contra h0
    have hnil := hinit (by omega)
    have := hsame 0 points[0] (List.getElem?_eq_getElem hp)
    rw [hnil] at this
    simp at this
  obtain ⟨prev, hpl, hpa, hpm⟩ := hprev hpos
  have hagree : ∀ p, p ∈ points → closestCentroid prev p = closestCentroid s0.centroids p := by
    intro p hpm
    obtain ⟨j, hj⟩ := List.mem_iff_getElem?.mp hpm
    have := hsame j p hj
    rw [hpa, List.getElem?_map, hj] at this
    simpa using this
  have hcent : ∀ i, i < k → s.centroids[i]? = some (mean (members s0.centroids points i)) :=
    fun i hi => (h6 i hi).1 (hne i hi)
  refine ⟨hpos, hne, ?_, h4, hcent⟩
  apply List.ext_getElem?
  intro i
  by_cases hi : i < k
  · rw [hcent i hi]
    have hm := members_congr prev s0.centroids points i hagree
    have := hpm i hi (by rw [hm]; exact hne i hi)
    rw [this, hm]
  · rw [List.getElem?_eq_none (by omega), List.getElem?_eq_none (by omega)]

theorem customKmeansRun_converged (fuel : Nat) (rnd : Nat → Unit01) (points : List Point)
    (k maxIterations : Nat) (hp : 0 < points.length) (hk : 0 < k) (s : KState)
    (h : customKmeansRun fuel rnd points (k : Int) maxIterations = Outcome.returns s)
    (hconv : s.changed = false) :
    ∃ s0 : KState, iterate rnd points (k : Int) s0 = Outcome.returns s ∧
      s0.centroids.length = k ∧ 0 < s0.iteration ∧ s.iteration = s0.iteration + 1 ∧
      (∀ i, i < k → members s0.centroids points i ≠ []) ∧
      s.centroids = s0.centroids ∧
      s.assignments = points.map (closestCentroid s.centroids) ∧
      (∀ i, i < k → members s.centroids points i ≠ []) ∧
      ∀ i, i < k → s.centroids[i]? = some (mean (members s.centroids points i)) := by
  obtain ⟨cs1, used1, t1, cs2, -, -, -, -, -, -, hlen2, -, -, hmain⟩ :=
    customKmeansRun_inv fuel rnd points k maxIterations hp hk s h
  have hA : ∀ s s1 : KState,
      (s.centroids.length = k ∧ (s.iteration = 0 → s.assignments = [] ∧ s.changed = true) ∧
        (0 < s.iteration → ∃ prev : List Point, prev.length = k ∧
          s.assignments = points.map (closestCentroid prev) ∧
          ∀ i, i < k → members prev points i ≠ [] →
            s.centroids[i]? = some (mean (members prev points i)))) →
      iterate rnd points (k : Int) s = Outcome.returns s1 →
      (s1.centroids.length = k ∧ (s1.iteration = 0 → s1.assignments = [] ∧ s1.changed = true) ∧
        (0 < s1.iteration → ∃ prev : List Point, prev.length = k ∧
          s1.assignments = points.map (closestCentroid prev) ∧
          ∀ i, i < k → members prev points i ≠ [] →
            s1.centroids[i]? = some (mean (members prev points i)))) ∧
        s1.iteration = s.iteration + 1 := by
    intro s s1 hs hiter
    obtain ⟨s1a, h1, h2, h3, h4, -, h6⟩ := iterate_spec rnd points k s hp hk hs.1
    rw [h1] at hiter
    cases hiter
    exact ⟨⟨h2, fun h0 => by omega,
      fun _ => ⟨s.centroids, hs.1, h4, fun i hi hne => (h6 i hi).1 hne⟩⟩, h3⟩
  have hinv := mainLoop_invariant rnd points (k : Int) maxIterations
    (fun s =>
      (s.centroids.length = k ∧ (s.iteration = 0 → s.assignments = [] ∧ s.changed = true) ∧
        (0 < s.iteration → ∃ prev : List Point, prev.length = k ∧
          s.assignments = points.map (closestCentroid prev) ∧
          ∀ i, i < k → members prev points i ≠ [] →
            s.centroids[i]? = some (mean (members prev points i)))) ∧
      (0 < s.iteration → ∃ s0 : KState,
        (s0.centroids.length = k ∧
          (s0.iteration = 0 → s0.assignments = [] ∧ s0.changed = true) ∧
          (0 < s0.iteration → ∃ prev : List Point, prev.length = k ∧
            s0.assignments = points.map (closestCentroid prev) ∧
            ∀ i, i < k → members prev points i ≠ [] →
              s0.centroids[i]? = some (mean (members prev points i)))) ∧
        iterate rnd points (k : Int) s0 = Outcome.returns s))
    (fun s s1 hI _ _ hiter => ⟨(hA s s1 hI.1 hiter).1, fun _ => ⟨s, hI.1, hiter⟩⟩)
    fuel (KState.mk cs2 [] 0 true t1) s
    ⟨⟨hlen2, fun _ => ⟨rfl, rfl⟩, fun h0 => by simp at h0⟩, fun h0 => by simp at h0⟩ hmain
  obtain ⟨⟨hAs, hhist⟩, -⟩ := hinv
  have hpos : 0 < s.iteration := by
    by_contra h0
    have := (hAs.2.1 (by omega)).2
    rw [hconv] at this
    cases this
  obtain ⟨s0, hA0, hiter⟩ := hhist hpos
  obtain ⟨c1, c2, c3, c4, c5⟩ := iterate_converged rnd points k hp hk s0 s hA0.1
    (fun h0 => (hA0.2.1 h0).1) hA0.2.2 hiter hconv
  refine ⟨s0, hiter, hA0.1, c1, (hA s0 s hA0 hiter).2, c2, c3, ?_, ?_, ?_⟩
  · rw [c3]; exact c4
  · rw [c3]; exact c2
  · rw [c3]; rw [c3] at c5; exact c5

theorem converged_grouping (fuel : Nat) (rnd : Nat → Unit01) (venues : List Venue) (k : Nat)
    (hk : 1 ≤ k) (hv : venues ≠ []) (s : KState)
    (h : customKmeansRun fuel rnd (venues.map coords) (k : Int) 100 = Outcome.returns s)
    (hconv : s.changed = false) :
    ∃ clusters, VenueHandler.processVenueClusters fuel rnd venues k = Outcome.returns clusters ∧
      ∀ j, j < k → ∃ cluster, clusters[j]? = some cluster ∧ cluster ≠ [] ∧
        cluster = venues.filter
          (fun venue => decide (closestCentroid s.centroids (coords venue) = j)) ∧
        s.centroids[j]? = some (mean (cluster.map coords)) := by
  have hp : 0 < (venues.map coords).length := by
    rw [List.length_map]
    exact List.length_pos.mpr hv
  obtain ⟨s0, -, -, -, -, -, -, -, hne, hmean⟩ :=
    customKmeansRun_converged fuel rnd (venues.map coords) k 100 hp hk s h hconv
  have hlen := (customKmeansRun_final fuel rnd (venues.map coords) k 100 hp hk s h).1
  have hkm : customKmeans fuel rnd (venues.map coords) (k : Int) 100
      = Outcome.returns s.centroids := by
    rw [customKmeans_eq_of_run _ _ _ _ _ _ h]
    rfl
  obtain ⟨clusters, hgroup⟩ := groupVenues_returns s.centroids venues k hlen hk
  have hpts : (venues.map fun venue => (venue.longitude, venue.latitude))
      = venues.map coords := rfl
  have hrun : VenueHandler.processVenueClusters fuel rnd venues k
      = Outcome.returns clusters := by
    rw [(primaryPath_outcome fuel rnd venues k hk hv).2.1]
    simp only [VenueHandler.primaryPath, hpts, hkm, Outcome.bind]
    exact hgroup
  refine ⟨clusters, hrun, fun j hj => ?_⟩
  simp only [VenueHandler.groupVenues, emptyClusters_natCast, Outcome.bind] at hgroup
  have hf := forEachM_push_filter
    (fun venue => closestCentroid s.centroids (venue.longitude, venue.latitude))
    venues 0 (List.replicate k []) clusters hgroup j
  simp only [List.getElem?_replicate, hj, if_true, Option.map_some', List.nil_append] at hf
  have hmap : (venues.filter
      (fun venue => decide (closestCentroid s.centroids (coords venue) = j))).map coords
      = members s.centroids (venues.map coords) j := by
    unfold members
    rw [List.filter_map]
    rfl
  refine ⟨_, hf, ?_, rfl, ?_⟩
  · intro he
    apply hne j hj
    rw [← hmap]
    have : (venues.filter
        (fun venue => decide (closestCentroid s.centroids (coords venue) = j))) = [] := he
    rw [this]
    rfl
  · have : (venues.filter
        (fun venue => decide (closestCentroid s.centroids (venue.longitude, venue.latitude) = j)))
        = venues.filter
          (fun venue => decide (closestCentroid s.centroids (coords venue) = j)) := rfl
    rw [this, hmap]
    exact hmean j hj

/-- Claim C21, a converged result is a k-means fixed point.  For `k ≥ 1` and a
non-empty venue list: when `customKmeans` returns with `changed = false`, its last
pass started from a state `s0` that had been through an earlier pass, no cluster
was empty in it and the returned centroids are the centroids of `s0`, the ones
that pass assigned with; so every returned centroid is the mean of the points
nearest to it, and in `processVenueClusters` every final cluster is non-empty and
centroid `j` is the coordinate-wise mean of the venues placed in cluster `j`. -/
theorem converged_fixed_point (fuel : Nat) (rnd : Nat → Unit01) (venues : List Venue)
    (k maxIterations : Nat) (hk : 1 ≤ k) (hv : venues ≠ []) :
    (∀ s, customKmeansRun fuel rnd (venues.map coords) k maxIterations = Outcome.returns s →
      s.changed = false →
      ∃ s0 : KState, iterate rnd (venues.map coords) k s0 = Outcome.returns s ∧
        s0.centroids.length = k ∧ 0 < s0.iteration ∧ s.iteration = s0.iteration + 1 ∧
        (∀ i, i < k → members s0.centroids (venues.map coords) i ≠ []) ∧
        s.centroids = s0.centroids ∧
        s.assignments = (venues.map coords).map (closestCentroid s.centroids) ∧
        (∀ i, i < k → members s.centroids (venues.map coords) i ≠ []) ∧
        ∀ i, i < k →
          s.centroids[i]? = some (mean (members s.centroids (venues.map coords) i))) ∧
    (∀ s, customKmeansRun fuel rnd (venues.map coords) k 100 = Outcome.returns s →
      s.changed = false →
      ∃ clusters, VenueHandler.processVenueClusters fuel rnd venues k
          = Outcome.returns clusters ∧
        ∀ j, j < k → ∃ cluster, clusters[j]? = some cluster ∧ cluster ≠ [] ∧
          cluster = venues.filter
            (fun venue => decide (closestCentroid s.centroids (coords venue) = j)) ∧
          s.centroids[j]? = some (mean (cluster.map coords))) := by
  have hp : 0 < (venues.map coords).length := by
    rw [List.length_map]
    exact List.length_pos.mpr hv
  exact ⟨fun s h hconv =>
      customKmeansRun_converged fuel rnd (venues.map coords) k maxIterations hp hk s h hconv,
    fun s h hconv => converged_grouping fuel rnd venues k hk hv s h hconv⟩

theorem converged_fixed_point_witness :
    1 ≤ 2 ∧ scenarioVenues ≠ [] ∧
    customKmeansRun 100 cyclicSource (scenarioVenues.map coords) (2 : Nat) 100
      = Outcome.returns
        (KState.mk [(0, 1 / 2000), (5, 10001 / 2000)] [0, 0, 1, 1] 3 false 2) ∧
    ∃ clusters, VenueHandler.processVenueClusters 100 cyclicSource scenarioVenues (2 : Nat)
        = Outcome.returns clusters ∧
      ∀ j, j < 2 → ∃ cluster, clusters[j]? = some cluster ∧ cluster ≠ [] ∧
        cluster = scenarioVenues.filter (fun venue => decide
          (closestCentroid [(0, 1 / 2000), (5, 10001 / 2000)] (coords venue) = j)) ∧
        ([(0, 1 / 2000), (5, 10001 / 2000)] : List Point)[j]?
          = some (mean (cluster.map coords)) := by
  have hrun : customKmeansRun 100 cyclicSource (scenarioVenues.map coords) (2 : Nat) 100
      = Outcome.returns
        (KState.mk [(0, 1 / 2000), (5, 10001 / 2000)] [0, 0, 1, 1] 3 false 2) := by
    decide!
  exact ⟨by decide, by decide, hrun,
    (converged_fixed_point 100 cyclicSource scenarioVenues 2 100 (by decide) (by decide)).2
      _ hrun rfl⟩

/-! ## Client and server copies -/

/-- Claim C22, client and server copies agree.  For all inputs `determineWaypoints`,
`orderWaypoints` and `calculateDistance` of `public/js/routing.js` return what the
functions of the same name exported by `src/utils/clustering.js` return, and
`fallbackClustering` of `public/js/venues.js` has the outcome of the server's
`fallbackClustering`, for every `k`. -/
theorem client_server_agree (clusters : List (List Venue)) (waypoints : List LatLng)
    (start endPoint : LatLng) (venues : List Venue) (k : Int) :
    RouteHandler.determineWaypoints clusters start endPoint
      = Clustering.determineWaypoints clusters start endPoint ∧
    RouteHandler.orderWaypoints waypoints start endPoint
      = Clustering.orderWaypoints waypoints start endPoint ∧
    RouteHandler.calculateDistance start endPoint
      = Clustering.calculateDistance start endPoint ∧
    VenueHandler.fallbackClustering venues k = Clustering.fallbackClustering venues k :=
  ⟨(server_determineWaypoints_eq clusters start endPoint).symm,
    (server_orderWaypoints_eq waypoints start endPoint).symm,
    (server_calculateDistance_eq start endPoint).symm,
    clientFallback_eq_serverFallback venues k⟩

end SmartRoute
